import Mathlib

/-! SubScratcher: the Scratch resolution pipeline.

A shallow embedding of `Scratch/cmd/hosts.go`, `Scratch/cmd/engine.go`,
`Scratch/cmd/obfuscate.go` and the subnet clustering of `Scratch/cmd/main.go`,
followed by the properties of the specification that were checked against it.

Conventions of the embedding:

* a Go `string` is a list of runes (`Str`); the text is taken to be valid UTF-8;
* a Go `map[string]T` is an association list with first-match lookup
  (`mapGet`) and update-in-place-or-append (`mapSet`); a `range` over a map
  is given the list of entries in the order they are visited (`IsRange`),
  since Go leaves that order open;
* `nil` and empty slices are both `[]`;
* package-level variables (`localHosts`, `offlineMode`, `registry`) are passed
  explicitly;
* the network, the IP-intelligence client and the random source are oracle
  parameters, and so is the rune table of `unicode.ToLower`, which belongs to
  the Go library; goroutines are modelled by explicit interleavings and the
  ticker by its tick events, with their times where time matters.
-/

namespace SubScratcher

/-! ## Strings -/

/-- A Go string, as its sequence of runes. -/
abbrev Str := List Char

/-- Go `unicode.IsSpace`: the white-space runes of Unicode. -/
def isSpace (c : Char) : Bool :=
  let n := c.toNat
  (0x09 ≤ n && n ≤ 0x0D) || n == 0x20 || n == 0x85 || n == 0xA0 || n == 0x1680 ||
    (0x2000 ≤ n && n ≤ 0x200A) || n == 0x2028 || n == 0x2029 || n == 0x202F ||
    n == 0x205F || n == 0x3000

/-- Go `strings.TrimSpace`: drop leading and trailing white space. -/
def trimSpace (s : Str) : Str :=
  ((s.dropWhile isSpace).reverse.dropWhile isSpace).reverse

/-- The scanning loop of Go `strings.Fields`; `cur` is the field being read, reversed. -/
def fieldsAux : Str → Str → List Str
  | [], cur => if cur.isEmpty then [] else [cur.reverse]
  | c :: cs, cur =>
    if isSpace c then
      if cur.isEmpty then fieldsAux cs [] else cur.reverse :: fieldsAux cs []
    else fieldsAux cs (c :: cur)

/-- Go `strings.Fields`: the maximal runs of non-space runes, in order. -/
def fields (s : Str) : List Str := fieldsAux s []

/-- Go `strings.ToLower`: every rune is sent through `unicode.ToLower`. That
function is a table of the Go library, not of this repository; it is the
parameter `lower`, and what is proved below holds for every table. -/
def toLower (lower : Char → Char) (s : Str) : Str := s.map lower

/-- Go `strings.HasPrefix`. -/
def startsWith (s pre : Str) : Bool := pre.isPrefixOf s

/-- Go `strings.Join`. -/
def join : List Str → Str → Str
  | [], _ => []
  | [a], _ => a
  | a :: b :: rest, sep => a ++ sep ++ join (b :: rest) sep

/-- The `%v` verb of Go `fmt` on a `[]string`: the elements between square
brackets, separated by one space. -/
def fmtV (xs : List Str) : Str := '[' :: (join xs [' '] ++ [']'])

/-! ## Maps -/

/-- A Go `map[string]β`. -/
abbrev GoMap (β : Type) := List (Str × β)

/-- The lookup `m[k]` with its presence flag, as an option. -/
def mapGet {β : Type} : GoMap β → Str → Option β
  | [], _ => none
  | (k', v) :: m, k => if k' = k then some v else mapGet m k

/-- The assignment `m[k] = v`. -/
def mapSet {β : Type} : GoMap β → Str → β → GoMap β
  | [], k, v => [(k, v)]
  | (k', v') :: m, k, v => if k' = k then (k, v) :: m else (k', v') :: mapSet m k v

/-! ## hosts.go -/

/-- The variable `localHosts`: host name to address list. -/
abbrev HostsMap := GoMap (List Str)

/-- What `os.Open` and `bufio.Scanner` deliver for a hosts file: an open
failure, or the lines the scanner yields followed by the scanner's final
error, if any. The scanner stops with an error at a read failure and, with
`ErrTooLong`, at a line of 64 KiB or more, which its default buffer cannot
hold (hosts.go:21); the lines from there on are not delivered. -/
structure HostsFile where
  openErr : Option Str
  lines : List Str
  scanErr : Option Str
deriving DecidableEq, Repr

/-- A file that opens and is read to its end: just its lines. -/
def HostsFile.ofLines (lines : List Str) : HostsFile :=
  { openErr := none, lines := lines, scanErr := none }

/-- The errors `loadHostsFile` returns. `invalidEntry n` is
`fmt.Errorf("invalid hosts entry at line %d", n)`. -/
inductive LoadError where
  | openFailed (e : Str)
  | invalidEntry (lineNum : Nat)
  | scanFailed (e : Str)
deriving DecidableEq, Repr

/-- The `for scanner.Scan()` loop of `loadHostsFile` (hosts.go:24-36), over the
lines still to come, the line counter and the map built so far. -/
def loadLoop (lower : Char → Char) : List Str → Nat → HostsMap → Except LoadError HostsMap
  | [], _, hosts => .ok hosts
  | raw :: rest, lineNum, hosts =>
    let lineNum := lineNum + 1
    let line := trimSpace raw
    if line = [] || startsWith line ['#'] then loadLoop lower rest lineNum hosts
    else
      match fields line with
      | f0 :: f1 :: more =>
        let host := toLower lower f0
        loadLoop lower rest lineNum
          (mapSet hosts host ((mapGet hosts host).getD [] ++ (f1 :: more)))
      | _ => .error (.invalidEntry lineNum)

/-- The function `loadHostsFile` (hosts.go:13-43). The error of the scanner is
looked at only after the loop has run over every line the scanner delivered
(hosts.go:38-40). -/
def loadHostsFile (lower : Char → Char) (f : HostsFile) : Except LoadError HostsMap :=
  match f.openErr with
  | some e => .error (.openFailed e)
  | none =>
    match loadLoop lower f.lines 0 [] with
    | .error e => .error e
    | .ok hosts =>
      match f.scanErr with
      | some e => .error (.scanFailed e)
      | none => .ok hosts

/-- The function `lookupLocalHosts` (hosts.go:45-51). -/
def lookupLocalHosts (lower : Char → Char) (localHosts : HostsMap) (target : Str) :
    List Str × Bool :=
  if localHosts.length = 0 then ([], false)
  else
    match mapGet localHosts (toLower lower target) with
    | some ips => (ips, true)
    | none => ([], false)

/-! ## engine.go: resolution -/

/-- The network, as two oracles: `viaResolver resolverAddr target` is what
`r.LookupHost` answers through the resolver at `resolverAddr`, and
`lookupIP target` is what `net.LookupIP` answers (addresses already rendered
by `ip.String()`). An answer is an address list and an optional error. -/
structure Network where
  viaResolver : Str → Str → List Str × Option Str
  lookupIP : Str → List Str × Option Str

/-- A query sent to the network. -/
inductive NetQuery where
  | viaResolver (resolverAddr target : Str)
  | lookupIP (target : Str)
deriving DecidableEq, Repr

/-- The three results of `lookupHost`, and the network queries it issued. -/
structure HostLookup where
  ips : List Str
  resolverUsed : Str
  err : Option Str
  queries : List NetQuery
deriving DecidableEq, Repr

/-- The error `fmt.Errorf("offline mode")`. -/
def offlineError : Str := "offline mode".toList

/-- The function `lookupHost` (engine.go:55-76). -/
def lookupHost (lower : Char → Char) (localHosts : HostsMap) (offlineMode : Bool)
    (net : Network) (target resolverAddr : Str) : HostLookup :=
  match lookupLocalHosts lower localHosts target with
  | (ips, true) => { ips := ips, resolverUsed := "local".toList, err := none, queries := [] }
  | (_, false) =>
    if offlineMode then
      { ips := [], resolverUsed := resolverAddr, err := some offlineError, queries := [] }
    else
      let ans := net.viaResolver resolverAddr target
      { ips := ans.1, resolverUsed := resolverAddr, err := ans.2,
        queries := [.viaResolver resolverAddr target] }

/-! ## engine.go: the registry -/

/-- The struct `IPInfo` (engine.go:19-24). `Count` is a Go `int`; it never
exceeds the length of `Domains`, so no wrap-around is modelled. -/
structure IPInfo where
  Count : Nat
  Domains : List Str
  Source : Str
deriving DecidableEq, Repr

/-- The variable `registry`. -/
abbrev Registry := GoMap IPInfo

/-- The function `registerIP` (engine.go:268-274). -/
def registerIP (registry : Registry) (ip domain source : Str) : Registry :=
  let registry :=
    match mapGet registry ip with
    | none => mapSet registry ip { Count := 0, Domains := [], Source := source }
    | some _ => registry
  match mapGet registry ip with
  | some info =>
    mapSet registry ip { info with Count := info.Count + 1, Domains := info.Domains ++ [domain] }
  | none => registry

/-- The loop `for _, ip := range ips { registerIP(ip, target, source) }`. -/
def registerAll (registry : Registry) (ips : List Str) (target source : Str) : Registry :=
  ips.foldl (fun reg ip => registerIP reg ip target source) registry

/-- The function `resolveAndRegister` (engine.go:277-295): the registry after
the call, and the network queries it issued. -/
def resolveAndRegister (lower : Char → Char) (localHosts : HostsMap) (offlineMode : Bool)
    (net : Network) (target source : Str) (registry : Registry) : Registry × List NetQuery :=
  match lookupLocalHosts lower localHosts target with
  | (ips, true) => (registerAll registry ips target source, [])
  | (_, false) =>
    if offlineMode then (registry, [])
    else
      match net.lookupIP target with
      | (_, some _) => (registry, [.lookupIP target])
      | (ips, none) => (registerAll registry ips target source, [.lookupIP target])

/-! ## obfuscate.go -/

/-- The table `resolverNames` (obfuscate.go:9-17). -/
def resolverNames : GoMap Str :=
  [("8.8.8.8:53".toList, "Google".toList),
   ("1.1.1.1:53".toList, "Cloudflare".toList),
   ("9.9.9.9:53".toList, "Quad9".toList),
   ("208.67.222.222:53".toList, "OpenDNS".toList),
   ("8.8.4.4:53".toList, "Google-2".toList),
   ("1.0.0.1:53".toList, "Cloudflare-2".toList),
   ("149.112.112.112:53".toList, "Quad9-2".toList)]

/-- The function `getResolverName` (obfuscate.go:27-35). -/
def getResolverName (ip : Str) : Str :=
  if ip = "local".toList then "LocalHosts".toList
  else
    match mapGet resolverNames ip with
    | some name => name
    | none => ip

/-! ## engine.go: the worker -/

/-- The results of `cdnClient.Check` that its two callers read: `matched`, the
provider name `val`, and the third result, which the worker binds to the
variable `errStr` (engine.go:119). In the cdncheck library the third result
is the kind of the matched item, `cdn`, `waf` or `cloud`, and is empty when
nothing matched; the error is the fourth result, which both callers drop. -/
structure CdnAnswer where
  matched : Bool
  val : Str
  errStr : Str
deriving DecidableEq, Repr

/-- The answers `Check` of the cdncheck library gives: a match carries the
provider name and one of the kinds `cdn`, `waf` and `cloud`; without a match
the name and the kind are empty. -/
def CdnAnswer.isCheckResult (ans : CdnAnswer) : Bool :=
  if ans.matched then
    ans.errStr == "cdn".toList || ans.errStr == "waf".toList || ans.errStr == "cloud".toList
  else ans.val == [] && ans.errStr == []

/-- What stays fixed while a worker runs: the table of `unicode.ToLower`, the
package variables `localHosts` and `offlineMode`, the network, the
IP-intelligence client, and the arguments `domain`, `files` (the keys of the
map of open sinks), `urlOnly`, `ipOnly`, `silent`, `filterCDN` and
`wildcardIPs` of `scratchWorker`. The arguments `delay`, `jitter` and
`limiter` only suspend the worker and change no state. -/
structure WorkerEnv where
  lower : Char → Char
  localHosts : HostsMap
  offlineMode : Bool
  net : Network
  cdnCheck : Str → CdnAnswer
  domain : Str
  files : List Str
  urlOnly : Bool
  ipOnly : Bool
  silent : Bool
  filterCDN : Bool
  wildcardIPs : GoMap Bool

/-- The map read `wildcardIPs[ip]`: `false` for an absent key. -/
def wildcardHit (wildcardIPs : GoMap Bool) (ip : Str) : Bool :=
  (mapGet wildcardIPs ip).getD false

/-- The wildcard loop (engine.go:104-110): the value of `isWildcardSub` after it. -/
def isWildcardSub (wildcardIPs : GoMap Bool) : List Str → Bool
  | [] => true
  | ip :: rest => if !wildcardHit wildcardIPs ip then false else isWildcardSub wildcardIPs rest

/-- The tag for a wildcard address (engine.go:134). -/
def wildcardTag : Str := "[\x1b[33mCDN Anycast/Wildcard\x1b[0m]".toList

/-- The tag for any other address (engine.go:137). -/
def trueOriginTag : Str := "\x1b[1m\x1b[32m[TRUE ORIGIN]\x1b[0m".toList

/-- The tag `fmt.Sprintf("[%s CDN]", val)` (engine.go:132). -/
def cdnTag (val : Str) : Str := "[".toList ++ val ++ " CDN]".toList

/-- The local `isCDNProvider := matched && errStr == ""` (engine.go:120). -/
def isCdnProvider (ans : CdnAnswer) : Bool := ans.matched && ans.errStr == []

/-- The classification loop (engine.go:118-139), over the addresses still to
visit and the slices `filteredIPs` and `cdnTags` built so far. -/
def classifyLoop (cdnCheck : Str → CdnAnswer) (filterCDN : Bool) (wildcardIPs : GoMap Bool) :
    List Str → List Str → List Str → List Str × List Str
  | [], filteredIPs, cdnTags => (filteredIPs, cdnTags)
  | ip :: rest, filteredIPs, cdnTags =>
    let ans := cdnCheck ip
    let isCDNProvider := isCdnProvider ans
    let isWildcardIP := wildcardHit wildcardIPs ip
    if filterCDN && (isCDNProvider || isWildcardIP) then
      classifyLoop cdnCheck filterCDN wildcardIPs rest filteredIPs cdnTags
    else
      let filteredIPs := filteredIPs ++ [ip]
      if isCDNProvider then
        classifyLoop cdnCheck filterCDN wildcardIPs rest filteredIPs (cdnTags ++ [cdnTag ans.val])
      else if isWildcardIP then
        classifyLoop cdnCheck filterCDN wildcardIPs rest filteredIPs (cdnTags ++ [wildcardTag])
      else
        classifyLoop cdnCheck filterCDN wildcardIPs rest filteredIPs (cdnTags ++ [trueOriginTag])

/-- A candidate that reached the dedup step: the locals `cleanSub`, `target`,
`resolverName`, `filteredIPs` and `cdnTags` at engine.go:145. -/
structure Finding where
  cleanSub : Str
  target : Str
  resolverName : Str
  filteredIPs : List Str
  cdnTags : List Str
deriving DecidableEq, Repr

/-- The label as the worker uses it: `strings.ToLower(strings.TrimSpace(sub))`
(engine.go:82). -/
def cleanLabel (lower : Char → Char) (sub : Str) : Str := toLower lower (trimSpace sub)

/-- The name to resolve: `fmt.Sprintf("%s.%s", cleanSub, domain)` (engine.go:94). -/
def targetName (cleanSub domain : Str) : Str := cleanSub ++ ".".toList ++ domain

/-- The resolution of the candidate `sub` through the resolver address
`resolverAddr` drawn by `getRandomResolver` (engine.go:94-97). -/
def resolveCandidate (env : WorkerEnv) (sub resolverAddr : Str) : HostLookup :=
  lookupHost env.lower env.localHosts env.offlineMode env.net
    (targetName (cleanLabel env.lower sub) env.domain) resolverAddr

/-- The body of the worker loop from the resolution to the empty check
(engine.go:94-143) for the label `sub` and the resolver address
`resolverAddr`: `none` when the candidate is dropped (a resolution error, or
one of the two `continue`). -/
def probe (env : WorkerEnv) (sub resolverAddr : Str) : Option Finding :=
  let cleanSub := cleanLabel env.lower sub
  let target := targetName cleanSub env.domain
  let r := resolveCandidate env sub resolverAddr
  match r.err with
  | some _ => none
  | none =>
    let resolverName := getResolverName r.resolverUsed
    if isWildcardSub env.wildcardIPs r.ips then none
    else
      let fc := classifyLoop env.cdnCheck env.filterCDN env.wildcardIPs r.ips [] []
      if fc.1.length = 0 then none
      else
        some { cleanSub := cleanSub, target := target, resolverName := resolverName,
               filteredIPs := fc.1, cdnTags := fc.2 }

/-- The dedup key `fmt.Sprintf("%s-%v", cleanSub, filteredIPs)` (engine.go:145). -/
def recordKey (cleanSub : Str) (filteredIPs : List Str) : Str :=
  cleanSub ++ "-".toList ++ fmtV filteredIPs

/-- One write to standard output or to a sink file. -/
inductive OutEvent where
  /-- The progress line `[*] Probing: cleanSub.domain (n)` (engine.go:87). -/
  | progress (cleanSub domain : Str) (n : Nat)
  /-- A bare line: `fmt.Println(target)` or `fmt.Println(ip)` (engine.go:151, 154). -/
  | line (s : Str)
  /-- The `[+] FOUND:` line (engine.go:159-161). -/
  | found (target resolverName ipDisplay cdnDisplay : Str)
  /-- A record written to the sink file of extension `ext` by `writeToFiles`. -/
  | file (ext target ipStr resName : Str)
deriving DecidableEq, Repr

/-- Whether an output event is the progress line. -/
def OutEvent.isProgress : OutEvent → Bool
  | .progress _ _ _ => true
  | _ => false

/-- The function `writeToFiles` (engine.go:177-197): the records it writes. -/
def writeToFiles (files : List Str) (target : Str) (ips : List Str) (resName : Str) :
    List OutEvent :=
  let ipStr := join ips ", ".toList
  (["txt".toList, "csv".toList, "xml".toList, "grep".toList].filter (fun ext => decide (ext ∈ files))).map
    (fun ext => OutEvent.file ext target ipStr resName)

/-- The state a worker shares with the others: the dedup store `foundItems`
(its keys), the counter of candidates taken from the queue (an `int64`, far
from wrapping), the registry, and everything written so far. -/
structure WorkerState where
  foundItems : List Str
  counter : Nat
  registry : Registry
  out : List OutEvent
deriving DecidableEq, Repr

/-- The branch taken by the worker that stored the key (engine.go:147-170):
what it writes, and the registration of every surviving address. -/
def emit (env : WorkerEnv) (f : Finding) (st : WorkerState) : WorkerState :=
  let ipDisplay := join f.filteredIPs ", ".toList
  let cdnDisplay := join f.cdnTags ", ".toList
  let bare :=
    if env.urlOnly then [OutEvent.line f.target]
    else if env.ipOnly then f.filteredIPs.map OutEvent.line
    else []
  let console :=
    if !env.silent then [OutEvent.found f.target f.resolverName ipDisplay cdnDisplay] else []
  let sinks :=
    if env.files.length > 0 then writeToFiles env.files f.target f.filteredIPs f.resolverName
    else []
  { st with
    out := st.out ++ bare ++ console ++ sinks
    registry := registerAll st.registry f.filteredIPs f.target "Wordlist".toList }

/-- The head of an iteration (engine.go:82-88): the counter is incremented and,
when not silent, every tenth candidate prints the progress line. -/
def countCandidate (env : WorkerEnv) (sub : Str) (st : WorkerState) : WorkerState :=
  let cleanSub := cleanLabel env.lower sub
  let st := { st with counter := st.counter + 1 }
  if !env.silent && st.counter % 10 == 0 then
    { st with out := st.out ++ [OutEvent.progress cleanSub env.domain st.counter] }
  else st

/-- One iteration of the loop `for sub := range jobs` (engine.go:81-173) on the
label `job.1`, with `job.2` the resolver address drawn for it: the state after
it, and the finding it reported, if any. -/
def workerStep (env : WorkerEnv) (job : Str × Str) (st : WorkerState) :
    WorkerState × Option Finding :=
  let st := countCandidate env job.1 st
  match probe env job.1 job.2 with
  | none => (st, none)
  | some f =>
    let key := recordKey f.cleanSub f.filteredIPs
    if key ∈ st.foundItems then (st, none)
    else (emit env f { st with foundItems := st.foundItems ++ [key] }, some f)

/-- A worker draining the queue `jobs`, one candidate after the other: the
final state and the findings reported, in order. -/
def runWorker (env : WorkerEnv) : List (Str × Str) → WorkerState → WorkerState × List Finding
  | [], st => (st, [])
  | job :: rest, st =>
    let r := workerStep env job st
    let rs := runWorker env rest r.1
    (rs.1, r.2.toList ++ rs.2)

/-! ## engine.go: sequences of registrations -/

/-- One call `registerIP(ip, domain, source)`. -/
structure RegCall where
  ip : Str
  domain : Str
  source : Str
deriving DecidableEq, Repr

/-- A finite sequence of `registerIP` calls, made one after the other. -/
def registerCalls (registry : Registry) (calls : List RegCall) : Registry :=
  calls.foldl (fun reg c => registerIP reg c.ip c.domain c.source) registry

/-! ## engine.go: `registerIP` under concurrent callers

`scratchWorker` runs in several goroutines (main.go:176-179) and calls
`registerIP` (engine.go:168-170) on the package variable `registry` without
holding a lock. A call is then a sequence of memory accesses that may be
interleaved with those of another call. -/

/-- Where a goroutine stands inside a call of `registerIP`: before the
existence test and insertion (engine.go:269-271); before the read of `Count`
in `Count++` (engine.go:272); holding the count it read, before writing it
back; before the append to `Domains` (engine.go:273); returned. -/
inductive RegPc where
  | check
  | load
  | store (seen : Nat)
  | append
  | done
deriving DecidableEq, Repr

/-- A goroutine inside a call of `registerIP`. -/
structure RegThread where
  call : RegCall
  pc : RegPc
deriving DecidableEq, Repr

/-- One memory access of a goroutine inside `registerIP`. -/
def regMicroStep (t : RegThread) (reg : Registry) : RegThread × Registry :=
  match t.pc with
  | .check =>
    ({ t with pc := .load },
      match mapGet reg t.call.ip with
      | none => mapSet reg t.call.ip { Count := 0, Domains := [], Source := t.call.source }
      | some _ => reg)
  | .load =>
    ({ t with pc := .store (((mapGet reg t.call.ip).map fun i => i.Count).getD 0) }, reg)
  | .store seen =>
    ({ t with pc := .append },
      match mapGet reg t.call.ip with
      | some i => mapSet reg t.call.ip { i with Count := seen + 1 }
      | none => reg)
  | .append =>
    ({ t with pc := .done },
      match mapGet reg t.call.ip with
      | some i => mapSet reg t.call.ip { i with Domains := i.Domains ++ [t.call.domain] }
      | none => reg)
  | .done => (t, reg)

/-- The goroutine `i` of `threads` makes its next memory access. -/
def scheduleStep (i : Nat) (threads : List RegThread) (reg : Registry) :
    List RegThread × Registry :=
  match threads.get? i with
  | none => (threads, reg)
  | some t =>
    let r := regMicroStep t reg
    (threads.set i r.1, r.2)

/-- An interleaving: the goroutines named by `schedule` step in that order. -/
def runSchedule : List Nat → List RegThread → Registry → List RegThread × Registry
  | [], threads, reg => (threads, reg)
  | i :: rest, threads, reg =>
    let r := scheduleStep i threads reg
    runSchedule rest r.1 r.2

/-! ## engine.go: the token bucket -/

/-- The buffered channel `tokens` with its ticker: the capacity of the
channel, the number of tokens it holds, and the period of the ticker in
nanoseconds. -/
structure TokenBucket where
  burst : Nat
  tokens : Nat
  intervalNs : Nat
deriving DecidableEq, Repr

/-- What `newTokenBucket` does: it returns the nil channel; or
`time.NewTicker` panics on an interval that is not positive; or it returns
the channel of a bucket. -/
inductive NewBucket where
  | unlimited
  | tickerPanic
  | bucket (b : TokenBucket)
deriving DecidableEq, Repr

/-- The function `newTokenBucket` (engine.go:28-53). The interval is
`time.Second / time.Duration(qps)`, an integer division of nanoseconds. -/
def newTokenBucket (qps burst : Int) : NewBucket :=
  if qps ≤ 0 then .unlimited
  else
    let burst := if burst ≤ 0 then 1 else burst
    let interval := (1000000000 : Int) / qps
    if interval ≤ 0 then .tickerPanic
    else .bucket { burst := burst.toNat, tokens := burst.toNat, intervalNs := interval.toNat }

/-- A tick of the ticker (engine.go:44-49): a send that is dropped when the
channel is full. -/
def TokenBucket.tick (b : TokenBucket) : TokenBucket :=
  if b.tokens < b.burst then { b with tokens := b.tokens + 1 } else b

/-- The receive `<-limiter` (engine.go:91): `none` when the channel is empty
and the receive cannot complete yet. -/
def TokenBucket.acquire (b : TokenBucket) : Option TokenBucket :=
  if 0 < b.tokens then some { b with tokens := b.tokens - 1 } else none

/-- What happens to a bucket: a tick, or a completed acquisition. -/
inductive BucketEvent where
  | tick
  | acquire
deriving DecidableEq, Repr

/-- A run of the bucket: the events happen in order; `none` when one of the
acquisitions could not have completed at its place in the run. -/
def runBucket : List BucketEvent → TokenBucket → Option TokenBucket
  | [], b => some b
  | .tick :: rest, b => runBucket rest b.tick
  | .acquire :: rest, b =>
    match b.acquire with
    | none => none
    | some b' => runBucket rest b'

/-- The ticker of `time.NewTicker(interval)` (engine.go:39) in a run whose
events carry their time in nanoseconds since `newTokenBucket` started the
ticker: the goroutine of engine.go:43-50 sends a token only when the ticker
fires, and the ticker fires for the first time one interval after it was
started and then at most once per interval, so that the tick number `k` of a
run comes no earlier than `k` intervals after the start. The argument `k`
counts the ticks before the events given. -/
def ticksOnTime (intervalNs : Nat) : Nat → List (Nat × BucketEvent) → Bool
  | _, [] => true
  | k, (t, .tick) :: rest =>
    decide ((k + 1) * intervalNs ≤ t) && ticksOnTime intervalNs (k + 1) rest
  | k, (_, .acquire) :: rest => ticksOnTime intervalNs k rest

/-- The events of a timed run come in the order of their times. -/
def timesAscend : List (Nat × BucketEvent) → Bool
  | [] => true
  | [_] => true
  | a :: b :: rest => decide (a.1 ≤ b.1) && timesAscend (b :: rest)

/-- A timed run of a bucket from its creation: the events in the order of
their times, the ticks no earlier than the ticker allows. -/
def isTimedRun (b : TokenBucket) (evs : List (Nat × BucketEvent)) : Bool :=
  timesAscend evs && ticksOnTime b.intervalNs 0 evs

/-- The limiter a worker is given: the nil channel or a bucket. A panic of
`newTokenBucket` ends the program before any worker starts. -/
def NewBucket.limiter : NewBucket → Option (Option TokenBucket)
  | .unlimited => some none
  | .tickerPanic => none
  | .bucket b => some (some b)

/-- The outcome of `if limiter != nil { <-limiter }` (engine.go:90-92): the
worker goes on at once, with the limiter as it is left, or has to wait. -/
inductive Gate where
  | pass (limiter : Option TokenBucket)
  | wait
deriving DecidableEq, Repr

/-- The statement `if limiter != nil { <-limiter }` (engine.go:90-92). -/
def acquireToken : Option TokenBucket → Gate
  | none => .pass none
  | some b =>
    match b.acquire with
    | none => .wait
    | some b' => .pass (some b')

/-- The gate passed by a worker for each of `n` candidates in a row, with no
tick in between: `wait` as soon as one of them has to wait. -/
def acquireTokens : Nat → Option TokenBucket → Gate
  | 0, limiter => .pass limiter
  | n + 1, limiter =>
    match acquireToken limiter with
    | .wait => .wait
    | .pass limiter' => acquireTokens n limiter'

/-! ## obfuscate.go: the delay -/

/-- A Go `int` or `int64` result, wrapped to 64 bits. -/
def wrapInt64 (x : Int) : Int := (x + 9223372036854775808) % 18446744073709551616 - 9223372036854775808

/-- What `sleepWithJitter` does: nothing; or `rand.Intn` panics on an
argument that is not positive; or it calls `time.Sleep` with a duration in
nanoseconds (a duration that is not positive does not pause). -/
inductive SleepOutcome where
  | noSleep
  | intnPanic
  | sleep (ns : Int)
deriving DecidableEq, Repr

/-- The function `sleepWithJitter` (obfuscate.go:37-42); `intn` is
`rand.Intn`, which returns a number from 0 up to its argument, the
argument excluded. -/
def sleepWithJitter (intn : Int → Int) (base jitter : Int) : SleepOutcome :=
  if base > 0 then
    let n := wrapInt64 (jitter + 1)
    if n ≤ 0 then .intnPanic
    else
      let ms := wrapInt64 (base + intn n)
      .sleep (wrapInt64 (ms * 1000000))
  else .noSleep

/-! ## main.go: subnet clustering -/

/-- Go `strings.Split(s, sep)` for a separator `sep` of one rune `c`. -/
def splitOn (c : Char) : Str → List Str
  | [] => [[]]
  | x :: xs =>
    if x = c then [] :: splitOn c xs
    else
      match splitOn c xs with
      | [] => [[x]]
      | h :: t => (x :: h) :: t

/-- The struct `SubnetGroup` (main.go:327-330). `Hosts` is a Go `int`, a sum
of slice lengths. -/
structure SubnetGroup where
  IPs : GoMap Bool
  Hosts : Nat
deriving DecidableEq, Repr

/-- The key of the group of an address (main.go:263-267): `none` when the
address does not split into four parts at its dots, the first three parts
followed by `.0/24` otherwise. -/
def subnetOf (ip : Str) : Option Str :=
  match splitOn '.' ip with
  | [o0, o1, o2, _] => some (o0 ++ ".".toList ++ o1 ++ ".".toList ++ o2 ++ ".0/24".toList)
  | _ => none

/-- The body of the grouping loop (main.go:261-274) for one entry
`(ip, domains)` of `ipRegistry`. -/
def clusterStep (subnets : GoMap SubnetGroup) (e : Str × List Str) : GoMap SubnetGroup :=
  match subnetOf e.1 with
  | none => subnets
  | some cidr =>
    let subnets :=
      match mapGet subnets cidr with
      | none => mapSet subnets cidr { IPs := [], Hosts := 0 }
      | some _ => subnets
    match mapGet subnets cidr with
    | some g =>
      mapSet subnets cidr { IPs := mapSet g.IPs e.1 true, Hosts := g.Hosts + e.2.length }
    | none => subnets

/-- The grouping loop (main.go:260-274) over the entries of `ipRegistry` in
the order `range` visits them. -/
def clusterLoop (visited : List (Str × List Str)) (subnets : GoMap SubnetGroup) :
    GoMap SubnetGroup :=
  visited.foldl clusterStep subnets

/-- The loop that builds `ipRegistry` (main.go:254-257) over the entries of
`registry` in the order `range` visits them. -/
def buildIpRegistry (visited : List (Str × IPInfo)) : GoMap (List Str) :=
  visited.foldl (fun m e => mapSet m e.1 e.2.Domains) []

/-- The list `visited` is an order in which `range` may visit the map `m`:
every key once, with its value. -/
def IsRange {β : Type} (m : GoMap β) (visited : List (Str × β)) : Prop :=
  (visited.map Prod.fst).Nodup ∧ ∀ k v, (k, v) ∈ visited ↔ mapGet m k = some v

/-- The local `isCDN := matched` of the report loop (main.go:284-285). -/
def subnetIsCDN (ans : CdnAnswer) : Bool := ans.matched

/-- The status of a group (main.go:293-298), from the answer of the
IP-intelligence client for the sampled member and the `Hosts` of the group. -/
def subnetStatus (ans : CdnAnswer) (hosts : Nat) : Str :=
  if subnetIsCDN ans then "\x1b[31m[CDN: ".toList ++ ans.val ++ "]\x1b[0m".toList
  else if hosts > 10 then "\x1b[33m[SHARED INFRA]\x1b[0m".toList
  else "\x1b[32m[UNIQUE ORIGIN]\x1b[0m".toList

/-- One iteration of the report loop (main.go:277-298) for a group whose
sampled member is `firstIP`: `none` when the group is skipped (`continue`),
its status otherwise. What is then printed depends on `ipOnly` and
`urlOnly` only. -/
def subnetVerdict (filterCDN : Bool) (cdnCheck : Str → CdnAnswer) (firstIP : Str)
    (group : SubnetGroup) : Option Str :=
  let ans := cdnCheck firstIP
  if filterCDN && subnetIsCDN ans then none
  else some (subnetStatus ans group.Hosts)

/-! ## Reference notions of the specification -/

/-- A line the hosts format ignores: blank, or a comment whose first
non-space rune is `#`. -/
def isSkipped (raw : Str) : Bool :=
  trimSpace raw = [] || startsWith (trimSpace raw) ['#']

/-- A line that is neither blank nor a comment and has fewer than two
white-space separated fields. -/
def isMalformed (raw : Str) : Bool :=
  !isSkipped raw && decide ((fields (trimSpace raw)).length < 2)

/-- The host an entry line names: its first field, lower-cased. -/
def lineHost (lower : Char → Char) (raw : Str) : Option Str :=
  if isSkipped raw then none else (fields (trimSpace raw)).head?.map (toLower lower)

/-- The addresses of an entry line: the fields after the first. -/
def lineAddrs (raw : Str) : List Str := (fields (trimSpace raw)).tail

/-- The addresses a file gives to the host `k`: those of every line naming
`k`, in file order. -/
def addrsFor (lower : Char → Char) : List Str → Str → List Str
  | [], _ => []
  | raw :: rest, k =>
    (if lineHost lower raw = some k then lineAddrs raw else []) ++ addrsFor lower rest k

/-- The tags of the Address Classifier. -/
inductive AddrClass where
  | cdnProvider (name : Str)
  | wildcardAnycast
  | trueOrigin
deriving DecidableEq, Repr

/-- The class behind the tag the worker gives an address (engine.go:131-138):
CDN-provider with the reported name if the worker's test `isCdnProvider`
holds; else wildcard-anycast if the address is in the wildcard set; else
true-origin. -/
def classify (ans : CdnAnswer) (inWildcardSet : Bool) : AddrClass :=
  if isCdnProvider ans then .cdnProvider ans.val
  else if inWildcardSet then .wildcardAnycast
  else .trueOrigin

/-- The Address Classifier of the specification on an answer of the library,
where a match carries no error: CDN-provider with the reported name if the
oracle matched; else wildcard-anycast if the address is in the wildcard set;
else true-origin. -/
def specClassify (ans : CdnAnswer) (inWildcardSet : Bool) : AddrClass :=
  if ans.matched then .cdnProvider ans.val
  else if inWildcardSet then .wildcardAnycast
  else .trueOrigin

/-- The text the worker shows for a tag. -/
def AddrClass.tag : AddrClass → Str
  | .cdnProvider name => cdnTag name
  | .wildcardAnycast => wildcardTag
  | .trueOrigin => trueOriginTag

/-- The findings written so far: the output without the progress lines. -/
def reported (st : WorkerState) : List OutEvent := st.out.filter fun e => !e.isProgress

/-- The (normalised name, surviving address list) pair of a finding. -/
def Finding.pair (f : Finding) : Str × List Str := (f.cleanSub, f.filteredIPs)

/-- The dedup key of a finding. -/
def Finding.key (f : Finding) : Str := recordKey f.cleanSub f.filteredIPs

/-- The findings reported by a pass over `jobs₁` followed by a pass over
`jobs₂` against the store, registry and output the first pass left. -/
def twoPasses (env : WorkerEnv) (jobs₁ jobs₂ : List (Str × Str)) (st : WorkerState) :
    List Finding :=
  (runWorker env jobs₁ st).2 ++ (runWorker env jobs₂ (runWorker env jobs₁ st).1).2

/-- An ASCII upper-case letter. -/
def isUpperAscii (c : Char) : Bool := 65 ≤ c.toNat && c.toNat ≤ 90

/-- Two runes that are equal, or the upper- and lower-case forms of one
ASCII letter. -/
def sameLetter (a b : Char) : Bool :=
  a == b || (isUpperAscii a && b.toNat == a.toNat + 32) ||
    (isUpperAscii b && a.toNat == b.toNat + 32)

/-- Two names that differ only in the case of ASCII letters. -/
def sameUpToCase : Str → Str → Bool
  | [], [] => true
  | a :: s, b :: t => sameLetter a b && sameUpToCase s t
  | _, _ => false

/-- Two runes that are equal, or one of which is in lower case and is the
lower-case form of the other, by the table `lower`. -/
def lowerVariant (lower : Char → Char) (a b : Char) : Bool :=
  a == b || (lower a == b && lower b == b) || (lower b == a && lower a == a)

/-- Two names of the same length in which each rune of one is equal to the
rune of the other at its place or differs from it as a letter from its
lower-case form. -/
def sameUpToLower (lower : Char → Char) : Str → Str → Bool
  | [], [] => true
  | a :: s, b :: t => lowerVariant lower a b && sameUpToLower lower s t
  | _, _ => false

/-- The calls of a sequence that name the address `ip`, in call order. -/
def callsFor (calls : List RegCall) (ip : Str) : List RegCall :=
  calls.filter fun c => c.ip = ip

/-- The registry entry of the specification for the address `ip` after the
calls `calls` on an empty registry: none if no call names `ip`; otherwise the
number of calls naming it, their names in call order, and the source of the
first of them. -/
def referenceEntry (calls : List RegCall) (ip : Str) : Option IPInfo :=
  match callsFor calls ip with
  | [] => none
  | c :: cs =>
    some { Count := (c :: cs).length, Domains := (c :: cs).map (fun x => x.domain),
           Source := c.source }

/-- The number of ticks in a run of the bucket. -/
def ticks : List BucketEvent → Nat
  | [] => 0
  | .tick :: rest => ticks rest + 1
  | .acquire :: rest => ticks rest

/-- The number of completed acquisitions in a run of the bucket. -/
def acquisitions : List BucketEvent → Nat
  | [] => 0
  | .tick :: rest => acquisitions rest
  | .acquire :: rest => acquisitions rest + 1

/-- The times at which the acquisitions of a timed run complete, in order. -/
def acquireTimes : List (Nat × BucketEvent) → List Nat
  | [] => []
  | (_, .tick) :: rest => acquireTimes rest
  | (t, .acquire) :: rest => t :: acquireTimes rest

/-- The /24 network of an address, read off its text: the first three of its
four dot-separated parts; none for a text that does not have four parts. -/
def network24 (ip : Str) : Option (Str × Str × Str) :=
  match splitOn '.' ip with
  | [a, b, c, _] => some (a, b, c)
  | _ => none

/-- The text `a.b.c.0/24` naming a /24 network. -/
def cidrText (n : Str × Str × Str) : Str :=
  n.1 ++ ".".toList ++ n.2.1 ++ ".".toList ++ n.2.2 ++ ".0/24".toList

/-- The labels of a subnet group. -/
inductive SubnetLabel where
  | cdnProvider (name : Str)
  | sharedInfrastructure
  | uniqueOrigin
deriving DecidableEq, Repr

/-- The label of the specification for a group: CDN-provider if the sampled
member is CDN-classified; otherwise shared-infrastructure if the
host-association count exceeds the threshold 10; otherwise unique-origin. -/
def subnetLabel (sampleIsCDN : Bool) (provider : Str) (count : Nat) : SubnetLabel :=
  if sampleIsCDN then .cdnProvider provider
  else if 10 < count then .sharedInfrastructure
  else .uniqueOrigin

/-- The text the report shows for a label. -/
def SubnetLabel.text : SubnetLabel → Str
  | .cdnProvider name => "\x1b[31m[CDN: ".toList ++ name ++ "]\x1b[0m".toList
  | .sharedInfrastructure => "\x1b[33m[SHARED INFRA]\x1b[0m".toList
  | .uniqueOrigin => "\x1b[32m[UNIQUE ORIGIN]\x1b[0m".toList

/-- The number of names the registry associates with an address. -/
def namesOf (registry : Registry) (ip : Str) : Nat :=
  ((mapGet registry ip).map fun i => i.Domains.length).getD 0

/-- The group of one key after one more entry of that key. -/
def groupStep (o : Option SubnetGroup) (e : Str × List Str) : Option SubnetGroup :=
  some (match o with
    | none => { IPs := mapSet [] e.1 true, Hosts := 0 + e.2.length }
    | some g => { IPs := mapSet g.IPs e.1 true, Hosts := g.Hosts + e.2.length })

/-- Whether an address is a member of a group: `group.IPs[ip]`. -/
def isMember (g : SubnetGroup) (ip : Str) : Bool := (mapGet g.IPs ip).getD false

/-! ## Sample environments -/

/-- A sample of the table `unicode.ToLower`: its values on the runes up to
U+00FF and on the Greek letters U+0391 to U+03CE. There the capital letters
are A to Z, U+00C0 to U+00DE without the multiplication sign U+00D7, and
U+0391 to U+03AB without the unassigned U+03A2, each 32 below its small
letter; every other rune is left as it is. The samples below hold no rune
outside that range. -/
def lowerLatinGreek (c : Char) : Char :=
  let n := c.toNat
  if (65 ≤ n ∧ n ≤ 90) ∨ (192 ≤ n ∧ n ≤ 222 ∧ n ≠ 215) ∨
      (913 ≤ n ∧ n ≤ 939 ∧ n ≠ 930) then
    Char.ofNat (n + 32)
  else c

/-- A sample of the table `unicode.ToUpper`: its values on the ASCII runes
and on the Greek letters alpha to omega, capital and small. The small letters
a to z and U+03B1 to U+03C9 are 32 above their capital, except the final
sigma U+03C2, whose capital is the sigma U+03A3, 31 below. -/
def upperLatinGreek (c : Char) : Char :=
  let n := c.toNat
  if n = 962 then Char.ofNat 931
  else if (97 ≤ n ∧ n ≤ 122) ∨ (945 ≤ n ∧ n ≤ 969) then Char.ofNat (n - 32)
  else c

/-- A network whose resolvers answer `9.9.9.9` for every name. -/
def catchAllNetwork : Network :=
  { viaResolver := fun _ _ => (["9.9.9.9".toList], none),
    lookupIP := fun _ => (["9.9.9.9".toList], none) }

/-- An IP-intelligence client that matches nothing. -/
def noCdn : Str → CdnAnswer := fun _ => { matched := false, val := [], errStr := [] }

/-- A run on `example.com` with the wildcard set `{9.9.9.9}` against
`catchAllNetwork`, printing to the console. -/
def catchAllEnv : WorkerEnv :=
  { lower := lowerLatinGreek, localHosts := [], offlineMode := false,
    net := catchAllNetwork, cdnCheck := noCdn,
    domain := "example.com".toList, files := [], urlOnly := false, ipOnly := false,
    silent := false, filterCDN := false, wildcardIPs := [("9.9.9.9".toList, true)] }

/-- An IP-intelligence client that matches `104.16.0.1` as an address of
`cloudflare`, of the kind `waf`, and matches no other address. -/
def cloudflareCheck : Str → CdnAnswer := fun ip =>
  if ip = "104.16.0.1".toList then
    { matched := true, val := "cloudflare".toList, errStr := "waf".toList }
  else { matched := false, val := [], errStr := [] }

/-- A run with filtering on, for a name the local mapping sends to an address
that the client matches and an address of the wildcard set. -/
def filteringEnv : WorkerEnv :=
  { lower := lowerLatinGreek,
    localHosts := [("api.example.com".toList, ["104.16.0.1".toList, "9.9.9.9".toList])],
    offlineMode := true, net := catchAllNetwork, cdnCheck := cloudflareCheck,
    domain := "example.com".toList, files := [], urlOnly := false, ipOnly := false,
    silent := false, filterCDN := true, wildcardIPs := [("9.9.9.9".toList, true)] }

/-- A network in which one resolver answers the two addresses of a name in
one order and every other resolver in the other order. -/
def rotatingNetwork : Network :=
  { viaResolver := fun resolverAddr _ =>
      if resolverAddr = "8.8.8.8:53".toList then (["1.1.1.1".toList, "2.2.2.2".toList], none)
      else (["2.2.2.2".toList, "1.1.1.1".toList], none),
    lookupIP := fun _ => ([], none) }

/-- A run on `example.com` against `rotatingNetwork`, with no wildcard
address and no filtering. -/
def rotatingEnv : WorkerEnv :=
  { lower := lowerLatinGreek, localHosts := [], offlineMode := false,
    net := rotatingNetwork, cdnCheck := noCdn,
    domain := "example.com".toList, files := [], urlOnly := false, ipOnly := false,
    silent := false, filterCDN := false, wildcardIPs := [] }

/-- An offline run on the domain `d` whose local mapping is the hosts file
`a-[b.d c` / `a.d b-[c`: two names whose findings get the same dedup key. -/
def collidingEnv : WorkerEnv :=
  { lower := lowerLatinGreek,
    localHosts := [("a-[b.d".toList, ["c".toList]), ("a.d".toList, ["b-[c".toList])],
    offlineMode := true, net := catchAllNetwork, cdnCheck := noCdn,
    domain := "d".toList, files := [], urlOnly := false, ipOnly := false,
    silent := false, filterCDN := false, wildcardIPs := [] }

/-- A network in which every resolver answers `api.example.com` with the same
two addresses and fails on every other name. -/
def steadyNetwork : Network :=
  { viaResolver := fun _ target =>
      if target = "api.example.com".toList then (["1.1.1.1".toList, "2.2.2.2".toList], none)
      else ([], some "no such host".toList),
    lookupIP := fun _ => ([], some "no such host".toList) }

/-- A run on `example.com` against `steadyNetwork`, with no wildcard address
and no filtering. -/
def steadyEnv : WorkerEnv :=
  { lower := lowerLatinGreek, localHosts := [], offlineMode := false,
    net := steadyNetwork, cdnCheck := noCdn,
    domain := "example.com".toList, files := [], urlOnly := false, ipOnly := false,
    silent := false, filterCDN := false, wildcardIPs := [] }

/-- The state at the start of a run. -/
def initialState : WorkerState := { foundItems := [], counter := 0, registry := [], out := [] }

/-- Two workers that each found a name resolving to `1.2.3.4` and are about
to register it. -/
def racingThreads : List RegThread :=
  [{ call := { ip := "1.2.3.4".toList, domain := "a.example.com".toList,
               source := "Wordlist".toList }, pc := .check },
   { call := { ip := "1.2.3.4".toList, domain := "b.example.com".toList,
               source := "Wordlist".toList }, pc := .check }]

/-- A registry after the worker found an IPv4 and an IPv6 address. -/
def mixedRegistry : Registry :=
  registerCalls []
    [{ ip := "1.2.3.4".toList, domain := "www.example.com".toList, source := "Wordlist".toList },
     { ip := "2001:db8::1".toList, domain := "v6.example.com".toList,
       source := "Wordlist".toList }]

/-- The registry of the specification's clustering example: `1.2.3.4` with
3 names and `1.2.3.9` with 9 names. -/
def sharedRegistry : Registry :=
  [("1.2.3.4".toList,
      { Count := 3, Domains := ["a1.example.com".toList, "a2.example.com".toList,
          "a3.example.com".toList], Source := "Wordlist".toList }),
   ("1.2.3.9".toList,
      { Count := 9, Domains := ["b1.example.com".toList, "b2.example.com".toList,
          "b3.example.com".toList, "b4.example.com".toList, "b5.example.com".toList,
          "b6.example.com".toList, "b7.example.com".toList, "b8.example.com".toList,
          "b9.example.com".toList], Source := "Wordlist".toList })]

/-! ## Properties -/

/-! ### Resolution: the local override and offline mode -/

/-- C1: whenever the local override mapping is non-empty and holds the
lower-cased name, `lookupHost` returns exactly the mapped addresses, the
resolver identity "local" and no error, and sends no query to the network,
for every resolver address, either value of the offline flag and every
network. -/
theorem lookupHost_local_first (lower : Char → Char) (localHosts : HostsMap)
    (offlineMode : Bool) (net : Network)
    (target resolverAddr : Str) (ips : List Str)
    (hne : localHosts ≠ []) (hmem : mapGet localHosts (toLower lower target) = some ips) :
    lookupHost lower localHosts offlineMode net target resolverAddr =
      { ips := ips, resolverUsed := "local".toList, err := none, queries := [] } := by
  have hlen : localHosts.length ≠ 0 := by
    intro h
    exact hne (List.length_eq_zero.mp h)
  simp [lookupHost, lookupLocalHosts, hlen, hmem]

/-- The instance of C1 named by the specification: the hosts file
`api.example.com 10.0.0.5`, offline mode on, and a network that would answer
otherwise. -/
theorem lookupHost_local_first_witness :
    loadHostsFile lowerLatinGreek (HostsFile.ofLines ["api.example.com 10.0.0.5".toList]) =
        .ok [("api.example.com".toList, ["10.0.0.5".toList])] ∧
      lookupHost lowerLatinGreek [("api.example.com".toList, ["10.0.0.5".toList])] true
          { viaResolver := fun _ _ => (["6.6.6.6".toList], none),
            lookupIP := fun _ => (["6.6.6.6".toList], none) }
          "api.example.com".toList "8.8.8.8:53".toList =
        { ips := ["10.0.0.5".toList], resolverUsed := "local".toList, err := none,
          queries := [] } :=
  ⟨by rfl,
   lookupHost_local_first lowerLatinGreek _ true _ "api.example.com".toList
     "8.8.8.8:53".toList ["10.0.0.5".toList] (by decide) (by decide)⟩

/-- C2: with offline mode on, `lookupHost` and `resolveAndRegister` are
functions of the local mapping alone: they give the same result under any two
networks and send no query. A name found in the mapping gets its mapped
addresses; any other name gets the offline error with no address from
`lookupHost`, and leaves the registry as it was in `resolveAndRegister`. -/
theorem offline_ignores_network (lower : Char → Char) (localHosts : HostsMap)
    (net₁ net₂ : Network) (target resolverAddr source : Str) (registry : Registry) :
    lookupHost lower localHosts true net₁ target resolverAddr =
        lookupHost lower localHosts true net₂ target resolverAddr ∧
      resolveAndRegister lower localHosts true net₁ target source registry =
        resolveAndRegister lower localHosts true net₂ target source registry ∧
      lookupHost lower localHosts true net₁ target resolverAddr =
        (if (lookupLocalHosts lower localHosts target).2 then
          { ips := (lookupLocalHosts lower localHosts target).1, resolverUsed := "local".toList,
            err := none, queries := [] }
         else
          { ips := [], resolverUsed := resolverAddr, err := some offlineError, queries := [] }) ∧
      resolveAndRegister lower localHosts true net₁ target source registry =
        (if (lookupLocalHosts lower localHosts target).2 then
          (registerAll registry (lookupLocalHosts lower localHosts target).1 target source, [])
         else (registry, [])) := by
  unfold lookupHost resolveAndRegister
  rcases h : lookupLocalHosts lower localHosts target with ⟨ips, ok⟩
  cases ok <;> simp

/-! ### The hosts file -/

theorem mapGet_mapSet {β : Type} (m : GoMap β) (k k' : Str) (v : β) :
    mapGet (mapSet m k v) k' = if k = k' then some v else mapGet m k' := by
  induction m with
  | nil => simp [mapSet, mapGet]
  | cons p m ih =>
    obtain ⟨a, b⟩ := p
    by_cases hak : a = k
    · subst hak
      by_cases hk : a = k' <;> simp [mapSet, mapGet, hk]
    · by_cases hk : k = k'
      · subst hk
        simp [mapSet, mapGet, hak, ih]
      · by_cases hak' : a = k'
        · subst hak'
          simp [mapSet, mapGet, hak, hk]
        · simp [mapSet, mapGet, hak, hk, hak', ih]

theorem loadLoop_skip (lower : Char → Char) (raw : Str) (rest : List Str) (n : Nat)
    (hosts : HostsMap) (h : isSkipped raw = true) :
    loadLoop lower (raw :: rest) n hosts = loadLoop lower rest (n + 1) hosts := by
  unfold isSkipped at h
  rw [loadLoop]
  simp only [h, if_true]

theorem loadLoop_entry (lower : Char → Char) (raw : Str) (rest : List Str) (n : Nat)
    (hosts : HostsMap) (f0 f1 : Str) (more : List Str)
    (h : isSkipped raw = false) (hf : fields (trimSpace raw) = f0 :: f1 :: more) :
    loadLoop lower (raw :: rest) n hosts =
      loadLoop lower rest (n + 1)
        (mapSet hosts (toLower lower f0)
          ((mapGet hosts (toLower lower f0)).getD [] ++ (f1 :: more))) := by
  unfold isSkipped at h
  rw [loadLoop]
  simp only [h, hf]
  simp

theorem loadLoop_malformed (lower : Char → Char) (raw : Str) (rest : List Str) (n : Nat)
    (hosts : HostsMap) (h : isMalformed raw = true) :
    loadLoop lower (raw :: rest) n hosts = .error (.invalidEntry (n + 1)) := by
  unfold isMalformed at h
  simp only [Bool.and_eq_true, Bool.not_eq_true', decide_eq_true_eq] at h
  obtain ⟨hs, hlen⟩ := h
  unfold isSkipped at hs
  rw [loadLoop]
  simp only [hs]
  match hf : fields (trimSpace raw) with
  | [] => simp
  | [_] => simp
  | _ :: _ :: _ =>
    rw [hf] at hlen
    simp only [List.length_cons] at hlen
    omega

theorem fields_of_wellFormed (raw : Str) (hs : isSkipped raw = false)
    (hm : isMalformed raw = false) :
    ∃ f0 f1 more, fields (trimSpace raw) = f0 :: f1 :: more := by
  unfold isMalformed at hm
  simp only [hs, Bool.not_false, Bool.true_and, decide_eq_false_iff_not, not_lt] at hm
  match hf : fields (trimSpace raw) with
  | [] => simp [hf] at hm
  | [_] => simp [hf] at hm
  | f0 :: f1 :: more => exact ⟨f0, f1, more, rfl⟩

theorem loadLoop_eq_error_iff (lower : Char → Char) (lines : List Str) (n : Nat)
    (hosts : HostsMap) (e : LoadError) :
    loadLoop lower lines n hosts = .error e ↔
      (lines.any isMalformed = true ∧ e = .invalidEntry (n + lines.findIdx isMalformed + 1)) := by
  induction lines generalizing n hosts with
  | nil => simp [loadLoop]
  | cons raw rest ih =>
    by_cases hm : isMalformed raw = true
    · rw [loadLoop_malformed lower raw rest n hosts hm]
      simp only [List.any_cons, hm, Bool.true_or, true_and, List.findIdx_cons, cond_true,
        Nat.add_zero]
      constructor
      · intro h
        injection h with h
        exact h.symm
      · intro h
        rw [h]
    · simp only [Bool.not_eq_true] at hm
      have step : ∃ hosts',
          loadLoop lower (raw :: rest) n hosts = loadLoop lower rest (n + 1) hosts' := by
        by_cases hs : isSkipped raw = true
        · exact ⟨hosts, loadLoop_skip lower raw rest n hosts hs⟩
        · simp only [Bool.not_eq_true] at hs
          obtain ⟨f0, f1, more, hf⟩ := fields_of_wellFormed raw hs hm
          exact ⟨_, loadLoop_entry lower raw rest n hosts f0 f1 more hs hf⟩
      obtain ⟨hosts', hstep⟩ := step
      rw [hstep, ih]
      simp only [List.any_cons, hm, Bool.false_or, List.findIdx_cons, cond_false]
      have : n + 1 + List.findIdx isMalformed rest + 1 =
          n + (List.findIdx isMalformed rest + 1) + 1 := by omega
      rw [this]

theorem loadLoop_ok_of_wellFormed (lower : Char → Char) (lines : List Str) (n : Nat)
    (hosts : HostsMap) (h : lines.any isMalformed = false) :
    ∃ m, loadLoop lower lines n hosts = .ok m := by
  cases hl : loadLoop lower lines n hosts with
  | ok m => exact ⟨m, rfl⟩
  | error e =>
    have := ((loadLoop_eq_error_iff lower lines n hosts e).mp hl).1
    rw [h] at this
    cases this

theorem loadHostsFile_eq_error_iff (lower : Char → Char) (f : HostsFile)
    (hopen : f.openErr = none) (e : LoadError) :
    loadHostsFile lower f = .error e ↔
      (f.lines.any isMalformed = true ∧
          e = .invalidEntry (f.lines.findIdx isMalformed + 1)) ∨
        (f.lines.any isMalformed = false ∧ ∃ x, f.scanErr = some x ∧ e = .scanFailed x) := by
  have h := loadLoop_eq_error_iff lower f.lines 0 []
  simp only [Nat.zero_add] at h
  unfold loadHostsFile
  rw [hopen]
  simp only
  cases hl : loadLoop lower f.lines 0 [] with
  | error e' =>
    have he' := (h e').mp hl
    simp only [he'.1, true_and, Bool.true_eq_false, false_and, or_false, Except.error.injEq]
    rw [he'.2]
    exact eq_comm
  | ok m =>
    have hany : f.lines.any isMalformed = false := by
      cases hb : f.lines.any isMalformed with
      | false => rfl
      | true =>
        have := (h _).mpr ⟨hb, rfl⟩
        rw [hl] at this
        cases this
    simp only [hany, Bool.false_eq_true, false_and, false_or, true_and]
    cases hs : f.scanErr with
    | none => simp
    | some x =>
      simp only [Except.error.injEq, Option.some.injEq, exists_eq_left']
      exact eq_comm

theorem loadHostsFile_eq_ok_iff (lower : Char → Char) (f : HostsFile) (hosts : HostsMap) :
    loadHostsFile lower f = .ok hosts ↔
      f.openErr = none ∧ f.scanErr = none ∧ loadLoop lower f.lines 0 [] = .ok hosts := by
  unfold loadHostsFile
  cases f.openErr with
  | some e => simp
  | none =>
    cases loadLoop lower f.lines 0 [] with
    | error e => simp
    | ok m =>
      cases f.scanErr with
      | some e => simp
      | none => simp

/-- The claim C3 fails on the code. `loadHostsFile` also returns the error of
the scanner (hosts.go:38-40), and `bufio.Scanner` stops with `ErrTooLong` at
a line of 64 KiB or more. For the file made of the line
`api.example.com 10.0.0.5` followed by a comment line of 70000 bytes the
scanner delivers the first line and then stops with that error: no delivered
line is malformed, and loading fails with the scanner's error, which carries
no line number. -/
theorem loadHostsFile_fails_counterexample :
    (∀ raw ∈ ["api.example.com 10.0.0.5".toList], isMalformed raw = false) ∧
      loadHostsFile lowerLatinGreek
          { openErr := none, lines := ["api.example.com 10.0.0.5".toList],
            scanErr := some "bufio.Scanner: token too long".toList } =
        .error (.scanFailed "bufio.Scanner: token too long".toList) ∧
      ∀ n : Nat,
        loadHostsFile lowerLatinGreek
            { openErr := none, lines := ["api.example.com 10.0.0.5".toList],
              scanErr := some "bufio.Scanner: token too long".toList } ≠
          .error (.invalidEntry n) :=
  ⟨by decide, by rfl, fun n h => by
    have h' : (Except.error (.scanFailed "bufio.Scanner: token too long".toList) :
        Except LoadError HostsMap) = .error (.invalidEntry n) := h
    injection h' with h'
    cases h'⟩

/-- C3, amended: for a hosts file that opens, `loadHostsFile` fails exactly
when some line delivered by the scanner is neither blank nor a comment and
has fewer than two fields, or the scanner stops with an error (a line of
64 KiB or more, a read failure). In the first case the error is the
invalid-entry error carrying the 1-based number of the first such line, blank
and comment lines counted; otherwise it is the scanner's error, which carries
no line number. A failure returns no mapping. For a file that the scanner
reads to its end, loading fails exactly when some line is malformed. -/
theorem loadHostsFile_fails_iff (lower : Char → Char) (f : HostsFile)
    (hopen : f.openErr = none) :
    ((∃ e, loadHostsFile lower f = .error e) ↔
        (∃ raw ∈ f.lines, isMalformed raw = true) ∨ f.scanErr ≠ none) ∧
      (∀ e, loadHostsFile lower f = .error e ↔
        (f.lines.any isMalformed = true ∧
            e = .invalidEntry (f.lines.findIdx isMalformed + 1)) ∨
          (f.lines.any isMalformed = false ∧
            ∃ x, f.scanErr = some x ∧ e = .scanFailed x)) ∧
      (∀ e, loadHostsFile lower f = .error e → ∀ hosts, loadHostsFile lower f ≠ .ok hosts) ∧
      (f.scanErr = none →
        ((∃ e, loadHostsFile lower f = .error e) ↔ ∃ raw ∈ f.lines, isMalformed raw = true)) := by
  have key := loadHostsFile_eq_error_iff lower f hopen
  have hmain : (∃ e, loadHostsFile lower f = .error e) ↔
      (∃ raw ∈ f.lines, isMalformed raw = true) ∨ f.scanErr ≠ none := by
    constructor
    · rintro ⟨e, he⟩
      rcases (key e).mp he with ⟨hany, _⟩ | ⟨_, x, hx, _⟩
      · left
        simpa [List.any_eq_true] using hany
      · right
        rw [hx]
        simp
    · intro h
      cases hb : f.lines.any isMalformed with
      | true => exact ⟨_, (key _).mpr (Or.inl ⟨hb, rfl⟩)⟩
      | false =>
        rcases h with ⟨raw, hmem, hbad⟩ | hscan
        · have : f.lines.any isMalformed = true := by
            simp only [List.any_eq_true]
            exact ⟨raw, hmem, hbad⟩
          rw [hb] at this
          cases this
        · cases hs : f.scanErr with
          | none => exact absurd hs hscan
          | some x => exact ⟨_, (key _).mpr (Or.inr ⟨hb, x, hs, rfl⟩)⟩
  refine ⟨hmain, key, ?_, ?_⟩
  · intro e he hosts hok
    rw [he] at hok
    cases hok
  · intro hscan
    rw [hmain]
    simp [hscan]

/-- A file that is read to its end and whose third line holds a host and no
address: an instance of the amended C3. Loading fails at line 3, the comment
line and the entry before it counted. -/
theorem loadHostsFile_fails_iff_witness :
    loadHostsFile lowerLatinGreek
        (HostsFile.ofLines
          ["# test map".toList, "api.example.com 10.0.0.5".toList, "www.example.com".toList,
           "mail.example.com".toList]) =
      .error (.invalidEntry 3) :=
  ((loadHostsFile_fails_iff lowerLatinGreek
      (HostsFile.ofLines
        ["# test map".toList, "api.example.com 10.0.0.5".toList, "www.example.com".toList,
         "mail.example.com".toList]) rfl).2.1 (.invalidEntry 3)).mpr
    (Or.inl ⟨by decide, by decide⟩)

theorem loadLoop_ok_spec (lower : Char → Char) (lines : List Str) (n : Nat) (hosts : HostsMap)
    (hwf : ∀ raw ∈ lines, isMalformed raw = false) :
    ∃ m, loadLoop lower lines n hosts = .ok m ∧
      ∀ k, mapGet m k =
        if lines.any (fun raw => lineHost lower raw == some k) then
          some ((mapGet hosts k).getD [] ++ addrsFor lower lines k)
        else mapGet hosts k := by
  induction lines generalizing n hosts with
  | nil => exact ⟨hosts, rfl, fun k => by simp⟩
  | cons raw rest ih =>
    have hwf' : ∀ r ∈ rest, isMalformed r = false := fun r hr => hwf r (List.mem_cons_of_mem _ hr)
    by_cases hs : isSkipped raw = true
    · obtain ⟨m, hm, hget⟩ := ih (n + 1) hosts hwf'
      refine ⟨m, by rw [loadLoop_skip lower raw rest n hosts hs, hm], fun k => ?_⟩
      have hh : lineHost lower raw = none := by simp [lineHost, hs]
      rw [hget k]
      simp [hh, addrsFor]
    · simp only [Bool.not_eq_true] at hs
      obtain ⟨f0, f1, more, hf⟩ := fields_of_wellFormed raw hs (hwf raw (List.mem_cons_self _ _))
      obtain ⟨m, hm, hget⟩ := ih (n + 1)
        (mapSet hosts (toLower lower f0)
          ((mapGet hosts (toLower lower f0)).getD [] ++ (f1 :: more))) hwf'
      refine ⟨m, by rw [loadLoop_entry lower raw rest n hosts f0 f1 more hs hf, hm], fun k => ?_⟩
      have hh : lineHost lower raw = some (toLower lower f0) := by simp [lineHost, hs, hf]
      have ha : lineAddrs raw = f1 :: more := by simp [lineAddrs, hf]
      rw [hget k, mapGet_mapSet]
      by_cases hk : toLower lower f0 = k
      · subst hk
        by_cases hany : (rest.any fun raw => lineHost lower raw == some (toLower lower f0)) = true
        · simp [hh, ha, addrsFor, hany]
        · simp only [Bool.not_eq_true] at hany
          have hnil : addrsFor lower rest (toLower lower f0) = [] := by
            clear ih hm hget hwf hwf'
            induction rest with
            | nil => rfl
            | cons r rs ihr =>
              simp only [List.any_cons, Bool.or_eq_false_iff, beq_eq_false_iff_ne, ne_eq] at hany
              simp [addrsFor, hany.1, ihr hany.2]
          simp [hh, ha, addrsFor, hany, hnil]
      · have hk' : ¬ (k = toLower lower f0) := fun h => hk h.symm
        simp [hh, addrsFor, hk, hk']

theorem loadLoop_ok_filter (lower : Char → Char) (lines : List Str) (n n' : Nat)
    (hosts m : HostsMap) :
    loadLoop lower lines n hosts = .ok m ↔
      loadLoop lower (lines.filter fun r => !isSkipped r) n' hosts = .ok m := by
  induction lines generalizing n n' hosts with
  | nil => simp [loadLoop]
  | cons raw rest ih =>
    by_cases hs : isSkipped raw = true
    · rw [loadLoop_skip lower raw rest n hosts hs, List.filter_cons_of_neg (by simp [hs])]
      exact ih (n + 1) n' hosts
    · simp only [Bool.not_eq_true] at hs
      rw [List.filter_cons_of_pos (by simp [hs])]
      by_cases hm : isMalformed raw = true
      · rw [loadLoop_malformed lower raw rest n hosts hm,
          loadLoop_malformed lower raw _ n' hosts hm]
        simp
      · simp only [Bool.not_eq_true] at hm
        obtain ⟨f0, f1, more, hf⟩ := fields_of_wellFormed raw hs hm
        rw [loadLoop_entry lower raw rest n hosts f0 f1 more hs hf,
          loadLoop_entry lower raw _ n' hosts f0 f1 more hs hf]
        exact ih (n + 1) (n' + 1) _

/-- The claim C4 fails on the code for a file the scanner does not read to
its end. In the file made of the line `api.example.com 10.0.0.5` followed by
an entry line of 70000 bytes (a host and thousands of addresses) every line
has at least two fields; the scanner delivers the first line and stops with
`ErrTooLong`, and loading returns that error and no mapping. -/
theorem loadHostsFile_mapping_counterexample :
    (∀ raw ∈ ["api.example.com 10.0.0.5".toList], isMalformed raw = false) ∧
      ∀ hosts : HostsMap,
        loadHostsFile lowerLatinGreek
            { openErr := none, lines := ["api.example.com 10.0.0.5".toList],
              scanErr := some "bufio.Scanner: token too long".toList } ≠ .ok hosts :=
  ⟨by decide, fun hosts h => by
    have h' : (Except.error (.scanFailed "bufio.Scanner: token too long".toList) :
        Except LoadError HostsMap) = .ok hosts := h
    cases h'⟩

/-- C4, amended: for a hosts file that opens, that the scanner reads to its
end, and in which every line that is neither blank nor a comment has at least
two fields, `loadHostsFile` succeeds; the mapping it returns has a key exactly
for each host named by some line (first field, lower-cased), bound to the
addresses of all lines naming that host, in file order; and any such file with
the same lines once blank and comment lines are left out loads to the same
mapping. -/
theorem loadHostsFile_mapping (lower : Char → Char) (f : HostsFile)
    (hopen : f.openErr = none) (hscan : f.scanErr = none)
    (hwf : ∀ raw ∈ f.lines, isMalformed raw = false) :
    ∃ hosts, loadHostsFile lower f = .ok hosts ∧
      (∀ k, mapGet hosts k =
        if f.lines.any (fun raw => lineHost lower raw == some k) then
          some (addrsFor lower f.lines k)
        else none) ∧
      ∀ f' : HostsFile, f'.openErr = none → f'.scanErr = none →
        (f'.lines.filter fun r => !isSkipped r) = (f.lines.filter fun r => !isSkipped r) →
        loadHostsFile lower f' = .ok hosts := by
  obtain ⟨m, hm, hget⟩ := loadLoop_ok_spec lower f.lines 0 [] hwf
  refine ⟨m, (loadHostsFile_eq_ok_iff lower f m).mpr ⟨hopen, hscan, hm⟩, fun k => ?_,
    fun f' hopen' hscan' heq => ?_⟩
  · rw [hget k]
    simp [mapGet]
  · refine (loadHostsFile_eq_ok_iff lower f' m).mpr ⟨hopen', hscan', ?_⟩
    rw [loadLoop_ok_filter lower f'.lines 0 0 [] m, heq,
      ← loadLoop_ok_filter lower f.lines 0 0 [] m]
    exact hm

/-- A file with a comment, a blank line, two lines for one host in two
letter cases and a line for another host: an instance of the amended C4. The
host gets the addresses of its two lines in file order, and the file without
its comment and blank line loads to the same mapping. -/
theorem loadHostsFile_mapping_witness :
    ∃ hosts,
      loadHostsFile lowerLatinGreek (HostsFile.ofLines
        ["# test map".toList, "Api.Example.com 10.0.0.5".toList, "".toList,
         "www.example.com 10.0.0.7 10.0.0.8".toList, "  api.example.COM\t10.0.0.6 ".toList]) =
          .ok hosts ∧
      mapGet hosts "api.example.com".toList = some ["10.0.0.5".toList, "10.0.0.6".toList] ∧
      mapGet hosts "Api.Example.com".toList = none ∧
      loadHostsFile lowerLatinGreek (HostsFile.ofLines
        ["Api.Example.com 10.0.0.5".toList,
         "www.example.com 10.0.0.7 10.0.0.8".toList, "  api.example.COM\t10.0.0.6 ".toList]) =
          .ok hosts :=
  (loadHostsFile_mapping lowerLatinGreek
      (HostsFile.ofLines
        ["# test map".toList, "Api.Example.com 10.0.0.5".toList, "".toList,
         "www.example.com 10.0.0.7 10.0.0.8".toList, "  api.example.COM\t10.0.0.6 ".toList])
      rfl rfl (by decide)).elim
    fun hosts h =>
      ⟨hosts, h.1, (h.2.1 _).trans (by decide), (h.2.1 _).trans (by decide),
        h.2.2 (HostsFile.ofLines
          ["Api.Example.com 10.0.0.5".toList,
           "www.example.com 10.0.0.7 10.0.0.8".toList, "  api.example.COM\t10.0.0.6 ".toList])
          rfl rfl (by decide)⟩

theorem toLower_of_isUpperAscii (a b : Char) (ha : isUpperAscii a = true)
    (hb : b.toNat = a.toNat + 32) : a.toLower = b ∧ b.toLower = b := by
  unfold isUpperAscii at ha
  simp only [Bool.and_eq_true, decide_eq_true_eq] at ha
  constructor
  · unfold Char.toLower
    simp only [ge_iff_le, ha.1, ha.2, and_self, if_true]
    rw [← hb, Char.ofNat_toNat]
  · unfold Char.toLower
    have : ¬ (b.toNat ≥ 65 ∧ b.toNat ≤ 90) := by omega
    simp only [this, if_false]

theorem lower_eq_of_sameLetter (lower : Char → Char)
    (hascii : ∀ c : Char, c.toNat < 128 → lower c = c.toLower)
    (a b : Char) (h : sameLetter a b = true) : lower a = lower b := by
  unfold sameLetter at h
  simp only [Bool.or_eq_true, Bool.and_eq_true, beq_iff_eq] at h
  rcases h with (h | ⟨ha, hb⟩) | ⟨hb, ha⟩
  · rw [h]
  · obtain ⟨h1, h2⟩ := toLower_of_isUpperAscii a b ha hb
    have ha' : a.toNat < 128 := by
      unfold isUpperAscii at ha
      simp only [Bool.and_eq_true, decide_eq_true_eq] at ha
      omega
    have hb' : b.toNat < 128 := by
      unfold isUpperAscii at ha
      simp only [Bool.and_eq_true, decide_eq_true_eq] at ha
      omega
    rw [hascii a ha', hascii b hb', h1, h2]
  · obtain ⟨h1, h2⟩ := toLower_of_isUpperAscii b a hb ha
    have hb' : b.toNat < 128 := by
      unfold isUpperAscii at hb
      simp only [Bool.and_eq_true, decide_eq_true_eq] at hb
      omega
    have ha' : a.toNat < 128 := by
      unfold isUpperAscii at hb
      simp only [Bool.and_eq_true, decide_eq_true_eq] at hb
      omega
    rw [hascii a ha', hascii b hb', h1, h2]

theorem toLower_eq_of_sameUpToCase (lower : Char → Char)
    (hascii : ∀ c : Char, c.toNat < 128 → lower c = c.toLower)
    (s t : Str) (h : sameUpToCase s t = true) :
    toLower lower s = toLower lower t := by
  induction s generalizing t with
  | nil =>
    cases t with
    | nil => rfl
    | cons b t => simp [sameUpToCase] at h
  | cons a s ih =>
    cases t with
    | nil => simp [sameUpToCase] at h
    | cons b t =>
      simp only [sameUpToCase, Bool.and_eq_true] at h
      have h1 := lower_eq_of_sameLetter lower hascii a b h.1
      have h2 := ih t h.2
      unfold toLower at h2 ⊢
      simp only [List.map_cons, h1, h2]

theorem toLower_eq_of_sameUpToLower (lower : Char → Char) (s t : Str)
    (h : sameUpToLower lower s t = true) : toLower lower s = toLower lower t := by
  induction s generalizing t with
  | nil =>
    cases t with
    | nil => rfl
    | cons b t => simp [sameUpToLower] at h
  | cons a s ih =>
    cases t with
    | nil => simp [sameUpToLower] at h
    | cons b t =>
      simp only [sameUpToLower, Bool.and_eq_true] at h
      have h1 : lower a = lower b := by
        have hv := h.1
        unfold lowerVariant at hv
        simp only [Bool.or_eq_true, Bool.and_eq_true, beq_iff_eq] at hv
        rcases hv with (hv | ⟨hab, hbb⟩) | ⟨hba, haa⟩
        · rw [hv]
        · rw [hab, hbb]
        · rw [hba, haa]
      have h2 := ih t h.2
      unfold toLower at h2 ⊢
      simp only [List.map_cons, h1, h2]

theorem lowerLatinGreek_ascii (c : Char) (h : c.toNat < 128) : lowerLatinGreek c = c.toLower := by
  unfold lowerLatinGreek Char.toLower
  by_cases hu : 65 ≤ c.toNat ∧ c.toNat ≤ 90
  · have h1 : (65 ≤ c.toNat) := hu.1
    have h2 : (c.toNat ≤ 90) := hu.2
    simp [h1, h2]
  · have h3 : ¬ (192 ≤ c.toNat) := by omega
    have h4 : ¬ (913 ≤ c.toNat) := by omega
    simp only [ge_iff_le, hu, if_false]
    by_cases h1 : 65 ≤ c.toNat
    · have h2 : ¬ c.toNat ≤ 90 := fun h2 => hu ⟨h1, h2⟩
      simp [h1, h2, h3, h4]
    · simp [h1, h3, h4]

/-- The claim C5 fails on the code for letters with two lower-case forms.
`strings.ToLower` sends the capital sigma to the small sigma and leaves the
final sigma as it is, while `strings.ToUpper` sends both to the capital
sigma. The names `οδος.example.com` and `ΟΔΟΣ.example.com` have the same
upper-case form, so they differ only in letter case; the file names the
first, and the lookup finds the first and does not find the second. -/
theorem lookupLocalHosts_case_counterexample :
    "οδος.example.com".toList.map upperLatinGreek =
        "ΟΔΟΣ.example.com".toList.map upperLatinGreek ∧
      toLower lowerLatinGreek "οδος.example.com".toList = "οδος.example.com".toList ∧
      toLower lowerLatinGreek "ΟΔΟΣ.example.com".toList = "οδοσ.example.com".toList ∧
      loadHostsFile lowerLatinGreek (HostsFile.ofLines ["οδος.example.com 10.0.0.9".toList]) =
        .ok [("οδος.example.com".toList, ["10.0.0.9".toList])] ∧
      lookupLocalHosts lowerLatinGreek [("οδος.example.com".toList, ["10.0.0.9".toList])]
          "οδος.example.com".toList = (["10.0.0.9".toList], true) ∧
      lookupLocalHosts lowerLatinGreek [("οδος.example.com".toList, ["10.0.0.9".toList])]
          "ΟΔΟΣ.example.com".toList = ([], false) :=
  ⟨by decide, by decide, by decide, by rfl, by decide, by decide⟩

/-- C5, amended: the lookup in a loaded mapping compares names by their
lower-cased form. Two names with the same lower-cased form get the same
(addresses, found) pair from `lookupLocalHosts`; a host that a line of the
file names is found under every name whose lower-cased form is that of the
host as written, with the addresses the file gives to that host. Two names
have the same lower-cased form, and so the same lookup, when they differ only
in that a letter of one is the lower-case form of the letter of the other;
such are two names that differ only in the case of ASCII letters. -/
theorem lookupLocalHosts_ignores_case (lower : Char → Char) (f : HostsFile) (hosts : HostsMap)
    (hload : loadHostsFile lower f = .ok hosts) :
    (∀ n₁ n₂ : Str, toLower lower n₁ = toLower lower n₂ →
        lookupLocalHosts lower hosts n₁ = lookupLocalHosts lower hosts n₂) ∧
      (∀ raw ∈ f.lines, ∀ h : Str, isSkipped raw = false →
        (fields (trimSpace raw)).head? = some h →
        ∀ q : Str, toLower lower q = toLower lower h →
          lookupLocalHosts lower hosts q =
            (addrsFor lower f.lines (toLower lower h), true)) ∧
      (∀ n₁ n₂ : Str, sameUpToLower lower n₁ n₂ = true →
        toLower lower n₁ = toLower lower n₂ ∧
          lookupLocalHosts lower hosts n₁ = lookupLocalHosts lower hosts n₂) ∧
      ((∀ c : Char, c.toNat < 128 → lower c = c.toLower) →
        ∀ n₁ n₂ : Str, sameUpToCase n₁ n₂ = true →
          toLower lower n₁ = toLower lower n₂ ∧
            lookupLocalHosts lower hosts n₁ = lookupLocalHosts lower hosts n₂) := by
  have hfirst : ∀ n₁ n₂ : Str, toLower lower n₁ = toLower lower n₂ →
      lookupLocalHosts lower hosts n₁ = lookupLocalHosts lower hosts n₂ := by
    intro n₁ n₂ hcase
    unfold lookupLocalHosts
    rw [hcase]
  refine ⟨hfirst, ?_, ?_, ?_⟩
  · intro raw hraw h hs hhead q hcase
    obtain ⟨_, _, hloop⟩ := (loadHostsFile_eq_ok_iff lower f hosts).mp hload
    have hwf : ∀ r ∈ f.lines, isMalformed r = false := by
      intro r hr
      by_contra hbad
      simp only [Bool.not_eq_false] at hbad
      have hany : f.lines.any isMalformed = true := by
        simp only [List.any_eq_true]
        exact ⟨r, hr, hbad⟩
      have := (loadLoop_eq_error_iff lower f.lines 0 [] _).mpr ⟨hany, rfl⟩
      rw [hloop] at this
      cases this
    obtain ⟨m, hm, hget⟩ := loadLoop_ok_spec lower f.lines 0 [] hwf
    rw [hm] at hloop
    injection hloop with hloop
    subst hloop
    have hhost : lineHost lower raw = some (toLower lower h) := by simp [lineHost, hs, hhead]
    have hany : (f.lines.any fun r => lineHost lower r == some (toLower lower h)) = true := by
      simp only [List.any_eq_true, beq_iff_eq]
      exact ⟨raw, hraw, hhost⟩
    have hk := hget (toLower lower h)
    simp only [hany, if_true, mapGet, Option.getD_none, List.nil_append] at hk
    have hlen : m.length ≠ 0 := by
      intro h0
      rw [List.length_eq_zero.mp h0] at hk
      simp [mapGet] at hk
    unfold lookupLocalHosts
    rw [hcase]
    simp [hlen, hk]
  · intro n₁ n₂ hcase
    have := toLower_eq_of_sameUpToLower lower n₁ n₂ hcase
    exact ⟨this, hfirst n₁ n₂ this⟩
  · intro hascii n₁ n₂ hcase
    have := toLower_eq_of_sameUpToCase lower hascii n₁ n₂ hcase
    exact ⟨this, hfirst n₁ n₂ this⟩

/-- A file naming `ÉCOLE.Example.com`, queried as `école.EXAMPLE.com`; the
queries `ÉCOLE.example.com` and `École.Example.COM`, in which letters differ
from their lower-case forms; and the queries `API.example.COM` and
`api.EXAMPLE.com`, which differ only in the case of ASCII letters: an
instance of the amended C5. -/
theorem lookupLocalHosts_ignores_case_witness :
    lookupLocalHosts lowerLatinGreek [("école.example.com".toList, ["10.0.0.9".toList])]
          "école.EXAMPLE.com".toList =
        (["10.0.0.9".toList], true) ∧
      lookupLocalHosts lowerLatinGreek [("école.example.com".toList, ["10.0.0.9".toList])]
          "ÉCOLE.example.com".toList =
        lookupLocalHosts lowerLatinGreek [("école.example.com".toList, ["10.0.0.9".toList])]
          "École.Example.COM".toList ∧
      lookupLocalHosts lowerLatinGreek [("école.example.com".toList, ["10.0.0.9".toList])]
          "API.example.COM".toList =
        lookupLocalHosts lowerLatinGreek [("école.example.com".toList, ["10.0.0.9".toList])]
          "api.EXAMPLE.com".toList :=
  ⟨((lookupLocalHosts_ignores_case lowerLatinGreek
      (HostsFile.ofLines ["ÉCOLE.Example.com 10.0.0.9".toList])
      [("école.example.com".toList, ["10.0.0.9".toList])] (by rfl)).2.1
      "ÉCOLE.Example.com 10.0.0.9".toList (by decide) "ÉCOLE.Example.com".toList (by decide)
      (by decide) "école.EXAMPLE.com".toList (by decide)).trans (by decide),
   ((lookupLocalHosts_ignores_case lowerLatinGreek
      (HostsFile.ofLines ["ÉCOLE.Example.com 10.0.0.9".toList])
      [("école.example.com".toList, ["10.0.0.9".toList])] (by rfl)).2.2.1
      "ÉCOLE.example.com".toList "École.Example.COM".toList (by decide)).2,
   ((lookupLocalHosts_ignores_case lowerLatinGreek
      (HostsFile.ofLines ["ÉCOLE.Example.com 10.0.0.9".toList])
      [("école.example.com".toList, ["10.0.0.9".toList])] (by rfl)).2.2.2
      lowerLatinGreek_ascii "API.example.COM".toList "api.EXAMPLE.com".toList (by decide)).2⟩

/-! ### The worker: wildcard suppression, classification, filtering -/

theorem isWildcardSub_iff (w : GoMap Bool) (ips : List Str) :
    isWildcardSub w ips = true ↔ ∀ ip ∈ ips, wildcardHit w ip = true := by
  induction ips with
  | nil => simp [isWildcardSub]
  | cons ip rest ih =>
    by_cases h : wildcardHit w ip = true
    · simp [isWildcardSub, h, ih]
    · simp only [Bool.not_eq_true] at h
      simp [isWildcardSub, h]

theorem classifyLoop_spec (cdnCheck : Str → CdnAnswer) (filterCDN : Bool) (w : GoMap Bool)
    (ips acc tags : List Str) :
    classifyLoop cdnCheck filterCDN w ips acc tags =
      (acc ++ ips.filter
          (fun ip => !(filterCDN && (isCdnProvider (cdnCheck ip) || wildcardHit w ip))),
       tags ++ (ips.filter
          (fun ip => !(filterCDN && (isCdnProvider (cdnCheck ip) || wildcardHit w ip)))).map
          (fun ip => (classify (cdnCheck ip) (wildcardHit w ip)).tag)) := by
  induction ips generalizing acc tags with
  | nil => simp [classifyLoop]
  | cons ip rest ih =>
    rw [classifyLoop]
    simp only [ih]
    cases hf : filterCDN <;> cases hc : isCdnProvider (cdnCheck ip) <;>
      cases hw : wildcardHit w ip <;> simp [hc, hw, classify, AddrClass.tag]

theorem countCandidate_frame (env : WorkerEnv) (sub : Str) (st : WorkerState) :
    (countCandidate env sub st).foundItems = st.foundItems ∧
      (countCandidate env sub st).registry = st.registry ∧
      reported (countCandidate env sub st) = reported st ∧
      (countCandidate env sub st).counter = st.counter + 1 := by
  unfold countCandidate reported
  by_cases h : (!env.silent && (st.counter + 1) % 10 == 0) = true
  · simp [h, OutEvent.isProgress]
  · simp [h]

theorem probe_none_of_wildcard (env : WorkerEnv) (sub resolverAddr : Str)
    (hall : ∀ ip ∈ (resolveCandidate env sub resolverAddr).ips,
      wildcardHit env.wildcardIPs ip = true) :
    probe env sub resolverAddr = none := by
  unfold probe
  cases herr : (resolveCandidate env sub resolverAddr).err with
  | some e => simp only [herr]
  | none => simp only [herr, (isWildcardSub_iff _ _).mpr hall, if_true]

theorem workerStep_of_probe_none (env : WorkerEnv) (job : Str × Str) (st : WorkerState)
    (h : probe env job.1 job.2 = none) :
    workerStep env job st = (countCandidate env job.1 st, none) := by
  unfold workerStep
  simp [h]

theorem runWorker_silent_of_probe_none (env : WorkerEnv) (jobs : List (Str × Str))
    (st : WorkerState) (h : ∀ job ∈ jobs, probe env job.1 job.2 = none) :
    (runWorker env jobs st).2 = [] ∧
      (runWorker env jobs st).1.foundItems = st.foundItems ∧
      (runWorker env jobs st).1.registry = st.registry ∧
      reported (runWorker env jobs st).1 = reported st := by
  induction jobs generalizing st with
  | nil => simp [runWorker]
  | cons job rest ih =>
    have hj := workerStep_of_probe_none env job st (h job (List.mem_cons_self _ _))
    obtain ⟨h1, h2, h3, h4⟩ := ih (countCandidate env job.1 st)
      (fun j hjm => h j (List.mem_cons_of_mem _ hjm))
    obtain ⟨f1, f2, f3, _⟩ := countCandidate_frame env job.1 st
    simp only [runWorker, hj, Option.toList, List.nil_append]
    exact ⟨h1, h2.trans f1, h3.trans f2, h4.trans f3⟩

theorem countCandidate_out (env : WorkerEnv) (sub : Str) (st : WorkerState) :
    (countCandidate env sub st).out =
      st.out ++
        (if (!env.silent && (st.counter + 1) % 10 == 0) = true then
          [OutEvent.progress (cleanLabel env.lower sub) env.domain (st.counter + 1)]
         else []) := by
  unfold countCandidate
  by_cases h : (!env.silent && (st.counter + 1) % 10 == 0) = true
  · simp [h]
  · simp [h]

theorem countCandidate_out_silent (env : WorkerEnv) (sub : Str) (st : WorkerState)
    (hs : env.silent = true) : (countCandidate env sub st).out = st.out := by
  rw [countCandidate_out]
  simp [hs]

theorem runWorker_out_of_probe_none (env : WorkerEnv) (jobs : List (Str × Str))
    (st : WorkerState) (hs : env.silent = true)
    (h : ∀ job ∈ jobs, probe env job.1 job.2 = none) :
    (runWorker env jobs st).1.out = st.out := by
  induction jobs generalizing st with
  | nil => simp [runWorker]
  | cons job rest ih =>
    have hj := workerStep_of_probe_none env job st (h job (List.mem_cons_self _ _))
    have := ih (countCandidate env job.1 st) (fun j hjm => h j (List.mem_cons_of_mem _ hjm))
    simp only [runWorker, hj]
    rw [this, countCandidate_out_silent env job.1 st hs]

theorem runWorker_progress_of_probe_none (env : WorkerEnv) (jobs : List (Str × Str))
    (st : WorkerState) (h : ∀ job ∈ jobs, probe env job.1 job.2 = none) :
    ∃ lines : List OutEvent,
      (runWorker env jobs st).1.out = st.out ++ lines ∧
        ∀ e ∈ lines, e.isProgress = true := by
  induction jobs generalizing st with
  | nil => exact ⟨[], by simp [runWorker]⟩
  | cons job rest ih =>
    have hj := workerStep_of_probe_none env job st (h job (List.mem_cons_self _ _))
    obtain ⟨lines, hout, hprog⟩ := ih (countCandidate env job.1 st)
      (fun j hjm => h j (List.mem_cons_of_mem _ hjm))
    simp only [runWorker, hj]
    rw [hout, countCandidate_out, List.append_assoc]
    refine ⟨_, rfl, ?_⟩
    intro e he
    rcases List.mem_append.mp he with he | he
    · by_cases hc : (!env.silent && (st.counter + 1) % 10 == 0) = true
      · rw [if_pos hc, List.mem_singleton] at he
        rw [he]
        rfl
      · rw [if_neg hc] at he
        cases he
    · exact hprog e he

/-- The claim C6 fails on the code in its "no output". The worker prints the
progress line at the head of the iteration, before it resolves the name
(engine.go:86-88), for every tenth candidate when it is not silent. Against
the wildcard set `{9.9.9.9}` and a resolver answering `[9.9.9.9]` for every
name, a run over ten labels reports no finding, stores no key, registers
nothing, and has written the progress line of the tenth label. -/
theorem wildcard_suppression_counterexample :
    (runWorker catchAllEnv
        [("a".toList, "8.8.8.8:53".toList), ("b".toList, "8.8.8.8:53".toList),
         ("c".toList, "8.8.8.8:53".toList), ("d".toList, "8.8.8.8:53".toList),
         ("e".toList, "8.8.8.8:53".toList), ("f".toList, "8.8.8.8:53".toList),
         ("g".toList, "8.8.8.8:53".toList), ("h".toList, "8.8.8.8:53".toList),
         ("i".toList, "8.8.8.8:53".toList), ("j".toList, "8.8.8.8:53".toList)]
        initialState) =
      ({ foundItems := [], counter := 10, registry := [],
         out := [OutEvent.progress "j".toList "example.com".toList 10] }, []) ∧
      (resolveCandidate catchAllEnv "j".toList "8.8.8.8:53".toList).err = none ∧
      (resolveCandidate catchAllEnv "j".toList "8.8.8.8:53".toList).ips = ["9.9.9.9".toList] ∧
      wildcardHit catchAllEnv.wildcardIPs "9.9.9.9".toList = true := by
  decide

/-- C6, amended: wildcard suppression. A candidate whose resolution succeeds
with every address in the wildcard set (or with no address) is dropped: the
iteration reports no finding, stores no dedup key and registers no address;
it counts the candidate, and what it writes is the progress line if this is a
tenth candidate and the worker is not silent, and nothing otherwise. With
`9.9.9.9` in the wildcard set and a resolver answering `[9.9.9.9]` for every
name, a run over any wordlist reports no finding, stores no key and registers
nothing; all it writes are progress lines, and it writes nothing at all when
silent. A candidate with an address outside the wildcard set passes the
wildcard test: whether it is kept is decided by the filter step alone, and
without filtering it reaches the dedup step with all its addresses. -/
theorem wildcard_suppression (env : WorkerEnv) :
    (∀ (sub resolverAddr : Str) (st : WorkerState),
        (resolveCandidate env sub resolverAddr).err = none →
        (∀ ip ∈ (resolveCandidate env sub resolverAddr).ips,
          wildcardHit env.wildcardIPs ip = true) →
        (workerStep env (sub, resolverAddr) st).2 = none ∧
          (workerStep env (sub, resolverAddr) st).1.foundItems = st.foundItems ∧
          (workerStep env (sub, resolverAddr) st).1.registry = st.registry ∧
          (workerStep env (sub, resolverAddr) st).1.counter = st.counter + 1 ∧
          (workerStep env (sub, resolverAddr) st).1.out =
            st.out ++
              (if (!env.silent && (st.counter + 1) % 10 == 0) = true then
                [OutEvent.progress (cleanLabel env.lower sub) env.domain (st.counter + 1)]
               else [])) ∧
      (wildcardHit env.wildcardIPs "9.9.9.9".toList = true →
        (∀ sub resolverAddr : Str,
          (resolveCandidate env sub resolverAddr).err = none ∧
            (resolveCandidate env sub resolverAddr).ips = ["9.9.9.9".toList]) →
        ∀ (jobs : List (Str × Str)) (st : WorkerState),
          (runWorker env jobs st).2 = [] ∧
            (runWorker env jobs st).1.foundItems = st.foundItems ∧
            (runWorker env jobs st).1.registry = st.registry ∧
            (∃ lines : List OutEvent,
              (runWorker env jobs st).1.out = st.out ++ lines ∧
                ∀ e ∈ lines, e.isProgress = true) ∧
            (env.silent = true → (runWorker env jobs st).1.out = st.out)) ∧
      ∀ sub resolverAddr : Str,
        (resolveCandidate env sub resolverAddr).err = none →
        (∃ ip ∈ (resolveCandidate env sub resolverAddr).ips,
          wildcardHit env.wildcardIPs ip = false) →
        isWildcardSub env.wildcardIPs (resolveCandidate env sub resolverAddr).ips = false ∧
          ((probe env sub resolverAddr).isSome ↔
            (classifyLoop env.cdnCheck env.filterCDN env.wildcardIPs
              (resolveCandidate env sub resolverAddr).ips [] []).1 ≠ []) ∧
          (env.filterCDN = false →
            ∃ f, probe env sub resolverAddr = some f ∧
              f.filteredIPs = (resolveCandidate env sub resolverAddr).ips) := by
  refine ⟨?_, ?_, ?_⟩
  · intro sub resolverAddr st _ hall
    obtain ⟨f1, f2, _, f4⟩ := countCandidate_frame env sub st
    have hstep := workerStep_of_probe_none env (sub, resolverAddr) st
      (probe_none_of_wildcard env sub resolverAddr hall)
    rw [hstep]
    exact ⟨rfl, f1, f2, f4, countCandidate_out env sub st⟩
  · intro hw hstub jobs st
    have hnone : ∀ job ∈ jobs, probe env job.1 job.2 = none := by
      intro job _
      apply probe_none_of_wildcard
      intro ip hip
      rw [(hstub job.1 job.2).2] at hip
      simp only [List.mem_singleton] at hip
      rw [hip]
      exact hw
    obtain ⟨h1, h2, h3, _⟩ := runWorker_silent_of_probe_none env jobs st hnone
    exact ⟨h1, h2, h3, runWorker_progress_of_probe_none env jobs st hnone,
      fun hs => runWorker_out_of_probe_none env jobs st hs hnone⟩
  · intro sub resolverAddr herr hex
    have hnw :
        isWildcardSub env.wildcardIPs (resolveCandidate env sub resolverAddr).ips = false := by
      by_contra hcon
      simp only [Bool.not_eq_false] at hcon
      obtain ⟨ip, hip, hout⟩ := hex
      have := (isWildcardSub_iff _ _).mp hcon ip hip
      rw [hout] at this
      cases this
    refine ⟨hnw, ?_, ?_⟩
    · unfold probe
      simp only [herr, hnw, Bool.false_eq_true, if_false, List.length_eq_zero]
      by_cases hnil : (classifyLoop env.cdnCheck env.filterCDN env.wildcardIPs
          (resolveCandidate env sub resolverAddr).ips [] []).1 = []
      · simp [hnil]
      · simp [hnil]
    · intro hf
      have hne : (resolveCandidate env sub resolverAddr).ips ≠ [] := by
        obtain ⟨ip, hip, _⟩ := hex
        exact List.ne_nil_of_mem hip
      unfold probe
      simp only [herr, hnw, Bool.false_eq_true, if_false, List.length_eq_zero]
      rw [classifyLoop_spec, hf]
      simp [hne]

/-- The run of the specification: wildcard set `{9.9.9.9}`, every name
answered `[9.9.9.9]`, a wordlist with a repeated label. No finding is
reported, no key is stored and nothing is registered. -/
theorem wildcard_suppression_witness :
    (runWorker catchAllEnv
        [("www".toList, "8.8.8.8:53".toList), ("api".toList, "1.1.1.1:53".toList),
         ("WWW ".toList, "9.9.9.9:53".toList)] initialState).2 = [] ∧
      (runWorker catchAllEnv
        [("www".toList, "8.8.8.8:53".toList), ("api".toList, "1.1.1.1:53".toList),
         ("WWW ".toList, "9.9.9.9:53".toList)] initialState).1.foundItems = [] ∧
      (runWorker catchAllEnv
        [("www".toList, "8.8.8.8:53".toList), ("api".toList, "1.1.1.1:53".toList),
         ("WWW ".toList, "9.9.9.9:53".toList)] initialState).1.registry = [] :=
  ⟨((wildcard_suppression catchAllEnv).2.1 (by decide) (fun _ _ => ⟨rfl, rfl⟩) _
      initialState).1,
    ((wildcard_suppression catchAllEnv).2.1 (by decide) (fun _ _ => ⟨rfl, rfl⟩) _
      initialState).2.1,
    ((wildcard_suppression catchAllEnv).2.1 (by decide) (fun _ _ => ⟨rfl, rfl⟩) _
      initialState).2.2.1⟩

theorem cdnTag_injective (a b : Str) (h : cdnTag a = cdnTag b) : a = b := by
  unfold cdnTag at h
  exact List.append_cancel_left (List.append_cancel_right h)

theorem cdnTag_ne_trueOriginTag (a : Str) : cdnTag a ≠ trueOriginTag := by
  intro h
  have h' := congrArg List.head? h
  simp [cdnTag, trueOriginTag] at h'

theorem cdnTag_ne_wildcardTag (a : Str) : cdnTag a ≠ wildcardTag := by
  intro h
  have h' := congrArg (fun l => l.reverse.take 2) h
  simp [cdnTag, wildcardTag] at h'

theorem tag_injective (c₁ c₂ : AddrClass) (h : c₁.tag = c₂.tag) : c₁ = c₂ := by
  cases c₁ <;> cases c₂ <;> simp only [AddrClass.tag] at h
  · rw [cdnTag_injective _ _ h]
  · exact absurd h (cdnTag_ne_wildcardTag _)
  · exact absurd h (cdnTag_ne_trueOriginTag _)
  · exact absurd h.symm (cdnTag_ne_wildcardTag _)
  · rfl
  · exact absurd h (by decide)
  · exact absurd h.symm (cdnTag_ne_trueOriginTag _)
  · exact absurd h (by decide)
  · rfl

theorem isCdnProvider_of_checkResult (ans : CdnAnswer) (hlib : ans.isCheckResult = true) :
    isCdnProvider ans = false := by
  unfold CdnAnswer.isCheckResult at hlib
  unfold isCdnProvider
  cases hm : ans.matched with
  | false => simp
  | true =>
    simp only [hm, if_true, Bool.or_eq_true, beq_iff_eq] at hlib
    have hne : ans.errStr ≠ [] := by
      rcases hlib with (h | h) | h <;> rw [h] <;> decide
    simp [hne]

/-- C7, on the code: the worker never gives the CDN-provider tag to an address
that the client matched. It tests the third result of `Check`, the kind of
the matched item, for being empty, as if it were an error text, and the kind
is never empty on a match. For `104.16.0.1`, which the client matches as
`cloudflare` of the kind `waf`, the Address Classifier gives CDN-provider in
and out of the wildcard set; the worker tags it true-origin, and
wildcard-anycast when it is in the wildcard set. So it is for every answer of
the library that is a match. What holds: every address the worker keeps gets
the text of exactly one class, the three tags have distinct texts, and the
class is that of the Address Classifier exactly for the addresses the client
does not match. -/
theorem classifier_precedence :
    cloudflareCheck "104.16.0.1".toList =
        { matched := true, val := "cloudflare".toList, errStr := "waf".toList } ∧
      (cloudflareCheck "104.16.0.1".toList).isCheckResult = true ∧
      specClassify (cloudflareCheck "104.16.0.1".toList) false =
        .cdnProvider "cloudflare".toList ∧
      specClassify (cloudflareCheck "104.16.0.1".toList) true =
        .cdnProvider "cloudflare".toList ∧
      classifyLoop cloudflareCheck false [] ["104.16.0.1".toList] [] [] =
        (["104.16.0.1".toList], [trueOriginTag]) ∧
      classifyLoop cloudflareCheck false [("104.16.0.1".toList, true)]
          ["104.16.0.1".toList] [] [] =
        (["104.16.0.1".toList], [wildcardTag]) ∧
      (∀ (cdnCheck : Str → CdnAnswer) (wildcardIPs : GoMap Bool) (ip : Str),
        (cdnCheck ip).isCheckResult = true → (cdnCheck ip).matched = true →
        classifyLoop cdnCheck false wildcardIPs [ip] [] [] =
            ([ip], [if wildcardHit wildcardIPs ip = true then wildcardTag else trueOriginTag]) ∧
          ∀ name : Str,
            classifyLoop cdnCheck false wildcardIPs [ip] [] [] ≠ ([ip], [cdnTag name])) ∧
      (∀ (cdnCheck : Str → CdnAnswer) (wildcardIPs : GoMap Bool) (filterCDN : Bool)
          (ips : List Str),
        (classifyLoop cdnCheck filterCDN wildcardIPs ips [] []).2 =
          (classifyLoop cdnCheck filterCDN wildcardIPs ips [] []).1.map
            (fun ip => (classify (cdnCheck ip) (wildcardHit wildcardIPs ip)).tag)) ∧
      (∀ c₁ c₂ : AddrClass, c₁.tag = c₂.tag → c₁ = c₂) ∧
      ∀ (ans : CdnAnswer) (inWildcardSet : Bool), ans.isCheckResult = true →
        (classify ans inWildcardSet = specClassify ans inWildcardSet ↔ ans.matched = false) := by
  refine ⟨by decide, by decide, by decide, by decide, by decide, by decide, ?_, ?_,
    tag_injective, ?_⟩
  · intro cdnCheck w ip hlib hm
    have hnot := isCdnProvider_of_checkResult (cdnCheck ip) hlib
    have hloop : classifyLoop cdnCheck false w [ip] [] [] =
        ([ip], [if wildcardHit w ip = true then wildcardTag else trueOriginTag]) := by
      rw [classifyLoop_spec]
      by_cases hw : wildcardHit w ip = true
      · simp [classify, hnot, hw, AddrClass.tag]
      · simp [classify, hnot, hw, AddrClass.tag]
    refine ⟨hloop, ?_⟩
    intro name hcon
    rw [hloop] at hcon
    simp only [Prod.mk.injEq, List.cons.injEq, and_true, true_and] at hcon
    by_cases hw : wildcardHit w ip = true
    · simp only [hw, if_true] at hcon
      exact cdnTag_ne_wildcardTag _ hcon.symm
    · simp only [hw, Bool.false_eq_true, if_false] at hcon
      exact cdnTag_ne_trueOriginTag _ hcon.symm
  · intro cdnCheck w filterCDN ips
    rw [classifyLoop_spec]
    simp
  · intro ans inW hlib
    have hnot := isCdnProvider_of_checkResult ans hlib
    unfold classify specClassify
    cases hm : ans.matched with
    | false => simp [hnot]
    | true =>
      cases inW <;> simp [hnot]

/-- The claim C8 fails on the code. With filtering on, the name
`api.example.com` resolves to `104.16.0.1`, which the client matches as
`cloudflare` of the kind `waf`, and to `9.9.9.9`, which is in the wildcard
set. The claim leaves no address; the worker keeps `104.16.0.1`, tags it
true-origin and reports the candidate with it. -/
theorem address_filtering_counterexample :
    (resolveCandidate filteringEnv "api".toList "8.8.8.8:53".toList).ips =
        ["104.16.0.1".toList, "9.9.9.9".toList] ∧
      filteringEnv.filterCDN = true ∧
      filteringEnv.cdnCheck "104.16.0.1".toList =
        { matched := true, val := "cloudflare".toList, errStr := "waf".toList } ∧
      (filteringEnv.cdnCheck "104.16.0.1".toList).isCheckResult = true ∧
      (filteringEnv.cdnCheck "9.9.9.9".toList).isCheckResult = true ∧
      classifyLoop filteringEnv.cdnCheck true filteringEnv.wildcardIPs
          ["104.16.0.1".toList, "9.9.9.9".toList] [] [] =
        (["104.16.0.1".toList], [trueOriginTag]) ∧
      (workerStep filteringEnv ("api".toList, "8.8.8.8:53".toList) initialState).2 =
        some { cleanSub := "api".toList, target := "api.example.com".toList,
               resolverName := "LocalHosts".toList, filteredIPs := ["104.16.0.1".toList],
               cdnTags := [trueOriginTag] } := by
  decide

/-- C8, amended: the address filter of the worker. With filtering on, the
surviving list is a sub-list of the resolved list, in its order, that holds
no address of the wildcard set and, of the addresses the client did not
match, exactly those outside the wildcard set; with filtering off it is the
resolved list; there are as many tags as surviving addresses; and a candidate
whose surviving list is empty is dropped: the iteration reports no finding,
stores no key and registers no address, and what it writes is the progress
line if this is a tenth candidate and the worker is not silent, and nothing
otherwise. -/
theorem address_filtering (env : WorkerEnv) :
    (∀ ips : List Str,
        ((classifyLoop env.cdnCheck true env.wildcardIPs ips [] []).1).Sublist ips ∧
          (∀ ip ∈ (classifyLoop env.cdnCheck true env.wildcardIPs ips [] []).1,
            wildcardHit env.wildcardIPs ip = false) ∧
          ((classifyLoop env.cdnCheck true env.wildcardIPs ips [] []).1.filter
              (fun ip => !(env.cdnCheck ip).matched) =
            ips.filter (fun ip =>
              !(env.cdnCheck ip).matched && !wildcardHit env.wildcardIPs ip))) ∧
      (∀ ips : List Str, (classifyLoop env.cdnCheck false env.wildcardIPs ips [] []).1 = ips) ∧
      (∀ (filterCDN : Bool) (ips : List Str),
        (classifyLoop env.cdnCheck filterCDN env.wildcardIPs ips [] []).2.length =
          (classifyLoop env.cdnCheck filterCDN env.wildcardIPs ips [] []).1.length) ∧
      ∀ (sub resolverAddr : Str) (st : WorkerState),
        (resolveCandidate env sub resolverAddr).err = none →
        (classifyLoop env.cdnCheck env.filterCDN env.wildcardIPs
          (resolveCandidate env sub resolverAddr).ips [] []).1 = [] →
        (workerStep env (sub, resolverAddr) st).2 = none ∧
          (workerStep env (sub, resolverAddr) st).1.foundItems = st.foundItems ∧
          (workerStep env (sub, resolverAddr) st).1.registry = st.registry ∧
          (workerStep env (sub, resolverAddr) st).1.counter = st.counter + 1 ∧
          (workerStep env (sub, resolverAddr) st).1.out =
            st.out ++
              (if (!env.silent && (st.counter + 1) % 10 == 0) = true then
                [OutEvent.progress (cleanLabel env.lower sub) env.domain (st.counter + 1)]
               else []) := by
  refine ⟨?_, ?_, ?_, ?_⟩
  · intro ips
    rw [classifyLoop_spec]
    simp only [Bool.true_and, List.nil_append]
    refine ⟨List.filter_sublist _, ?_, ?_⟩
    · intro ip hip
      have := (List.mem_filter.mp hip).2
      simp only [Bool.not_eq_true', Bool.or_eq_false_iff] at this
      exact this.2
    · rw [List.filter_filter]
      apply List.filter_congr
      intro ip _
      unfold isCdnProvider
      cases (env.cdnCheck ip).matched <;> cases wildcardHit env.wildcardIPs ip <;> simp
  · intro ips
    rw [classifyLoop_spec]
    simp
  · intro filterCDN ips
    rw [classifyLoop_spec]
    simp
  · intro sub resolverAddr st herr hnil
    obtain ⟨f1, f2, _, f4⟩ := countCandidate_frame env sub st
    have hprobe : probe env sub resolverAddr = none := by
      unfold probe
      simp only [herr, hnil, List.length_nil, if_true]
      split <;> rfl
    rw [workerStep_of_probe_none env (sub, resolverAddr) st hprobe]
    exact ⟨rfl, f1, f2, f4, countCandidate_out env sub st⟩

/-- The filter of `filteringEnv` on a list with the wildcard address between
two addresses the client does not match: an instance of the amended C8. The
wildcard address is dropped and the other two are kept in their order. -/
theorem address_filtering_witness :
    (classifyLoop filteringEnv.cdnCheck true filteringEnv.wildcardIPs
          ["10.0.0.5".toList, "9.9.9.9".toList, "10.0.0.6".toList] [] []).1.filter
        (fun ip => !(filteringEnv.cdnCheck ip).matched) =
      ["10.0.0.5".toList, "10.0.0.6".toList] :=
  ((address_filtering filteringEnv).1
    ["10.0.0.5".toList, "9.9.9.9".toList, "10.0.0.6".toList]).2.2.trans (by decide)

/-! ### The dedup key -/

theorem split_at_first (c : Char) (a b x y : Str) (ha : c ∉ a) (hb : c ∉ b)
    (h : a ++ c :: x = b ++ c :: y) : a = b ∧ x = y := by
  induction a generalizing b with
  | nil =>
    cases b with
    | nil => simpa using h
    | cons b0 b' =>
      simp only [List.nil_append, List.cons_append, List.cons.injEq] at h
      exact absurd (h.1 ▸ List.mem_cons_self _ _) hb
  | cons a0 a' ih =>
    cases b with
    | nil =>
      simp only [List.nil_append, List.cons_append, List.cons.injEq] at h
      exact absurd (h.1 ▸ List.mem_cons_self _ _) ha
    | cons b0 b' =>
      simp only [List.cons_append, List.cons.injEq] at h
      obtain ⟨h0, h'⟩ := h
      obtain ⟨e1, e2⟩ := ih b' (fun hm => ha (List.mem_cons_of_mem _ hm))
        (fun hm => hb (List.mem_cons_of_mem _ hm)) h'
      exact ⟨by rw [h0, e1], e2⟩

theorem join_cons_cons (a b : Str) (rest : List Str) (sep : Str) :
    join (a :: b :: rest) sep = a ++ sep ++ join (b :: rest) sep := rfl

theorem join_space_injective (l₁ l₂ : List Str) (h₁ : l₁ ≠ []) (h₂ : l₂ ≠ [])
    (c₁ : ∀ a ∈ l₁, ' ' ∉ a) (c₂ : ∀ a ∈ l₂, ' ' ∉ a)
    (h : join l₁ [' '] = join l₂ [' ']) : l₁ = l₂ := by
  induction l₁ generalizing l₂ with
  | nil => exact absurd rfl h₁
  | cons a r₁ ih =>
    cases l₂ with
    | nil => exact absurd rfl h₂
    | cons b r₂ =>
      have ha := c₁ a (List.mem_cons_self _ _)
      have hb := c₂ b (List.mem_cons_self _ _)
      cases r₁ with
      | nil =>
        cases r₂ with
        | nil =>
          simp only [join] at h
          rw [h]
        | cons b' r₂' =>
          rw [join_cons_cons] at h
          simp only [join, List.append_assoc, List.singleton_append] at h
          exact absurd (h ▸ (List.mem_append_right b (List.mem_cons_self _ _))) ha
      | cons a' r₁' =>
        cases r₂ with
        | nil =>
          rw [join_cons_cons] at h
          simp only [join, List.append_assoc, List.singleton_append] at h
          exact absurd (h.symm ▸ (List.mem_append_right a (List.mem_cons_self _ _))) hb
        | cons b' r₂' =>
          rw [join_cons_cons, join_cons_cons] at h
          simp only [List.append_assoc, List.singleton_append] at h
          obtain ⟨e1, e2⟩ := split_at_first ' ' a b _ _ ha hb h
          have := ih (b' :: r₂') (by simp) (by simp)
            (fun x hx => c₁ x (List.mem_cons_of_mem _ hx))
            (fun x hx => c₂ x (List.mem_cons_of_mem _ hx)) e2
          rw [e1, this]

theorem fmtV_join_eq (l₁ l₂ : List Str) (h : fmtV l₁ = fmtV l₂) :
    join l₁ [' '] = join l₂ [' '] := by
  unfold fmtV at h
  simp only [List.cons.injEq, true_and] at h
  exact List.append_cancel_right h

theorem workerStep_store (env : WorkerEnv) (job : Str × Str) (st : WorkerState) :
    (workerStep env job st).1.foundItems =
      st.foundItems ++ ((workerStep env job st).2.toList.map Finding.key) ∧
    (∀ f, probe env job.1 job.2 = some f → f.key ∈ (workerStep env job st).1.foundItems) ∧
    (∀ f, (workerStep env job st).2 = some f →
      probe env job.1 job.2 = some f ∧ f.key ∉ st.foundItems) := by
  obtain ⟨f1, _, _, _⟩ := countCandidate_frame env job.1 st
  unfold workerStep
  cases hp : probe env job.1 job.2 with
  | none => simp [f1]
  | some f =>
    simp only [f1]
    by_cases hk : recordKey f.cleanSub f.filteredIPs ∈ st.foundItems
    · simp [hk, f1, Finding.key]
    · simp [hk, f1, emit, Finding.key]

theorem workerStep_of_key_mem (env : WorkerEnv) (job : Str × Str) (st : WorkerState)
    (h : ∀ f, probe env job.1 job.2 = some f → f.key ∈ st.foundItems) :
    workerStep env job st = (countCandidate env job.1 st, none) := by
  obtain ⟨f1, _, _, _⟩ := countCandidate_frame env job.1 st
  unfold workerStep
  cases hp : probe env job.1 job.2 with
  | none => simp
  | some f =>
    have := h f hp
    unfold Finding.key at this
    simp [f1, this]

/-- The claim C9 fails on the code. The address list goes into the key in the
order the resolver returned it: `[1.1.1.1 2.2.2.2]` and `[2.2.2.2 1.1.1.1]`
are permutations of one another with different keys, and a worker that gets
the two orders for the label `api` reports it twice. -/
theorem recordKey_order_counterexample :
    List.Perm ["1.1.1.1".toList, "2.2.2.2".toList] ["2.2.2.2".toList, "1.1.1.1".toList] ∧
      recordKey "api".toList ["1.1.1.1".toList, "2.2.2.2".toList] ≠
        recordKey "api".toList ["2.2.2.2".toList, "1.1.1.1".toList] ∧
      (runWorker rotatingEnv
          [("api".toList, "8.8.8.8:53".toList), ("api".toList, "1.1.1.1:53".toList)]
          initialState).2.map Finding.pair =
        [("api".toList, ["1.1.1.1".toList, "2.2.2.2".toList]),
         ("api".toList, ["2.2.2.2".toList, "1.1.1.1".toList])] :=
  ⟨List.Perm.swap _ _ _, by decide, by decide⟩

/-- C9, amended: the dedup key is built from the candidate name and the
surviving address list in the order it was returned, without sorting. For one
name, equal lists give equal keys, and two lists of space-free addresses that
are permutations of one another give the same key only if they are the same
list, order included. Two candidates with the same name and the same list in
the same order are reported once: the second finds the key stored. -/
theorem recordKey_order (name : Str) (l₁ l₂ : List Str)
    (c₁ : ∀ a ∈ l₁, ' ' ∉ a) (c₂ : ∀ a ∈ l₂, ' ' ∉ a) (hperm : l₁.Perm l₂) :
    (recordKey name l₁ = recordKey name l₂ ↔ l₁ = l₂) ∧
      ∀ (env : WorkerEnv) (job₁ job₂ : Str × Str) (st : WorkerState) (f₁ f₂ : Finding),
        probe env job₁.1 job₁.2 = some f₁ → probe env job₂.1 job₂.2 = some f₂ →
        f₁.pair = (name, l₁) → f₂.pair = (name, l₁) →
        (workerStep env job₂ (workerStep env job₁ st).1).2 = none := by
  constructor
  · constructor
    · intro h
      unfold recordKey at h
      have hj := fmtV_join_eq l₁ l₂ (List.append_cancel_left h)
      by_cases hn : l₁ = []
      · rw [hn] at hperm ⊢
        exact (List.Perm.nil_eq hperm)
      · have hn2 : l₂ ≠ [] := by
          intro h2
          rw [h2] at hperm
          exact hn (List.Perm.eq_nil hperm)
        exact join_space_injective l₁ l₂ hn hn2 c₁ c₂ hj
    · intro h
      rw [h]
  · intro env job₁ job₂ st f₁ f₂ hp₁ hp₂ e₁ e₂
    have hkey : f₂.key = f₁.key := by
      unfold Finding.pair at e₁ e₂
      simp only [Prod.mk.injEq] at e₁ e₂
      unfold Finding.key
      rw [e₁.1, e₁.2, e₂.1, e₂.2]
    have hmem := (workerStep_store env job₁ st).2.1 f₁ hp₁
    rw [workerStep_of_key_mem env job₂ _ (fun f hf => by
      rw [hp₂] at hf
      injection hf with hf
      rw [← hf, hkey]
      exact hmem)]

/-- The label `api` resolved twice to `[1.1.1.1 2.2.2.2]`, in that order, is
reported once: an instance of the amended C9. -/
theorem recordKey_order_witness :
    (recordKey "api".toList ["1.1.1.1".toList, "2.2.2.2".toList] =
        recordKey "api".toList ["2.2.2.2".toList, "1.1.1.1".toList] ↔
      ["1.1.1.1".toList, "2.2.2.2".toList] = ["2.2.2.2".toList, "1.1.1.1".toList]) ∧
      (workerStep rotatingEnv ("API".toList, "8.8.8.8:53".toList)
        (workerStep rotatingEnv ("api".toList, "8.8.8.8:53".toList) initialState).1).2 = none :=
  ⟨(recordKey_order "api".toList ["1.1.1.1".toList, "2.2.2.2".toList]
      ["2.2.2.2".toList, "1.1.1.1".toList] (by decide) (by decide) (List.Perm.swap _ _ _)).1,
   (recordKey_order "api".toList ["1.1.1.1".toList, "2.2.2.2".toList]
      ["2.2.2.2".toList, "1.1.1.1".toList] (by decide) (by decide) (List.Perm.swap _ _ _)).2
      rotatingEnv ("api".toList, "8.8.8.8:53".toList) ("API".toList, "8.8.8.8:53".toList)
      initialState
      { cleanSub := "api".toList, target := "api.example.com".toList,
        resolverName := "Google".toList,
        filteredIPs := ["1.1.1.1".toList, "2.2.2.2".toList],
        cdnTags := [trueOriginTag, trueOriginTag] }
      { cleanSub := "api".toList, target := "api.example.com".toList,
        resolverName := "Google".toList,
        filteredIPs := ["1.1.1.1".toList, "2.2.2.2".toList],
        cdnTags := [trueOriginTag, trueOriginTag] }
      (by decide) (by decide) rfl rfl⟩

/-! ### Dedup idempotence -/

theorem runWorker_store (env : WorkerEnv) (jobs : List (Str × Str)) (st : WorkerState) :
    (runWorker env jobs st).1.foundItems =
        st.foundItems ++ (runWorker env jobs st).2.map Finding.key ∧
      (∀ job ∈ jobs, ∀ f, probe env job.1 job.2 = some f →
        f.key ∈ (runWorker env jobs st).1.foundItems) ∧
      (∀ f ∈ (runWorker env jobs st).2, ∃ job ∈ jobs, probe env job.1 job.2 = some f) ∧
      (st.foundItems.Nodup → (runWorker env jobs st).1.foundItems.Nodup) := by
  induction jobs generalizing st with
  | nil => simp [runWorker]
  | cons job rest ih =>
    obtain ⟨s1, s2, s3⟩ := workerStep_store env job st
    obtain ⟨r1, r2, r3, r4⟩ := ih (workerStep env job st).1
    simp only [runWorker]
    refine ⟨?_, ?_, ?_, ?_⟩
    · rw [r1, s1]
      simp
    · intro j hj f hf
      rcases List.mem_cons.mp hj with rfl | hj
      · rw [r1]
        exact List.mem_append_left _ (s2 f hf)
      · exact r2 j hj f hf
    · intro f hf
      rcases List.mem_append.mp hf with hf | hf
      · have hsome : (workerStep env job st).2 = some f := by
          cases hw : (workerStep env job st).2 with
          | none => simp [hw] at hf
          | some g =>
            simp only [hw, Option.toList, List.mem_singleton] at hf
            rw [hf]
        exact ⟨job, List.mem_cons_self _ _, (s3 f hsome).1⟩
      · obtain ⟨j, hj, hp⟩ := r3 f hf
        exact ⟨j, List.mem_cons_of_mem _ hj, hp⟩
    · intro hnd
      apply r4
      rw [s1]
      cases hw : (workerStep env job st).2 with
      | none => simpa using hnd
      | some g =>
        simp only [Option.toList, List.map_cons, List.map_nil]
        rw [List.nodup_append]
        refine ⟨hnd, List.nodup_singleton _, ?_⟩
        intro a ha hb
        simp only [List.mem_singleton] at hb
        rw [hb] at ha
        exact (s3 g hw).2 ha

theorem runWorker_silent_of_keys (env : WorkerEnv) (jobs : List (Str × Str))
    (st : WorkerState)
    (h : ∀ job ∈ jobs, ∀ f, probe env job.1 job.2 = some f → f.key ∈ st.foundItems) :
    (runWorker env jobs st).2 = [] ∧
      (runWorker env jobs st).1.foundItems = st.foundItems ∧
      (runWorker env jobs st).1.registry = st.registry ∧
      reported (runWorker env jobs st).1 = reported st := by
  induction jobs generalizing st with
  | nil => simp [runWorker]
  | cons job rest ih =>
    have hj := workerStep_of_key_mem env job st (h job (List.mem_cons_self _ _))
    obtain ⟨f1, f2, f3, _⟩ := countCandidate_frame env job.1 st
    obtain ⟨h1, h2, h3, h4⟩ := ih (countCandidate env job.1 st)
      (fun j hjm f hf => by
        rw [f1]
        exact h j (List.mem_cons_of_mem _ hjm) f hf)
    simp only [runWorker, hj, Option.toList, List.nil_append]
    exact ⟨h1, h2.trans f1, h3.trans f2, h4.trans f3⟩

theorem mem_join (c : Char) (l : List Str) (sep : Str) (h : c ∈ join l sep) :
    c ∈ sep ∨ ∃ a ∈ l, c ∈ a := by
  induction l with
  | nil => simp [join] at h
  | cons a r ih =>
    cases r with
    | nil =>
      simp only [join] at h
      exact Or.inr ⟨a, List.mem_cons_self _ _, h⟩
    | cons b r' =>
      rw [join_cons_cons] at h
      rcases List.mem_append.mp h with h | h
      · rcases List.mem_append.mp h with h | h
        · exact Or.inr ⟨a, List.mem_cons_self _ _, h⟩
        · exact Or.inl h
      · rcases ih h with h | ⟨x, hx, hc⟩
        · exact Or.inl h
        · exact Or.inr ⟨x, List.mem_cons_of_mem _ hx, hc⟩

theorem split_at_last (c : Char) (x y u v : Str) (hu : c ∉ u) (hv : c ∉ v)
    (h : x ++ c :: u = y ++ c :: v) : x = y ∧ u = v := by
  have h' := congrArg List.reverse h
  simp only [List.reverse_append, List.reverse_cons, List.append_assoc, List.singleton_append]
    at h'
  obtain ⟨e1, e2⟩ := split_at_first c u.reverse v.reverse x.reverse y.reverse
    (by simpa using hu) (by simpa using hv) h'
  exact ⟨List.reverse_injective e2, List.reverse_injective e1⟩

theorem recordKey_injective (n₁ n₂ : Str) (l₁ l₂ : List Str) (h₁ : l₁ ≠ []) (h₂ : l₂ ≠ [])
    (c₁ : ∀ a ∈ l₁, ' ' ∉ a ∧ '[' ∉ a) (c₂ : ∀ a ∈ l₂, ' ' ∉ a ∧ '[' ∉ a)
    (h : recordKey n₁ l₁ = recordKey n₂ l₂) : n₁ = n₂ ∧ l₁ = l₂ := by
  have nob : ∀ l : List Str, (∀ a ∈ l, ' ' ∉ a ∧ '[' ∉ a) → '[' ∉ join l [' '] ++ [']'] := by
    intro l hl hmem
    rcases List.mem_append.mp hmem with hm | hm
    · rcases mem_join _ _ _ hm with hm | ⟨a, ha, hc⟩
      · simp at hm
      · exact (hl a ha).2 hc
    · simp at hm
  unfold recordKey fmtV at h
  have h' : (n₁ ++ "-".toList) ++ '[' :: (join l₁ [' '] ++ [']']) =
      (n₂ ++ "-".toList) ++ '[' :: (join l₂ [' '] ++ [']']) := h
  obtain ⟨e1, e2⟩ := split_at_last '[' _ _ _ _ (nob l₁ c₁) (nob l₂ c₂) h'
  exact ⟨List.append_cancel_right e1,
    join_space_injective l₁ l₂ h₁ h₂ (fun a ha => (c₁ a ha).1) (fun a ha => (c₂ a ha).1)
      (List.append_cancel_right e2)⟩

theorem probe_filteredIPs_ne_nil (env : WorkerEnv) (sub resolverAddr : Str) (f : Finding)
    (h : probe env sub resolverAddr = some f) : f.filteredIPs ≠ [] := by
  unfold probe at h
  cases herr : (resolveCandidate env sub resolverAddr).err with
  | some e => simp [herr] at h
  | none =>
    simp only [herr, List.length_eq_zero] at h
    split at h
    · cases h
    · split at h
      · cases h
      · next hne =>
        injection h with h
        rw [← h]
        exact hne

theorem resolveCandidate_deterministic (env : WorkerEnv)
    (hdet : ∀ r₁ r₂ target : Str, env.net.viaResolver r₁ target = env.net.viaResolver r₂ target)
    (sub r₁ r₂ : Str) :
    (resolveCandidate env sub r₁).ips = (resolveCandidate env sub r₂).ips ∧
      (resolveCandidate env sub r₁).err = (resolveCandidate env sub r₂).err := by
  unfold resolveCandidate lookupHost
  rcases lookupLocalHosts env.lower env.localHosts
    (targetName (cleanLabel env.lower sub) env.domain) with ⟨ips, ok⟩
  cases ok
  · cases env.offlineMode
    · simp [hdet r₁ r₂]
    · simp
  · simp

theorem probe_deterministic (env : WorkerEnv)
    (hdet : ∀ r₁ r₂ target : Str, env.net.viaResolver r₁ target = env.net.viaResolver r₂ target)
    (sub r₁ r₂ : Str) (f : Finding) (h : probe env sub r₁ = some f) :
    ∃ g, probe env sub r₂ = some g ∧ g.pair = f.pair := by
  obtain ⟨hips, herr⟩ := resolveCandidate_deterministic env hdet sub r₁ r₂
  unfold probe at h ⊢
  dsimp only at h ⊢
  rw [← hips, ← herr]
  cases he : (resolveCandidate env sub r₁).err with
  | some e => simp [he] at h
  | none =>
    simp only [he] at h ⊢
    split at h
    · cases h
    · next hw =>
      simp only [hw, Bool.false_eq_true, if_false]
      split at h
      · cases h
      · next hne =>
        simp only [hne, if_false]
        injection h with h
        refine ⟨_, rfl, ?_⟩
        rw [← h]
        rfl

/-- The claim C10 fails on the code for address texts that make two keys
coincide. The hosts file `a-[b.d c` / `a.d b-[c` loads; offline and against a
fresh store, the labels `a-[b` and `a` yield the pairs (`a-[b`, [`c`]) and
(`a`, [`b-[c`]), which share the key `a-[b-[c]`; two passes over the two
labels report the first pair once and the second pair never. -/
theorem dedup_collision_counterexample :
    loadHostsFile lowerLatinGreek
          (HostsFile.ofLines ["a-[b.d c".toList, "a.d b-[c".toList]) =
        .ok collidingEnv.localHosts ∧
      (probe collidingEnv "a".toList "8.8.8.8:53".toList).map Finding.pair =
        some ("a".toList, ["b-[c".toList]) ∧
      (twoPasses collidingEnv
          [("a-[b".toList, "8.8.8.8:53".toList), ("a".toList, "8.8.8.8:53".toList)]
          [("a-[b".toList, "8.8.8.8:53".toList), ("a".toList, "8.8.8.8:53".toList)]
          initialState).map Finding.pair = [("a-[b".toList, ["c".toList])] ∧
      ((twoPasses collidingEnv
          [("a-[b".toList, "8.8.8.8:53".toList), ("a".toList, "8.8.8.8:53".toList)]
          [("a-[b".toList, "8.8.8.8:53".toList), ("a".toList, "8.8.8.8:53".toList)]
          initialState).map Finding.pair).countP
        (fun p => decide (p = ("a".toList, ["b-[c".toList]))) = 0 :=
  ⟨by rfl, by decide, by decide, by decide⟩

/-- C10, amended: dedup idempotence in the sequential model. A worker starts
from an empty dedup store and drains a list of labels, then drains the same
labels again (whatever resolvers are drawn) against the store it left, the
resolver stub answering each name the same through every resolver. The second
pass reports nothing, stores no key and registers nothing. Over the two
passes no (normalised name, surviving address list) pair is reported twice,
and every reported pair is the pair of one of the labels. When no surviving
address contains a space or an opening square bracket, every pair that a
label yields is reported exactly once. -/
theorem dedup_idempotent (env : WorkerEnv) (jobs₁ jobs₂ : List (Str × Str)) (st : WorkerState)
    (hlabels : jobs₂.map Prod.fst = jobs₁.map Prod.fst)
    (hfresh : st.foundItems = [])
    (hdet : ∀ r₁ r₂ target : Str,
      env.net.viaResolver r₁ target = env.net.viaResolver r₂ target) :
    ((runWorker env jobs₂ (runWorker env jobs₁ st).1).2 = [] ∧
        (runWorker env jobs₂ (runWorker env jobs₁ st).1).1.foundItems =
          (runWorker env jobs₁ st).1.foundItems ∧
        (runWorker env jobs₂ (runWorker env jobs₁ st).1).1.registry =
          (runWorker env jobs₁ st).1.registry ∧
        reported (runWorker env jobs₂ (runWorker env jobs₁ st).1).1 =
          reported (runWorker env jobs₁ st).1) ∧
      ((twoPasses env jobs₁ jobs₂ st).map Finding.pair).Nodup ∧
      (∀ f ∈ twoPasses env jobs₁ jobs₂ st, ∃ job ∈ jobs₁, probe env job.1 job.2 = some f) ∧
      ((∀ job ∈ jobs₁, ∀ f, probe env job.1 job.2 = some f →
          ∀ ip ∈ f.filteredIPs, ' ' ∉ ip ∧ '[' ∉ ip) →
        ∀ job ∈ jobs₁, ∀ f, probe env job.1 job.2 = some f →
          ((twoPasses env jobs₁ jobs₂ st).map Finding.pair).countP
            (fun p => decide (p = f.pair)) = 1) := by
  obtain ⟨r1, r2, r3, r4⟩ := runWorker_store env jobs₁ st
  have hsecond := runWorker_silent_of_keys env jobs₂ (runWorker env jobs₁ st).1 (by
    intro job hjob f hf
    have hmem : job.1 ∈ jobs₂.map Prod.fst := List.mem_map_of_mem _ hjob
    rw [hlabels] at hmem
    obtain ⟨job', hjob', hfst⟩ := List.mem_map.mp hmem
    obtain ⟨g, hg, hpair⟩ := probe_deterministic env hdet job.1 job.2 job'.2 f hf
    rw [← hfst] at hg
    have hk := r2 job' hjob' g hg
    have hkey : g.key = f.key := by
      unfold Finding.pair at hpair
      simp only [Prod.mk.injEq] at hpair
      unfold Finding.key
      rw [hpair.1, hpair.2]
    rw [← hkey]
    exact hk)
  have htwo : twoPasses env jobs₁ jobs₂ st = (runWorker env jobs₁ st).2 := by
    unfold twoPasses
    rw [hsecond.1, List.append_nil]
  have hnodupKeys : ((runWorker env jobs₁ st).2.map Finding.key).Nodup := by
    have := r4 (by rw [hfresh]; exact List.nodup_nil)
    rw [r1, hfresh, List.nil_append] at this
    exact this
  have hnodup : ((runWorker env jobs₁ st).2.map Finding.pair).Nodup := by
    have hcomp : (runWorker env jobs₁ st).2.map Finding.key =
        ((runWorker env jobs₁ st).2.map Finding.pair).map (fun p => recordKey p.1 p.2) := by
      rw [List.map_map]
      rfl
    rw [hcomp] at hnodupKeys
    exact List.Nodup.of_map _ hnodupKeys
  refine ⟨hsecond, by rw [htwo]; exact hnodup, by rw [htwo]; exact r3, ?_⟩
  intro hclean job hjob f hf
  rw [htwo]
  refine (List.count_eq_one_of_mem hnodup ?_ :)
  have hk := r2 job hjob f hf
  rw [r1, hfresh, List.nil_append] at hk
  obtain ⟨g, hg, hgk⟩ := List.mem_map.mp hk
  obtain ⟨job', hjob', hg'⟩ := r3 g hg
  have hinj := recordKey_injective g.cleanSub f.cleanSub g.filteredIPs f.filteredIPs
    (probe_filteredIPs_ne_nil env _ _ g hg') (probe_filteredIPs_ne_nil env _ _ f hf)
    (hclean job' hjob' g hg') (hclean job hjob f hf) hgk
  have hpair : g.pair = f.pair := by
    unfold Finding.pair
    rw [hinj.1, hinj.2]
  rw [← hpair]
  exact List.mem_map_of_mem _ hg

/-- Two passes over the labels `api`, `API `, `www` and `api` against
`steadyEnv`, the second pass through other resolvers: an instance of the
amended C10. The second pass reports nothing and the single pair is reported
exactly once. -/
theorem dedup_idempotent_witness :
    (runWorker steadyEnv
        [("api".toList, "1.1.1.1:53".toList), ("API ".toList, "9.9.9.9:53".toList),
         ("www".toList, "8.8.4.4:53".toList), ("api".toList, "1.0.0.1:53".toList)]
        (runWorker steadyEnv
          [("api".toList, "8.8.8.8:53".toList), ("API ".toList, "8.8.8.8:53".toList),
           ("www".toList, "8.8.8.8:53".toList), ("api".toList, "8.8.8.8:53".toList)]
          initialState).1).2 = [] ∧
      ((twoPasses steadyEnv
          [("api".toList, "8.8.8.8:53".toList), ("API ".toList, "8.8.8.8:53".toList),
           ("www".toList, "8.8.8.8:53".toList), ("api".toList, "8.8.8.8:53".toList)]
          [("api".toList, "1.1.1.1:53".toList), ("API ".toList, "9.9.9.9:53".toList),
           ("www".toList, "8.8.4.4:53".toList), ("api".toList, "1.0.0.1:53".toList)]
          initialState).map Finding.pair).countP
        (fun p => decide (p = ("api".toList, ["1.1.1.1".toList, "2.2.2.2".toList]))) = 1 :=
  ⟨(dedup_idempotent steadyEnv
      [("api".toList, "8.8.8.8:53".toList), ("API ".toList, "8.8.8.8:53".toList),
       ("www".toList, "8.8.8.8:53".toList), ("api".toList, "8.8.8.8:53".toList)]
      [("api".toList, "1.1.1.1:53".toList), ("API ".toList, "9.9.9.9:53".toList),
       ("www".toList, "8.8.4.4:53".toList), ("api".toList, "1.0.0.1:53".toList)]
      initialState (by decide) rfl (fun _ _ _ => rfl)).1.1,
   (dedup_idempotent steadyEnv
      [("api".toList, "8.8.8.8:53".toList), ("API ".toList, "8.8.8.8:53".toList),
       ("www".toList, "8.8.8.8:53".toList), ("api".toList, "8.8.8.8:53".toList)]
      [("api".toList, "1.1.1.1:53".toList), ("API ".toList, "9.9.9.9:53".toList),
       ("www".toList, "8.8.4.4:53".toList), ("api".toList, "1.0.0.1:53".toList)]
      initialState (by decide) rfl (fun _ _ _ => rfl)).2.2.2
      (by decide) ("API ".toList, "8.8.8.8:53".toList) (by decide)
      { cleanSub := "api".toList, target := "api.example.com".toList,
        resolverName := "Google".toList,
        filteredIPs := ["1.1.1.1".toList, "2.2.2.2".toList],
        cdnTags := [trueOriginTag, trueOriginTag] }
      (by decide)⟩

/-! ### The registry -/

theorem registerIP_get (reg : Registry) (ip d s ip' : Str) :
    mapGet (registerIP reg ip d s) ip' =
      if ip = ip' then
        some (match mapGet reg ip with
          | none => { Count := 1, Domains := [d], Source := s }
          | some i => { Count := i.Count + 1, Domains := i.Domains ++ [d], Source := i.Source })
      else mapGet reg ip' := by
  unfold registerIP
  cases h : mapGet reg ip with
  | none =>
    simp only [mapGet_mapSet, if_true]
    by_cases hip : ip = ip' <;> simp [hip]
  | some i =>
    simp only [h, mapGet_mapSet]

/-- The entry for one address after more calls naming it. -/
theorem extend_entry (base : Option IPInfo) (cs : List RegCall) :
    cs.foldl (fun o c => some (match o with
        | none => ({ Count := 1, Domains := [c.domain], Source := c.source } : IPInfo)
        | some i => { Count := i.Count + 1, Domains := i.Domains ++ [c.domain],
                      Source := i.Source })) base =
      match base, cs with
      | b, [] => b
      | none, c :: rest =>
        some { Count := (c :: rest).length, Domains := (c :: rest).map (fun x => x.domain),
               Source := c.source }
      | some i, c :: rest =>
        some { Count := i.Count + (c :: rest).length,
               Domains := i.Domains ++ (c :: rest).map (fun x => x.domain),
               Source := i.Source } := by
  induction cs generalizing base with
  | nil => cases base <;> rfl
  | cons c rest ih =>
    rw [List.foldl_cons, ih]
    cases base with
    | none =>
      cases rest with
      | nil => rfl
      | cons c' rest' =>
        simp only [List.length_cons, List.map_cons, List.singleton_append, IPInfo.mk.injEq,
          Option.some.injEq, and_true, true_and]
        omega
    | some i =>
      cases rest with
      | nil => simp
      | cons c' rest' =>
        simp only [List.length_cons, List.map_cons, List.append_assoc, List.singleton_append,
          IPInfo.mk.injEq, Option.some.injEq, and_true, true_and]
        omega

theorem registerCalls_get (reg : Registry) (calls : List RegCall) (ip : Str) :
    mapGet (registerCalls reg calls) ip =
      (callsFor calls ip).foldl (fun o c => some (match o with
        | none => ({ Count := 1, Domains := [c.domain], Source := c.source } : IPInfo)
        | some i => { Count := i.Count + 1, Domains := i.Domains ++ [c.domain],
                      Source := i.Source })) (mapGet reg ip) := by
  induction calls generalizing reg with
  | nil => rfl
  | cons c rest ih =>
    unfold registerCalls callsFor at *
    rw [List.foldl_cons, ih, registerIP_get]
    by_cases hip : c.ip = ip
    · subst hip
      rw [List.filter_cons_of_pos (by simp), List.foldl_cons]
      simp
    · rw [List.filter_cons_of_neg (by simp [hip])]
      simp [hip]

/-- C11: starting from an empty registry, after any finite sequence of
`registerIP` calls the entry of every address is the reference entry: there
is an entry exactly when some call named the address; its `Count` is the
number of those calls, its `Domains` their names in call order (so `Count` is
the length of `Domains`), and its `Source` the source of the first of them.
A call leaves the entry of every other address as it was. -/
theorem registry_matches_reference (calls : List RegCall) (ip : Str) :
    mapGet (registerCalls [] calls) ip = referenceEntry calls ip ∧
      ((mapGet (registerCalls [] calls) ip).isSome ↔ ∃ c ∈ calls, c.ip = ip) ∧
      (∀ info, mapGet (registerCalls [] calls) ip = some info →
        info.Count = (callsFor calls ip).length ∧
          info.Domains = (callsFor calls ip).map (fun c => c.domain) ∧
          info.Count = info.Domains.length ∧
          (callsFor calls ip).head?.map (fun c => c.source) = some info.Source) ∧
      ∀ (reg : Registry) (c : RegCall), c.ip ≠ ip →
        mapGet (registerIP reg c.ip c.domain c.source) ip = mapGet reg ip := by
  have href : mapGet (registerCalls [] calls) ip = referenceEntry calls ip := by
    rw [registerCalls_get, extend_entry]
    unfold referenceEntry
    cases callsFor calls ip <;> rfl
  refine ⟨href, ?_, ?_, ?_⟩
  · rw [href]
    unfold referenceEntry
    cases hc : callsFor calls ip with
    | nil =>
      simp only [Option.isSome_none, Bool.false_eq_true, false_iff, not_exists, not_and]
      intro c hmem hip
      have : c ∈ callsFor calls ip := by
        unfold callsFor
        simp [hmem, hip]
      rw [hc] at this
      cases this
    | cons c cs =>
      simp only [Option.isSome_some, true_iff]
      have : c ∈ callsFor calls ip := by
        rw [hc]
        exact List.mem_cons_self _ _
      unfold callsFor at this
      simp only [List.mem_filter, decide_eq_true_eq] at this
      exact ⟨c, this.1, this.2⟩
  · intro info hinfo
    rw [href] at hinfo
    unfold referenceEntry at hinfo
    cases hc : callsFor calls ip with
    | nil => simp [hc] at hinfo
    | cons c cs =>
      simp only [hc, Option.some.injEq] at hinfo
      rw [← hinfo]
      simp
  · intro reg c hne
    rw [registerIP_get]
    simp [hne]

theorem mapSet_mapSet {β : Type} (m : GoMap β) (k : Str) (v w : β) :
    mapSet (mapSet m k v) k w = mapSet m k w := by
  induction m with
  | nil => simp [mapSet]
  | cons p m ih =>
    obtain ⟨a, b⟩ := p
    by_cases hak : a = k
    · simp [mapSet, hak]
    · simp [mapSet, hak, ih]

/-- A sequence of three calls: the address `1.2.3.4` is registered for two
names from two sources, another address in between. An instance of C11. -/
theorem registry_matches_reference_witness :
    mapGet (registerCalls []
        [{ ip := "1.2.3.4".toList, domain := "a.example.com".toList, source := "Wordlist".toList },
         { ip := "5.6.7.8".toList, domain := "example.com".toList, source := "SPF Leak".toList },
         { ip := "1.2.3.4".toList, domain := "example.com".toList, source := "DNS/CNAME".toList }])
        "1.2.3.4".toList =
      some { Count := 2, Domains := ["a.example.com".toList, "example.com".toList],
             Source := "Wordlist".toList } :=
  (registry_matches_reference _ _).1.trans (by decide)

/-! ### The registry under concurrent workers -/

/-- A goroutine that runs a call of `registerIP` without interruption does
what `registerIP` does. -/
theorem runSchedule_alone (c : RegCall) (reg : Registry) :
    runSchedule [0, 0, 0, 0] [{ call := c, pc := .check }] reg =
      ([{ call := c, pc := .done }], registerIP reg c.ip c.domain c.source) := by
  simp only [runSchedule, scheduleStep, List.get?, regMicroStep, List.set]
  unfold registerIP
  cases h : mapGet reg c.ip with
  | none => simp [mapGet_mapSet, mapSet_mapSet]
  | some i => simp [h, mapGet_mapSet, mapSet_mapSet]

/-- C12 fails on the code: `registerIP` takes no lock. Two workers register
`1.2.3.4`, each once. When each call runs to its end before the other starts
the entry has `Count` 2; when both read `Count` before either writes it back,
one update is lost: both calls have returned, `Domains` holds the two names,
and `Count` is 1. -/
theorem registerIP_lost_update :
    (runSchedule [0, 0, 0, 0, 1, 1, 1, 1] racingThreads []).1.map (fun t => t.pc) =
        [.done, .done] ∧
      mapGet (runSchedule [0, 0, 0, 0, 1, 1, 1, 1] racingThreads []).2 "1.2.3.4".toList =
        some { Count := 2, Domains := ["a.example.com".toList, "b.example.com".toList],
               Source := "Wordlist".toList } ∧
      (runSchedule [0, 0, 1, 1, 0, 1, 0, 1] racingThreads []).1.map (fun t => t.pc) =
        [.done, .done] ∧
      mapGet (runSchedule [0, 0, 1, 1, 0, 1, 0, 1] racingThreads []).2 "1.2.3.4".toList =
        some { Count := 1, Domains := ["a.example.com".toList, "b.example.com".toList],
               Source := "Wordlist".toList } := by
  decide

/-! ### The token bucket -/

theorem newTokenBucket_bucket (qps burst : Int) (hq : 0 < qps) (hq' : qps ≤ 1000000000)
    (hb : 1 ≤ burst) :
    newTokenBucket qps burst =
      .bucket { burst := burst.toNat, tokens := burst.toNat,
                intervalNs := ((1000000000 : Int) / qps).toNat } := by
  unfold newTokenBucket
  have h1 : ¬ qps ≤ 0 := by omega
  have h2 : ¬ burst ≤ 0 := by omega
  have h3 : ¬ (1000000000 : Int) / qps ≤ 0 := by
    have : (1 : Int) ≤ 1000000000 / qps := by
      rw [Int.le_ediv_iff_mul_le hq]
      omega
    omega
  simp only [h1, h2, h3, if_false]

theorem runBucket_replicate_acquire (n : Nat) (b : TokenBucket) (h : n ≤ b.tokens) :
    runBucket (List.replicate n .acquire) b = some { b with tokens := b.tokens - n } := by
  induction n generalizing b with
  | zero => rfl
  | succ n ih =>
    have hpos : 0 < b.tokens := by omega
    simp only [List.replicate_succ, runBucket, TokenBucket.acquire, hpos, if_true]
    rw [ih _ (by simp only; omega)]
    simp only [Option.some.injEq, TokenBucket.mk.injEq, true_and, and_true]
    omega

theorem runBucket_invariant (evs : List BucketEvent) (b b' : TokenBucket)
    (hrun : runBucket evs b = some b') (hinv : b.tokens ≤ b.burst) :
    b'.tokens ≤ b'.burst ∧ b'.burst = b.burst ∧ b'.intervalNs = b.intervalNs := by
  induction evs generalizing b with
  | nil =>
    simp only [runBucket, Option.some.injEq] at hrun
    subst hrun
    exact ⟨hinv, rfl, rfl⟩
  | cons ev rest ih =>
    cases ev with
    | tick =>
      simp only [runBucket] at hrun
      have := ih b.tick hrun (by
        unfold TokenBucket.tick
        split
        · simp only; omega
        · exact hinv)
      have hb : b.tick.burst = b.burst ∧ b.tick.intervalNs = b.intervalNs := by
        unfold TokenBucket.tick
        split <;> exact ⟨rfl, rfl⟩
      exact ⟨this.1, this.2.1.trans hb.1, this.2.2.trans hb.2⟩
    | acquire =>
      simp only [runBucket, TokenBucket.acquire] at hrun
      by_cases hpos : 0 < b.tokens
      · simp only [hpos, if_true] at hrun
        have := ih _ hrun (by simp only; omega)
        exact ⟨this.1, this.2.1, this.2.2⟩
      · simp [hpos] at hrun

theorem runBucket_balance (evs : List BucketEvent) (b b' : TokenBucket)
    (hrun : runBucket evs b = some b') :
    acquisitions evs + b'.tokens ≤ b.tokens + ticks evs := by
  induction evs generalizing b with
  | nil =>
    simp only [runBucket, Option.some.injEq] at hrun
    subst hrun
    simp [acquisitions, ticks]
  | cons ev rest ih =>
    cases ev with
    | tick =>
      simp only [runBucket] at hrun
      have := ih b.tick hrun
      have ht : b.tick.tokens ≤ b.tokens + 1 := by
        unfold TokenBucket.tick
        split
        · simp
        · omega
      simp only [acquisitions, ticks]
      omega
    | acquire =>
      simp only [runBucket, TokenBucket.acquire] at hrun
      by_cases hpos : 0 < b.tokens
      · simp only [hpos, if_true] at hrun
        have := ih _ hrun
        dsimp only at this
        simp only [acquisitions, ticks]
        omega
      · simp [hpos] at hrun

theorem runBucket_append (evs evs' : List BucketEvent) (b : TokenBucket) :
    runBucket (evs ++ evs') b = (runBucket evs b).bind (runBucket evs') := by
  induction evs generalizing b with
  | nil => rfl
  | cons ev rest ih =>
    cases ev with
    | tick =>
      simp only [List.cons_append, runBucket]
      exact ih _
    | acquire =>
      simp only [List.cons_append, runBucket]
      cases b.acquire with
      | none => rfl
      | some b1 => exact ih _

/-- C13, on the code: `newTokenBucket` does not return a bucket for every
positive rate. At 2000000000 queries per second the ticker interval
`time.Second / time.Duration(qps)` is zero and `time.NewTicker` panics. For
every rate from 1 to 1000000000 and every burst of at least 1 the claim holds:
the bucket starts with exactly `burst` tokens and the first `burst`
acquisitions complete without a tick; in every state reached from it the
number of tokens is at most `burst`. A tick adds one token below `burst` and
changes nothing at `burst`; an acquisition completes exactly when a token is
present and removes one token. -/
theorem token_bucket_invariant :
    newTokenBucket 2000000000 2 = .tickerPanic ∧
      (∀ qps burst : Int, 0 < qps → qps ≤ 1000000000 → 1 ≤ burst →
        ∃ b, newTokenBucket qps burst = .bucket b ∧
          (b.burst : Int) = burst ∧ (b.tokens : Int) = burst ∧
          runBucket (List.replicate b.burst .acquire) b = some { b with tokens := 0 } ∧
          ∀ evs b', runBucket evs b = some b' → b'.tokens ≤ b'.burst ∧ b'.burst = b.burst) ∧
      (∀ b : TokenBucket,
        (b.tokens < b.burst → b.tick = { b with tokens := b.tokens + 1 }) ∧
          (b.tokens = b.burst → b.tick = b)) ∧
      ∀ b : TokenBucket,
        (0 < b.tokens → b.acquire = some { b with tokens := b.tokens - 1 }) ∧
          (b.tokens = 0 → b.acquire = none) := by
  refine ⟨by decide, ?_, ?_, ?_⟩
  · intro qps burst hq hq' hb
    refine ⟨_, newTokenBucket_bucket qps burst hq hq' hb, ?_, ?_, ?_, ?_⟩
    · simp only
      omega
    · simp only
      omega
    · have := runBucket_replicate_acquire burst.toNat
        { burst := burst.toNat, tokens := burst.toNat,
          intervalNs := ((1000000000 : Int) / qps).toNat } (le_refl _)
      simpa using this
    · intro evs b' hrun
      have := runBucket_invariant evs _ b' hrun (le_refl _)
      exact ⟨this.1, this.2.1⟩
  · intro b
    constructor
    · intro h
      simp [TokenBucket.tick, h]
    · intro h
      simp [TokenBucket.tick, h]
  · intro b
    constructor
    · intro h
      simp [TokenBucket.acquire, h]
    · intro h
      simp [TokenBucket.acquire, h]

/-- The bucket of the default flags, 5 queries per second and a burst of 2:
an instance of the part of C13 that holds. -/
theorem token_bucket_invariant_witness :
    ∃ b, newTokenBucket 5 2 = .bucket b ∧
      (b.burst : Int) = 2 ∧ (b.tokens : Int) = 2 ∧
      runBucket (List.replicate b.burst .acquire) b = some { b with tokens := 0 } ∧
      ∀ evs b', runBucket evs b = some b' → b'.tokens ≤ b'.burst ∧ b'.burst = b.burst :=
  token_bucket_invariant.2.1 5 2 (by decide) (by decide) (by decide)

/-- C14: a rate of zero disables limiting. For every burst,
`newTokenBucket(0, burst)` returns the nil channel, and so does every rate
below zero; a worker given the nil channel passes the limiter at once for
every candidate, however many it processes. -/
theorem zero_rate_disables_limiting (burst : Int) :
    newTokenBucket 0 burst = .unlimited ∧
      (newTokenBucket 0 burst).limiter = some none ∧
      (∀ qps : Int, qps ≤ 0 → newTokenBucket qps burst = .unlimited) ∧
      acquireToken none = .pass none ∧
      ∀ n : Nat, acquireTokens n none = .pass none := by
  refine ⟨rfl, rfl, ?_, rfl, ?_⟩
  · intro qps h
    simp [newTokenBucket, h]
  · intro n
    induction n with
    | zero => rfl
    | succ n ih => simp only [acquireTokens, acquireToken, ih]

theorem timesAscend_cons (a : Nat × BucketEvent) (rest : List (Nat × BucketEvent))
    (h : timesAscend (a :: rest) = true) :
    timesAscend rest = true ∧ ∀ e ∈ rest, a.1 ≤ e.1 := by
  induction rest generalizing a with
  | nil => simp [timesAscend]
  | cons b rest ih =>
    simp only [timesAscend, Bool.and_eq_true, decide_eq_true_eq] at h
    obtain ⟨hab, hrest⟩ := h
    refine ⟨hrest, ?_⟩
    intro e he
    rcases List.mem_cons.mp he with rfl | he
    · exact hab
    · exact Nat.le_trans hab ((ih b hrest).2 e he)

theorem acquireTimes_bound (intervalNs : Nat) (run : List (Nat × BucketEvent)) (k : Nat)
    (b b' : TokenBucket) (i t : Nat)
    (hticks : ticksOnTime intervalNs k run = true) (hasc : timesAscend run = true)
    (hlow : ∀ e ∈ run, k * intervalNs ≤ e.1)
    (hrun : runBucket (run.map Prod.snd) b = some b')
    (hi : (acquireTimes run).get? i = some t) :
    (k + (i + 1 - b.tokens)) * intervalNs ≤ t := by
  induction run generalizing k b i with
  | nil => simp [acquireTimes] at hi
  | cons e rest ih =>
    obtain ⟨t0, ev⟩ := e
    obtain ⟨hasc', hge⟩ := timesAscend_cons (t0, ev) rest hasc
    cases ev with
    | tick =>
      simp only [ticksOnTime, Bool.and_eq_true, decide_eq_true_eq] at hticks
      simp only [List.map_cons, runBucket] at hrun
      simp only [acquireTimes] at hi
      have hlow' : ∀ e ∈ rest, (k + 1) * intervalNs ≤ e.1 :=
        fun e he => Nat.le_trans hticks.1 (hge e he)
      have hrec := ih (k + 1) b.tick i hticks.2 hasc' hlow' hrun hi
      have htok : b.tick.tokens ≤ b.tokens + 1 := by
        unfold TokenBucket.tick
        split
        · simp
        · omega
      exact Nat.le_trans (Nat.mul_le_mul_right _ (by omega)) hrec
    | acquire =>
      simp only [ticksOnTime] at hticks
      simp only [List.map_cons, runBucket, TokenBucket.acquire] at hrun
      by_cases hpos : 0 < b.tokens
      · simp only [hpos, if_true] at hrun
        have hlow' : ∀ e ∈ rest, k * intervalNs ≤ e.1 :=
          fun e he => hlow e (List.mem_cons_of_mem _ he)
        cases i with
        | zero =>
          simp only [acquireTimes, List.get?_cons_zero, Option.some.injEq] at hi
          subst hi
          have h0 := hlow (t0, .acquire) (List.mem_cons_self _ _)
          have : k + (0 + 1 - b.tokens) = k := by omega
          rw [this]
          exact h0
        | succ j =>
          simp only [acquireTimes, List.get?_cons_succ] at hi
          have hrec := ih k _ j hticks hasc' hlow' hrun hi
          dsimp only at hrec
          exact Nat.le_trans (Nat.mul_le_mul_right _ (by omega)) hrec
      · simp [hpos] at hrun

/-- The claim C15 fails on the code in its 1.6 seconds. The ticker is started
when `newTokenBucket` creates the bucket, and a tick that finds the bucket
full is dropped. With 5 queries per second and burst 2, let the worker come
to the limiter 190 ms after the bucket was created: it takes the two tokens
of the bucket at once and then one token at each tick, at 200 ms, 400 ms and
so on to 1600 ms. The run has ten acquisitions and eight ticks, every tick on
time, and its ten acquisitions take 1410 ms, less than 1.6 seconds. -/
theorem rate_limiter_bound_counterexample :
    newTokenBucket 5 2 = .bucket { burst := 2, tokens := 2, intervalNs := 200000000 } ∧
      isTimedRun { burst := 2, tokens := 2, intervalNs := 200000000 }
        [(190000000, .acquire), (190000000, .acquire),
         (200000000, .tick), (200000000, .acquire), (400000000, .tick), (400000000, .acquire),
         (600000000, .tick), (600000000, .acquire), (800000000, .tick), (800000000, .acquire),
         (1000000000, .tick), (1000000000, .acquire), (1200000000, .tick),
         (1200000000, .acquire), (1400000000, .tick), (1400000000, .acquire),
         (1600000000, .tick), (1600000000, .acquire)] = true ∧
      runBucket
        ([(190000000, .acquire), (190000000, .acquire),
          (200000000, .tick), (200000000, .acquire), (400000000, .tick), (400000000, .acquire),
          (600000000, .tick), (600000000, .acquire), (800000000, .tick), (800000000, .acquire),
          (1000000000, .tick), (1000000000, .acquire), (1200000000, .tick),
          (1200000000, .acquire), (1400000000, .tick), (1400000000, .acquire),
          (1600000000, .tick), (1600000000, .acquire)].map Prod.snd)
        { burst := 2, tokens := 2, intervalNs := 200000000 } =
          some { burst := 2, tokens := 0, intervalNs := 200000000 } ∧
      acquireTimes
        [(190000000, .acquire), (190000000, .acquire),
         (200000000, .tick), (200000000, .acquire), (400000000, .tick), (400000000, .acquire),
         (600000000, .tick), (600000000, .acquire), (800000000, .tick), (800000000, .acquire),
         (1000000000, .tick), (1000000000, .acquire), (1200000000, .tick),
         (1200000000, .acquire), (1400000000, .tick), (1400000000, .acquire),
         (1600000000, .tick), (1600000000, .acquire)] =
        [190000000, 190000000, 200000000, 400000000, 600000000, 800000000, 1000000000,
         1200000000, 1400000000, 1600000000] ∧
      1600000000 - 190000000 < 1600000000 := by
  decide

/-- C15, amended: in every run of the bucket and at every point of it, the
acquisitions completed so far are at most the tokens the bucket started with
plus the ticks so far; from the initial state of a bucket that is `burst`
plus the ticks. The bucket of 5 queries per second and burst 2 ticks every
200 ms; a run from its initial state with ten acquisitions has at least 8
ticks. In a timed run of a bucket from its creation, the acquisition number
`i + 1` completes no earlier than `i + 1 - burst` intervals after the
creation; for 5 queries per second and burst 2 the tenth acquisition
completes no earlier than 1.6 seconds after the bucket was created. -/
theorem rate_limiter_bound :
    (∀ (b b' : TokenBucket) (sofar later : List BucketEvent),
        runBucket (sofar ++ later) b = some b' →
        acquisitions sofar ≤ b.tokens + ticks sofar) ∧
      (∀ (qps burst : Int) (b b' : TokenBucket) (sofar later : List BucketEvent),
        newTokenBucket qps burst = .bucket b →
        runBucket (sofar ++ later) b = some b' →
        acquisitions sofar ≤ b.burst + ticks sofar) ∧
      newTokenBucket 5 2 = .bucket { burst := 2, tokens := 2, intervalNs := 200000000 } ∧
      (∀ (evs : List BucketEvent) (b' : TokenBucket),
        runBucket evs { burst := 2, tokens := 2, intervalNs := 200000000 } = some b' →
        10 ≤ acquisitions evs → 8 ≤ ticks evs) ∧
      (∀ (qps burst : Int) (b b' : TokenBucket) (run : List (Nat × BucketEvent)) (i t : Nat),
        newTokenBucket qps burst = .bucket b →
        isTimedRun b run = true →
        runBucket (run.map Prod.snd) b = some b' →
        (acquireTimes run).get? i = some t →
        (i + 1 - b.burst) * b.intervalNs ≤ t) ∧
      ∀ (b' : TokenBucket) (run : List (Nat × BucketEvent)) (t : Nat),
        isTimedRun { burst := 2, tokens := 2, intervalNs := 200000000 } run = true →
        runBucket (run.map Prod.snd) { burst := 2, tokens := 2, intervalNs := 200000000 } =
          some b' →
        (acquireTimes run).get? 9 = some t →
        1600000000 ≤ t := by
  have hpre : ∀ (b b' : TokenBucket) (sofar later : List BucketEvent),
      runBucket (sofar ++ later) b = some b' →
      acquisitions sofar ≤ b.tokens + ticks sofar := by
    intro b b' sofar later hrun
    rw [runBucket_append] at hrun
    cases hmid : runBucket sofar b with
    | none => simp [hmid] at hrun
    | some bm =>
      have := runBucket_balance sofar b bm hmid
      omega
  have htok : ∀ (qps burst : Int) (b : TokenBucket),
      newTokenBucket qps burst = .bucket b → b.tokens = b.burst := by
    intro qps burst b hnew
    unfold newTokenBucket at hnew
    by_cases h1 : qps ≤ 0
    · simp [h1] at hnew
    · by_cases h3 : (1000000000 : Int) / qps ≤ 0
      · simp [h1, h3] at hnew
      · simp only [h1, h3, if_false] at hnew
        injection hnew with hnew
        rw [← hnew]
  have htimed : ∀ (b b' : TokenBucket) (run : List (Nat × BucketEvent)) (i t : Nat),
      isTimedRun b run = true →
      runBucket (run.map Prod.snd) b = some b' →
      (acquireTimes run).get? i = some t →
      (i + 1 - b.tokens) * b.intervalNs ≤ t := by
    intro b b' run i t hvalid hrun hi
    unfold isTimedRun at hvalid
    simp only [Bool.and_eq_true] at hvalid
    have := acquireTimes_bound b.intervalNs run 0 b b' i t hvalid.2 hvalid.1
      (fun e _ => by simp) hrun hi
    simpa using this
  refine ⟨hpre, ?_, by decide, ?_, ?_, ?_⟩
  · intro qps burst b b' sofar later hnew hrun
    have := hpre b b' sofar later hrun
    have := htok qps burst b hnew
    omega
  · intro evs b' hrun hten
    have := runBucket_balance evs _ b' hrun
    simp only at this
    omega
  · intro qps burst b b' run i t hnew hvalid hrun hi
    have := htimed b b' run i t hvalid hrun hi
    rw [htok qps burst b hnew] at this
    exact this
  · intro b' run t hvalid hrun hi
    have := htimed _ b' run 9 t hvalid hrun hi
    simpa using this

/-- Ten acquisitions from the bucket of 5 queries per second and burst 2,
the first two 190 ms after the bucket was created and each of the others at
the tick that brings its token: an instance of the amended C15. The tenth
acquisition completes 1.6 seconds after the creation. -/
theorem rate_limiter_bound_witness :
    ∃ t, (acquireTimes
        [(190000000, .acquire), (190000000, .acquire),
         (200000000, .tick), (200000000, .acquire), (400000000, .tick), (400000000, .acquire),
         (600000000, .tick), (600000000, .acquire), (800000000, .tick), (800000000, .acquire),
         (1000000000, .tick), (1000000000, .acquire), (1200000000, .tick),
         (1200000000, .acquire), (1400000000, .tick), (1400000000, .acquire),
         (1600000000, .tick), (1600000000, .acquire)]).get? 9 = some t ∧
      1600000000 ≤ t :=
  ⟨1600000000, by decide, rate_limiter_bound.2.2.2.2.2
    { burst := 2, tokens := 0, intervalNs := 200000000 }
    [(190000000, .acquire), (190000000, .acquire),
     (200000000, .tick), (200000000, .acquire), (400000000, .tick), (400000000, .acquire),
     (600000000, .tick), (600000000, .acquire), (800000000, .tick), (800000000, .acquire),
     (1000000000, .tick), (1000000000, .acquire), (1200000000, .tick),
     (1200000000, .acquire), (1400000000, .tick), (1400000000, .acquire),
     (1600000000, .tick), (1600000000, .acquire)]
    1600000000 (by decide) (by decide) (by decide)⟩

/-! ### Subnet clustering -/

theorem splitOn_ne_nil (c : Char) (s : Str) : splitOn c s ≠ [] := by
  cases s with
  | nil => simp [splitOn]
  | cons x xs =>
    unfold splitOn
    split
    · simp
    · split <;> simp

theorem splitOn_no_sep (c : Char) (s : Str) : ∀ p ∈ splitOn c s, c ∉ p := by
  induction s with
  | nil => simp [splitOn]
  | cons x xs ih =>
    intro p hp
    unfold splitOn at hp
    by_cases hx : x = c
    · simp only [hx, if_true, List.mem_cons] at hp
      rcases hp with rfl | hp
      · simp
      · exact ih p hp
    · simp only [hx, if_false] at hp
      cases hs : splitOn c xs with
      | nil => exact absurd hs (splitOn_ne_nil c xs)
      | cons h t =>
        rw [hs] at hp ih
        simp only [List.mem_cons] at hp
        rcases hp with rfl | hp
        · intro hmem
          rcases List.mem_cons.mp hmem with hcx | hmem
          · exact hx hcx.symm
          · exact ih h (List.mem_cons_self _ _) hmem
        · exact ih p (List.mem_cons_of_mem _ hp)

theorem splitOn_of_no_sep (c : Char) (a : Str) (h : c ∉ a) : splitOn c a = [a] := by
  induction a with
  | nil => rfl
  | cons x xs ih =>
    have hx : x ≠ c := fun e => h (e ▸ List.mem_cons_self _ _)
    have hxs : c ∉ xs := fun e => h (List.mem_cons_of_mem _ e)
    unfold splitOn
    simp only [hx, if_false, ih hxs]

theorem splitOn_append (c : Char) (a rest : Str) (h : c ∉ a) :
    splitOn c (a ++ c :: rest) = a :: splitOn c rest := by
  induction a with
  | nil => simp [splitOn]
  | cons x xs ih =>
    have hx : x ≠ c := fun e => h (e ▸ List.mem_cons_self _ _)
    have hxs : c ∉ xs := fun e => h (List.mem_cons_of_mem _ e)
    rw [List.cons_append, splitOn]
    simp only [hx, if_false, ih hxs]

theorem subnetOf_eq_network24 (ip : Str) : subnetOf ip = (network24 ip).map cidrText := by
  unfold subnetOf network24
  rcases splitOn '.' ip with _ | ⟨a, _ | ⟨b, _ | ⟨c, _ | ⟨d, _ | ⟨e, t⟩⟩⟩⟩⟩ <;> rfl

theorem network24_no_dot (ip : Str) (n : Str × Str × Str) (h : network24 ip = some n) :
    '.' ∉ n.1 ∧ '.' ∉ n.2.1 ∧ '.' ∉ n.2.2 := by
  unfold network24 at h
  split at h
  · next a b c d hs =>
    have hno := splitOn_no_sep '.' ip
    rw [hs] at hno
    injection h with h
    subst h
    exact ⟨hno a (by simp), hno b (by simp), hno c (by simp)⟩
  · cases h

theorem cidrText_injective (n m : Str × Str × Str)
    (hn : '.' ∉ n.1 ∧ '.' ∉ n.2.1 ∧ '.' ∉ n.2.2)
    (hm : '.' ∉ m.1 ∧ '.' ∉ m.2.1 ∧ '.' ∉ m.2.2)
    (h : cidrText n = cidrText m) : n = m := by
  obtain ⟨a, b, c⟩ := n
  obtain ⟨a', b', c'⟩ := m
  unfold cidrText at h
  simp only [List.append_assoc] at h
  have h1 : a ++ '.' :: (b ++ ('.' :: (c ++ ".0/24".toList))) =
      a' ++ '.' :: (b' ++ ('.' :: (c' ++ ".0/24".toList))) := h
  obtain ⟨e1, h2⟩ := split_at_first '.' a a' _ _ hn.1 hm.1 h1
  obtain ⟨e2, h3⟩ := split_at_first '.' b b' _ _ hn.2.1 hm.2.1 h2
  have h4 : c ++ '.' :: "0/24".toList = c' ++ '.' :: "0/24".toList := h3
  obtain ⟨e3, _⟩ := split_at_first '.' c c' _ _ hn.2.2 hm.2.2 h4
  rw [e1, e2, e3]

theorem subnetOf_eq_iff (ip₁ ip₂ : Str) (cidr₁ cidr₂ : Str)
    (h₁ : subnetOf ip₁ = some cidr₁) (h₂ : subnetOf ip₂ = some cidr₂) :
    cidr₁ = cidr₂ ↔ network24 ip₁ = network24 ip₂ := by
  rw [subnetOf_eq_network24] at h₁ h₂
  cases hn₁ : network24 ip₁ with
  | none => simp [hn₁] at h₁
  | some n₁ =>
    cases hn₂ : network24 ip₂ with
    | none => simp [hn₂] at h₂
    | some n₂ =>
      simp only [hn₁, hn₂, Option.map_some', Option.some.injEq] at h₁ h₂ ⊢
      constructor
      · intro h
        apply cidrText_injective n₁ n₂ (network24_no_dot _ _ hn₁) (network24_no_dot _ _ hn₂)
        rw [h₁, h₂, h]
      · intro h
        rw [← h₁, ← h₂, h]

theorem subnetOf_dotted (a b c d : Str) (ha : '.' ∉ a) (hb : '.' ∉ b) (hc : '.' ∉ c)
    (hd : '.' ∉ d) :
    subnetOf (a ++ '.' :: (b ++ '.' :: (c ++ '.' :: d))) = some (cidrText (a, b, c)) := by
  unfold subnetOf
  rw [splitOn_append _ _ _ ha, splitOn_append _ _ _ hb, splitOn_append _ _ _ hc,
    splitOn_of_no_sep _ _ hd]
  rfl

theorem mapGet_eq_none_iff {β : Type} (m : GoMap β) (k : Str) :
    mapGet m k = none ↔ k ∉ m.map Prod.fst := by
  induction m with
  | nil => simp [mapGet]
  | cons p m ih =>
    obtain ⟨a, b⟩ := p
    simp only [List.map_cons, List.mem_cons, not_or]
    by_cases hak : a = k
    · subst hak
      simp only [mapGet, if_true]
      constructor
      · intro h
        cases h
      · intro h
        exact absurd trivial h.1
    · have hka : ¬ k = a := fun e => hak e.symm
      simp only [mapGet, hak, if_false, ih]
      constructor
      · intro h
        exact ⟨hka, h⟩
      · intro h
        exact h.2

theorem mapSet_of_not_mem {β : Type} (m : GoMap β) (k : Str) (v : β)
    (h : k ∉ m.map Prod.fst) : mapSet m k v = m ++ [(k, v)] := by
  induction m with
  | nil => rfl
  | cons p m ih =>
    obtain ⟨a, b⟩ := p
    simp only [List.map_cons, List.mem_cons, not_or] at h
    have hak : ¬ a = k := fun e => h.1 e.symm
    simp [mapSet, hak, ih h.2]

theorem mem_iff_mapGet {β : Type} (m : GoMap β) (hnd : (m.map Prod.fst).Nodup) (k : Str)
    (v : β) : (k, v) ∈ m ↔ mapGet m k = some v := by
  induction m with
  | nil => simp [mapGet]
  | cons p m ih =>
    obtain ⟨a, b⟩ := p
    simp only [List.map_cons, List.nodup_cons] at hnd
    by_cases hak : a = k
    · subst hak
      constructor
      · intro h
        rcases List.mem_cons.mp h with h | h
        · injection h with _ hv
          simp [mapGet, hv]
        · exact absurd (List.mem_map_of_mem Prod.fst h) hnd.1
      · intro h
        simp only [mapGet, if_true, Option.some.injEq] at h
        rw [h]
        exact List.mem_cons_self _ _
    · have hka : ¬ k = a := fun e => hak e.symm
      simp [mapGet, hak, hka, ih hnd.2]

theorem isRange_self {β : Type} (m : GoMap β) (hnd : (m.map Prod.fst).Nodup) : IsRange m m :=
  ⟨hnd, fun k v => mem_iff_mapGet m hnd k v⟩

theorem foldl_mapSet_get {β γ : Type} (f : β → γ) (visited : List (Str × β))
    (hnd : (visited.map Prod.fst).Nodup) (m0 : GoMap γ) (k : Str) :
    mapGet (visited.foldl (fun m e => mapSet m e.1 (f e.2)) m0) k =
      match visited.find? (fun e => e.1 = k) with
      | some e => some (f e.2)
      | none => mapGet m0 k := by
  induction visited generalizing m0 with
  | nil => rfl
  | cons e rest ih =>
    simp only [List.map_cons, List.nodup_cons] at hnd
    rw [List.foldl_cons, ih hnd.2]
    by_cases hek : e.1 = k
    · have hnone : rest.find? (fun e => e.1 = k) = none := by
        rw [List.find?_eq_none]
        intro x hx hxk
        simp only [decide_eq_true_eq] at hxk
        exact hnd.1 (by rw [hek, ← hxk]; exact List.mem_map_of_mem Prod.fst hx)
      simp [hnone, List.find?_cons, hek, mapGet_mapSet]
    · cases hf : rest.find? (fun e => e.1 = k) with
      | none => simp [List.find?_cons, hek, hf, mapGet_mapSet]
      | some x => simp [List.find?_cons, hek, hf]

theorem buildIpRegistry_get (registry : Registry) (visited : List (Str × IPInfo))
    (h : IsRange registry visited) (ip : Str) :
    mapGet (buildIpRegistry visited) ip = (mapGet registry ip).map fun i => i.Domains := by
  unfold buildIpRegistry
  rw [foldl_mapSet_get (fun i : IPInfo => i.Domains) visited h.1 [] ip]
  cases hf : visited.find? (fun e => e.1 = ip) with
  | some e =>
    have hmem := List.mem_of_find?_eq_some hf
    have hkey := List.find?_some hf
    simp only [decide_eq_true_eq] at hkey
    have := (h.2 e.1 e.2).mp hmem
    rw [hkey] at this
    simp [this]
  | none =>
    rw [List.find?_eq_none] at hf
    cases hr : mapGet registry ip with
    | none => simp [mapGet]
    | some info =>
      have := (h.2 ip info).mpr hr
      have := hf _ this
      simp at this

theorem visited_ipRegistry (registry : Registry) (visit₁ : List (Str × IPInfo))
    (visit₂ : List (Str × List Str)) (h₁ : IsRange registry visit₁)
    (h₂ : IsRange (buildIpRegistry visit₁) visit₂) (ip : Str) (ds : List Str) :
    (ip, ds) ∈ visit₂ ↔ (mapGet registry ip).map (fun i => i.Domains) = some ds := by
  rw [h₂.2 ip ds, buildIpRegistry_get registry visit₁ h₁]

theorem clusterStep_get (subnets : GoMap SubnetGroup) (e : Str × List Str) (cidr : Str) :
    mapGet (clusterStep subnets e) cidr =
      if subnetOf e.1 = some cidr then groupStep (mapGet subnets cidr) e
      else mapGet subnets cidr := by
  unfold clusterStep groupStep
  cases hs : subnetOf e.1 with
  | none => simp
  | some c =>
    by_cases hc : c = cidr
    · subst hc
      cases hg : mapGet subnets c with
      | none => simp [hg, mapGet_mapSet]
      | some g => simp [hg, mapGet_mapSet]
    · cases hg : mapGet subnets c with
      | none => simp [hg, mapGet_mapSet, hc]
      | some g => simp [hg, mapGet_mapSet, hc]

theorem clusterLoop_get (visited : List (Str × List Str)) (subnets : GoMap SubnetGroup)
    (cidr : Str) :
    mapGet (clusterLoop visited subnets) cidr =
      (visited.filter fun e => subnetOf e.1 = some cidr).foldl groupStep
        (mapGet subnets cidr) := by
  induction visited generalizing subnets with
  | nil => rfl
  | cons e rest ih =>
    unfold clusterLoop at ih ⊢
    rw [List.foldl_cons, ih, clusterStep_get]
    by_cases h : subnetOf e.1 = some cidr
    · rw [List.filter_cons_of_pos (by simp [h])]
      simp [h]
    · rw [List.filter_cons_of_neg (by simp [h])]
      simp [h]

theorem groupStep_foldl_some (es : List (Str × List Str)) (g : SubnetGroup)
    (hnd : (es.map Prod.fst).Nodup) (hdis : ∀ e ∈ es, e.1 ∉ g.IPs.map Prod.fst) :
    es.foldl groupStep (some g) =
      some { IPs := g.IPs ++ es.map (fun e => (e.1, true)),
             Hosts := g.Hosts + (es.map fun e => e.2.length).sum } := by
  induction es generalizing g with
  | nil => simp
  | cons e rest ih =>
    simp only [List.map_cons, List.nodup_cons] at hnd
    have he : e.1 ∉ g.IPs.map Prod.fst := hdis e (List.mem_cons_self _ _)
    rw [List.foldl_cons]
    have hstep : groupStep (some g) e =
        some { IPs := g.IPs ++ [(e.1, true)], Hosts := g.Hosts + e.2.length } := by
      simp [groupStep, mapSet_of_not_mem _ _ _ he]
    rw [hstep, ih _ hnd.2]
    · simp [Nat.add_assoc]
    · intro x hx
      simp only [List.map_append, List.map_cons, List.map_nil, List.mem_append,
        List.mem_singleton, not_or]
      refine ⟨hdis x (List.mem_cons_of_mem _ hx), ?_⟩
      intro hxe
      exact hnd.1 (hxe ▸ List.mem_map_of_mem Prod.fst hx)

theorem groupStep_foldl_none (es : List (Str × List Str)) :
    (es.map Prod.fst).Nodup →
    es.foldl groupStep none =
      match es with
      | [] => none
      | e :: rest =>
        some { IPs := (e :: rest).map (fun x => (x.1, true)),
               Hosts := ((e :: rest).map fun x => x.2.length).sum } := by
  intro hnd
  cases es with
  | nil => rfl
  | cons e rest =>
    simp only [List.map_cons, List.nodup_cons] at hnd
    rw [List.foldl_cons]
    have hstep : groupStep none e = some { IPs := [(e.1, true)], Hosts := e.2.length } := by
      simp [groupStep, mapSet]
    rw [hstep, groupStep_foldl_some rest _ hnd.2]
    · simp
    · intro x hx
      simp only [List.map_cons, List.map_nil, List.mem_singleton]
      intro hxe
      exact hnd.1 (hxe ▸ List.mem_map_of_mem Prod.fst hx)

theorem filter_keys_nodup {β : Type} (es : List (Str × β)) (p : Str × β → Bool)
    (hnd : (es.map Prod.fst).Nodup) : ((es.filter p).map Prod.fst).Nodup :=
  List.Nodup.sublist (List.Sublist.map _ (List.filter_sublist es)) hnd

/-- The groups after the grouping loop, for entries visited once each: the
group of a key holds the visited addresses of that key, in visiting order,
and the sum of the lengths of their name lists. -/
theorem clusterLoop_group (visited : List (Str × List Str))
    (hnd : (visited.map Prod.fst).Nodup) (cidr : Str) :
    mapGet (clusterLoop visited []) cidr =
      match visited.filter fun e => subnetOf e.1 = some cidr with
      | [] => none
      | e :: es =>
        some { IPs := (e :: es).map (fun x => (x.1, true)),
               Hosts := ((e :: es).map fun x => x.2.length).sum } := by
  rw [clusterLoop_get]
  exact groupStep_foldl_none (visited.filter fun e => subnetOf e.1 = some cidr)
    (filter_keys_nodup visited _ hnd)

theorem mapGet_marked (es : List (Str × List Str)) (ip : Str) :
    (mapGet (es.map fun x => (x.1, true)) ip).getD false = true ↔ ip ∈ es.map Prod.fst := by
  induction es with
  | nil => simp [mapGet]
  | cons e rest ih =>
    simp only [List.map_cons, mapGet, List.mem_cons]
    by_cases h : e.1 = ip
    · simp [h]
    · have h' : ¬ ip = e.1 := fun x => h x.symm
      simp only [h, if_false, ih, h', false_or]

theorem isMember_iff (visited : List (Str × List Str)) (hnd : (visited.map Prod.fst).Nodup)
    (cidr : Str) (g : SubnetGroup) (hg : mapGet (clusterLoop visited []) cidr = some g)
    (ip : Str) :
    isMember g ip = true ↔ (ip ∈ visited.map Prod.fst ∧ subnetOf ip = some cidr) := by
  rw [clusterLoop_group visited hnd cidr] at hg
  cases hf : visited.filter (fun e => subnetOf e.1 = some cidr) with
  | nil => simp [hf] at hg
  | cons e es =>
    simp only [hf, Option.some.injEq] at hg
    unfold isMember
    rw [← hg]
    simp only
    rw [mapGet_marked (e :: es) ip, ← hf]
    simp only [List.mem_map, List.mem_filter, decide_eq_true_eq, Prod.exists, exists_and_right,
      exists_eq_right]

theorem group_exists (visited : List (Str × List Str)) (hnd : (visited.map Prod.fst).Nodup)
    (ip cidr : Str) (hmem : ip ∈ visited.map Prod.fst) (hsub : subnetOf ip = some cidr) :
    ∃ g, mapGet (clusterLoop visited []) cidr = some g := by
  rw [clusterLoop_group visited hnd cidr]
  cases hf : visited.filter (fun e => subnetOf e.1 = some cidr) with
  | nil =>
    obtain ⟨e, he, hk⟩ := List.mem_map.mp hmem
    have : e ∈ visited.filter (fun e => subnetOf e.1 = some cidr) := by
      simp [List.mem_filter, he, hk, hsub]
    rw [hf] at this
    cases this
  | cons e es => exact ⟨_, rfl⟩

theorem registered_iff_visited (registry : Registry) (visit₁ : List (Str × IPInfo))
    (visit₂ : List (Str × List Str)) (h₁ : IsRange registry visit₁)
    (h₂ : IsRange (buildIpRegistry visit₁) visit₂) (ip : Str) :
    ip ∈ visit₂.map Prod.fst ↔ (mapGet registry ip).isSome = true := by
  constructor
  · intro h
    obtain ⟨e, he, hk⟩ := List.mem_map.mp h
    have := (visited_ipRegistry registry visit₁ visit₂ h₁ h₂ e.1 e.2).mp he
    rw [hk] at this
    cases hr : mapGet registry ip with
    | none => simp [hr] at this
    | some i => rfl
  · intro h
    cases hr : mapGet registry ip with
    | none => simp [hr] at h
    | some i =>
      have := (visited_ipRegistry registry visit₁ visit₂ h₁ h₂ ip i.Domains).mpr (by simp [hr])
      exact List.mem_map_of_mem Prod.fst this

/-- The claim C16 fails on the code for an address that does not split into
four parts at its dots: the grouping loop skips it. After the worker
registered `1.2.3.4` and `2001:db8::1`, the only group is `1.2.3.0/24` with
the single member `1.2.3.4`; the registered IPv6 address is in no group. -/
theorem subnet_clustering_counterexample :
    (mapGet mixedRegistry "2001:db8::1".toList).isSome = true ∧
      subnetOf "2001:db8::1".toList = none ∧
      clusterLoop (buildIpRegistry mixedRegistry) [] =
        [("1.2.3.0/24".toList, { IPs := [("1.2.3.4".toList, true)], Hosts := 1 })] := by
  decide

/-- C16, amended: subnet clustering groups the registered addresses that
split into exactly four parts at their dots, by their first three parts,
whatever the order in which the maps are visited. Such an address `a.b.c.d`
is a member of the group keyed `a.b.c.0/24`, which exists; a member of a
group is a registered address whose key is the key of that group, so no
address is in two groups and an address that does not have four parts is in
none; two registered addresses share a group exactly when both have four
parts and the same first three. -/
theorem subnet_clustering (registry : Registry) (visit₁ : List (Str × IPInfo))
    (visit₂ : List (Str × List Str)) (h₁ : IsRange registry visit₁)
    (h₂ : IsRange (buildIpRegistry visit₁) visit₂) :
    (∀ ip cidr : Str, (mapGet registry ip).isSome = true → subnetOf ip = some cidr →
        ∃ g, mapGet (clusterLoop visit₂ []) cidr = some g ∧ isMember g ip = true) ∧
      (∀ (ip cidr : Str) (g : SubnetGroup),
        mapGet (clusterLoop visit₂ []) cidr = some g → isMember g ip = true →
        (mapGet registry ip).isSome = true ∧ subnetOf ip = some cidr) ∧
      (∀ ip₁ ip₂ : Str, (mapGet registry ip₁).isSome = true →
        (mapGet registry ip₂).isSome = true →
        ((∃ cidr g, mapGet (clusterLoop visit₂ []) cidr = some g ∧
            isMember g ip₁ = true ∧ isMember g ip₂ = true) ↔
          ((network24 ip₁).isSome = true ∧ network24 ip₁ = network24 ip₂))) ∧
      ∀ a b c d : Str, '.' ∉ a → '.' ∉ b → '.' ∉ c → '.' ∉ d →
        subnetOf (a ++ '.' :: (b ++ '.' :: (c ++ '.' :: d))) =
          some (a ++ ".".toList ++ b ++ ".".toList ++ c ++ ".0/24".toList) := by
  have hreg := registered_iff_visited registry visit₁ visit₂ h₁ h₂
  have part1 : ∀ ip cidr : Str, (mapGet registry ip).isSome = true → subnetOf ip = some cidr →
      ∃ g, mapGet (clusterLoop visit₂ []) cidr = some g ∧ isMember g ip = true := by
    intro ip cidr hr hsub
    obtain ⟨g, hg⟩ := group_exists visit₂ h₂.1 ip cidr ((hreg ip).mpr hr) hsub
    exact ⟨g, hg, (isMember_iff visit₂ h₂.1 cidr g hg ip).mpr ⟨(hreg ip).mpr hr, hsub⟩⟩
  have part2 : ∀ (ip cidr : Str) (g : SubnetGroup),
      mapGet (clusterLoop visit₂ []) cidr = some g → isMember g ip = true →
      (mapGet registry ip).isSome = true ∧ subnetOf ip = some cidr := by
    intro ip cidr g hg hm
    have := (isMember_iff visit₂ h₂.1 cidr g hg ip).mp hm
    exact ⟨(hreg ip).mp this.1, this.2⟩
  refine ⟨part1, part2, ?_, ?_⟩
  · intro ip₁ ip₂ hr₁ hr₂
    constructor
    · rintro ⟨cidr, g, hg, hm₁, hm₂⟩
      have s₁ := (part2 ip₁ cidr g hg hm₁).2
      have s₂ := (part2 ip₂ cidr g hg hm₂).2
      have hiff := (subnetOf_eq_iff ip₁ ip₂ cidr cidr s₁ s₂).mp rfl
      refine ⟨?_, hiff⟩
      rw [subnetOf_eq_network24] at s₁
      cases hn : network24 ip₁ with
      | none => simp [hn] at s₁
      | some n => rfl
    · rintro ⟨hsome, heq⟩
      cases hn : network24 ip₁ with
      | none => simp [hn] at hsome
      | some n =>
        have s₁ : subnetOf ip₁ = some (cidrText n) := by
          rw [subnetOf_eq_network24, hn]
          rfl
        have s₂ : subnetOf ip₂ = some (cidrText n) := by
          rw [subnetOf_eq_network24, ← heq, hn]
          rfl
        obtain ⟨g, hg, hm₁⟩ := part1 ip₁ _ hr₁ s₁
        obtain ⟨g', hg', hm₂⟩ := part1 ip₂ _ hr₂ s₂
        rw [hg] at hg'
        injection hg' with hg'
        subst hg'
        exact ⟨_, g, hg, hm₁, hm₂⟩
  · intro a b c d ha hb hc hd
    rw [subnetOf_dotted a b c d ha hb hc hd]
    rfl

/-- The registry holding `1.2.3.4` and `1.2.3.9`, visited in list order: an
instance of the amended C16. The two addresses share the group `1.2.3.0/24`. -/
theorem subnet_clustering_witness :
    ∃ g, mapGet (clusterLoop (buildIpRegistry sharedRegistry) []) "1.2.3.0/24".toList = some g ∧
      isMember g "1.2.3.9".toList = true :=
  (subnet_clustering sharedRegistry sharedRegistry (buildIpRegistry sharedRegistry)
    (isRange_self _ (by decide)) (isRange_self _ (by decide))).1
    "1.2.3.9".toList "1.2.3.0/24".toList (by decide) (by decide)

theorem subnetLabel_text_injective (l₁ l₂ : SubnetLabel) (h : l₁.text = l₂.text) : l₁ = l₂ := by
  cases l₁ <;> cases l₂ <;> simp only [SubnetLabel.text] at h
  · rw [List.append_cancel_left (List.append_cancel_right h)]
  · have := congrArg (fun l => l.take 4) h
    simp at this
  · have := congrArg (fun l => l.take 4) h
    simp at this
  · have := congrArg (fun l => l.take 4) h
    simp at this
  · rfl
  · exact absurd h (by decide)
  · have := congrArg (fun l => l.take 4) h
    simp at this
  · exact absurd h (by decide)
  · rfl

theorem group_hosts (registry : Registry) (visit₁ : List (Str × IPInfo))
    (visit₂ : List (Str × List Str)) (h₁ : IsRange registry visit₁)
    (h₂ : IsRange (buildIpRegistry visit₁) visit₂) (cidr : Str) (g : SubnetGroup)
    (hg : mapGet (clusterLoop visit₂ []) cidr = some g) :
    (g.IPs.map Prod.fst).Nodup ∧
      g.Hosts = (g.IPs.map fun p => namesOf registry p.1).sum := by
  rw [clusterLoop_group visit₂ h₂.1 cidr] at hg
  have hnd := filter_keys_nodup visit₂ (fun e => subnetOf e.1 = some cidr) h₂.1
  have hsub : ∀ x ∈ visit₂.filter (fun e => subnetOf e.1 = some cidr),
      x.2.length = namesOf registry x.1 := by
    intro x hx
    have hx' : (x.1, x.2) ∈ visit₂ := (List.mem_filter.mp hx).1
    have := (visited_ipRegistry registry visit₁ visit₂ h₁ h₂ x.1 x.2).mp hx'
    unfold namesOf
    cases hr : mapGet registry x.1 with
    | none => simp [hr] at this
    | some i =>
      simp only [hr, Option.map_some', Option.some.injEq] at this
      simp [← this]
  cases hf : visit₂.filter (fun e => subnetOf e.1 = some cidr) with
  | nil => simp [hf] at hg
  | cons e es =>
    rw [hf] at hnd hsub
    simp only [hf, Option.some.injEq] at hg
    rw [← hg]
    simp only [List.map_map]
    refine ⟨?_, ?_⟩
    · have : (Prod.fst ∘ fun x : Str × List Str => (x.1, true)) = Prod.fst := rfl
      rw [this]
      exact hnd
    · apply congrArg
      apply List.map_congr_left
      intro x hx
      exact hsub x hx

/-- C17: the labelling of subnet groups. Whatever the order in which the maps
are visited, the `Hosts` of every group is the sum, over its members, of the
number of names the registry associates with the member. A group is skipped
when filtering is on and the sampled member is matched by the oracle;
otherwise its status is the text of the label of the specification:
CDN-provider with the provider name if the sampled member is matched, else
shared-infrastructure exactly when `Hosts` exceeds 10, else unique-origin; the
three labels have distinct texts. For the registry holding `1.2.3.4` with 3
names and `1.2.3.9` with 9 names, neither matched, the single group
`1.2.3.0/24` has `Hosts` 12 and is shared-infrastructure; a group with `Hosts`
10 is unique-origin. -/
theorem subnet_labelling :
    (∀ (registry : Registry) (visit₁ : List (Str × IPInfo)) (visit₂ : List (Str × List Str)),
        IsRange registry visit₁ → IsRange (buildIpRegistry visit₁) visit₂ →
        ∀ (cidr : Str) (g : SubnetGroup), mapGet (clusterLoop visit₂ []) cidr = some g →
          (g.IPs.map Prod.fst).Nodup ∧
            g.Hosts = (g.IPs.map fun p => namesOf registry p.1).sum) ∧
      (∀ (filterCDN : Bool) (cdnCheck : Str → CdnAnswer) (firstIP : Str) (g : SubnetGroup),
        subnetVerdict filterCDN cdnCheck firstIP g =
          if filterCDN = true ∧ subnetIsCDN (cdnCheck firstIP) = true then none
          else some (subnetLabel (subnetIsCDN (cdnCheck firstIP)) (cdnCheck firstIP).val
            g.Hosts).text) ∧
      (∀ l₁ l₂ : SubnetLabel, l₁.text = l₂.text → l₁ = l₂) ∧
      (∀ (provider : Str) (count : Nat),
        (subnetLabel true provider count = .cdnProvider provider) ∧
          (subnetLabel false provider count = .sharedInfrastructure ↔ 10 < count) ∧
          (subnetLabel false provider count = .uniqueOrigin ↔ count ≤ 10)) ∧
      clusterLoop (buildIpRegistry sharedRegistry) [] =
        [("1.2.3.0/24".toList,
          { IPs := [("1.2.3.4".toList, true), ("1.2.3.9".toList, true)], Hosts := 12 })] ∧
      subnetVerdict false noCdn "1.2.3.4".toList
          { IPs := [("1.2.3.4".toList, true), ("1.2.3.9".toList, true)], Hosts := 12 } =
        some SubnetLabel.sharedInfrastructure.text ∧
      subnetVerdict false noCdn "1.2.3.4".toList
          { IPs := [("1.2.3.4".toList, true), ("1.2.3.9".toList, true)], Hosts := 10 } =
        some SubnetLabel.uniqueOrigin.text := by
  refine ⟨?_, ?_, subnetLabel_text_injective, ?_, by decide, by decide, by decide⟩
  · intro registry visit₁ visit₂ h₁ h₂ cidr g hg
    exact group_hosts registry visit₁ visit₂ h₁ h₂ cidr g hg
  · intro filterCDN cdnCheck firstIP g
    unfold subnetVerdict subnetStatus subnetLabel
    cases filterCDN <;> cases hc : subnetIsCDN (cdnCheck firstIP) <;>
      by_cases hh : 10 < g.Hosts <;> simp [hc, hh, SubnetLabel.text]
  · intro provider count
    unfold subnetLabel
    refine ⟨by simp, ?_, ?_⟩
    · by_cases hh : 10 < count <;> simp [hh]
    · by_cases hh : 10 < count
      · simp [hh]
      · simp [hh]
        omega

/-- The registry of the clustering example, visited in list order: an
instance of the general part of C17. The `Hosts` of its group is the sum 3 + 9
of the names of its two members. -/
theorem subnet_labelling_witness :
    (([("1.2.3.4".toList, true), ("1.2.3.9".toList, true)] : GoMap Bool).map Prod.fst).Nodup ∧
      (12 : Nat) =
        (([("1.2.3.4".toList, true), ("1.2.3.9".toList, true)] : GoMap Bool).map
          fun p => namesOf sharedRegistry p.1).sum :=
  subnet_labelling.1 sharedRegistry sharedRegistry (buildIpRegistry sharedRegistry)
    (isRange_self _ (by decide)) (isRange_self _ (by decide)) "1.2.3.0/24".toList
    { IPs := [("1.2.3.4".toList, true), ("1.2.3.9".toList, true)], Hosts := 12 } (by decide)

/-! ### The delay -/

theorem wrapInt64_of_range (x : Int) (h₁ : -9223372036854775808 ≤ x)
    (h₂ : x < 9223372036854775808) : wrapInt64 x = x := by
  unfold wrapInt64
  omega

/-- The claim C18 fails on the code when only a jitter is configured: with a
base delay of 0 and a jitter of 50 ms, whatever is drawn (here 25),
`sleepWithJitter` does not sleep, and does not even draw. -/
theorem sleepWithJitter_counterexample :
    sleepWithJitter (fun _ => 25) 0 50 = .noSleep ∧
      ∀ intn : Int → Int, sleepWithJitter intn 0 50 = .noSleep := by
  constructor
  · decide
  · intro intn
    rfl

/-- C18, amended: the per-candidate delay is `base` plus a draw from 0 to
`jitter` milliseconds whenever a positive base delay is configured, and there
is no delay when the base delay is 0, whatever the jitter. For every
`base > 0` and `jitter >= 0` whose sum, in nanoseconds, fits a 64-bit
duration, and every draw from 0 to `jitter` that `rand.Intn(jitter+1)`
returns, `sleepWithJitter` sleeps `base` plus the draw milliseconds, which
lies between `base` and `base + jitter`; every value in that range is attained
for some draw. -/
theorem sleepWithJitter_delay (base jitter : Int) :
    (base ≤ 0 → ∀ intn : Int → Int, sleepWithJitter intn base jitter = .noSleep) ∧
      (0 < base → 0 ≤ jitter → (base + jitter) * 1000000 < 9223372036854775808 →
        (∀ intn : Int → Int, 0 ≤ intn (jitter + 1) → intn (jitter + 1) ≤ jitter →
          sleepWithJitter intn base jitter = .sleep ((base + intn (jitter + 1)) * 1000000) ∧
            base * 1000000 ≤ (base + intn (jitter + 1)) * 1000000 ∧
            (base + intn (jitter + 1)) * 1000000 ≤ (base + jitter) * 1000000) ∧
          ∀ r : Int, 0 ≤ r → r ≤ jitter →
            sleepWithJitter (fun _ => r) base jitter = .sleep ((base + r) * 1000000)) := by
  have key : 0 < base → 0 ≤ jitter → (base + jitter) * 1000000 < 9223372036854775808 →
      ∀ intn : Int → Int, 0 ≤ intn (jitter + 1) → intn (jitter + 1) ≤ jitter →
        sleepWithJitter intn base jitter = .sleep ((base + intn (jitter + 1)) * 1000000) := by
    intro hb hj hfit intn h0 h1
    have hn : wrapInt64 (jitter + 1) = jitter + 1 :=
      wrapInt64_of_range _ (by omega) (by omega)
    have hms : wrapInt64 (base + intn (jitter + 1)) = base + intn (jitter + 1) :=
      wrapInt64_of_range _ (by omega) (by omega)
    have hns : wrapInt64 ((base + intn (jitter + 1)) * 1000000) =
        (base + intn (jitter + 1)) * 1000000 :=
      wrapInt64_of_range _ (by omega) (by omega)
    unfold sleepWithJitter
    have hpos : ¬ jitter + 1 ≤ 0 := by omega
    simp only [hb, if_true, hn, hpos, if_false, hms, hns, gt_iff_lt]
  constructor
  · intro hb intn
    unfold sleepWithJitter
    have : ¬ base > 0 := by omega
    simp only [this, if_false]
  · intro hb hj hfit
    constructor
    · intro intn h0 h1
      exact ⟨key hb hj hfit intn h0 h1, by omega, by omega⟩
    · intro r h0 h1
      exact key hb hj hfit (fun _ => r) h0 h1

/-- A base delay of 100 ms with a jitter of 50 ms and the draw 25: an
instance of the amended C18; the sleep is 125 ms. -/
theorem sleepWithJitter_delay_witness :
    sleepWithJitter (fun _ => 25) 100 50 = .sleep 125000000 :=
  (sleepWithJitter_delay 100 50).2 (by decide) (by decide) (by decide) |>.2 25
    (by decide) (by decide)

/-! ### The CDN test of the subnet report -/

/-- C19, on the code: the subnet report does not test the sampled address as
the worker does. The report takes `isCDN := matched`; the worker takes
`matched && errStr == ""`, where `errStr` is the third result of `Check`, the
kind of the matched item. The two tests agree exactly on the answers that are
not a match with a non-empty third result, so they disagree on every match
the library reports. For the answer (matched, `cloudflare`, `waf`) the report
labels the group CDN and skips it when filtering is on, while the worker does
not tag the address CDN-provider and keeps it when filtering is on. -/
theorem subnet_report_cdn_test :
    (∀ ans : CdnAnswer,
        subnetIsCDN ans = isCdnProvider ans ↔ (ans.matched = true → ans.errStr = [])) ∧
      (∀ ans : CdnAnswer, ans.isCheckResult = true → ans.matched = true →
        subnetIsCDN ans = true ∧ isCdnProvider ans = false) ∧
      subnetIsCDN { matched := true, val := "cloudflare".toList, errStr := "waf".toList } =
        true ∧
      isCdnProvider { matched := true, val := "cloudflare".toList, errStr := "waf".toList } =
        false ∧
      subnetVerdict false
          (fun _ => { matched := true, val := "cloudflare".toList, errStr := "waf".toList })
          "1.2.3.4".toList { IPs := [("1.2.3.4".toList, true)], Hosts := 1 } =
        some (SubnetLabel.cdnProvider "cloudflare".toList).text ∧
      subnetVerdict true
          (fun _ => { matched := true, val := "cloudflare".toList, errStr := "waf".toList })
          "1.2.3.4".toList { IPs := [("1.2.3.4".toList, true)], Hosts := 1 } = none ∧
      classify { matched := true, val := "cloudflare".toList, errStr := "waf".toList } false =
        .trueOrigin ∧
      classifyLoop
          (fun _ => { matched := true, val := "cloudflare".toList, errStr := "waf".toList })
          true [] ["1.2.3.4".toList] [] [] = (["1.2.3.4".toList], [trueOriginTag]) := by
  refine ⟨?_, ?_, by decide, by decide, by decide, by decide, by decide, by decide⟩
  · intro ans
    unfold subnetIsCDN isCdnProvider
    cases hm : ans.matched <;> by_cases he : ans.errStr = [] <;> simp [he]
  · intro ans hlib hm
    exact ⟨hm, isCdnProvider_of_checkResult ans hlib⟩

/-! ### Dropped candidates -/

theorem probe_none_of_error (env : WorkerEnv) (sub resolverAddr : Str)
    (h : (resolveCandidate env sub resolverAddr).err ≠ none) :
    probe env sub resolverAddr = none := by
  unfold probe
  cases herr : (resolveCandidate env sub resolverAddr).err with
  | some e => simp only [herr]
  | none => exact absurd herr h

theorem probe_none_of_filtered (env : WorkerEnv) (sub resolverAddr : Str)
    (h : (classifyLoop env.cdnCheck env.filterCDN env.wildcardIPs
      (resolveCandidate env sub resolverAddr).ips [] []).1 = []) :
    probe env sub resolverAddr = none := by
  unfold probe
  cases herr : (resolveCandidate env sub resolverAddr).err with
  | some e => simp only [herr]
  | none =>
    simp only [herr, h, List.length_nil, if_true]
    split <;> rfl

/-- The claim C20 fails on the code in its "emitted output exactly as
before". The progress line is printed at the head of the iteration, before
the name is resolved (engine.go:86-88). A worker that is not silent and has
taken nine candidates takes the label `www`, whose name does not resolve: the
candidate is dropped, the registry and the dedup store stay as they were, and
the output has gained the progress line of the tenth candidate. -/
theorem dropped_candidate_counterexample :
    (resolveCandidate steadyEnv "www".toList "8.8.8.8:53".toList).err =
        some "no such host".toList ∧
      steadyEnv.silent = false ∧
      workerStep steadyEnv ("www".toList, "8.8.8.8:53".toList)
          { foundItems := [], counter := 9, registry := [], out := [] } =
        ({ foundItems := [], counter := 10, registry := [],
           out := [OutEvent.progress "www".toList "example.com".toList 10] }, none) := by
  decide

/-- C20, amended: a dropped candidate changes neither the registry nor the
dedup store and reports no finding, and the worker goes on. When the
resolution of a candidate returns an error, or all its addresses are wildcard
addresses, or its filtered address list is empty, or its dedup key is already
in the store, the iteration leaves the registry, the dedup store and the
findings written so far exactly as they were; it increments the counter, and
what it writes is the progress line if this is a tenth candidate and the
worker is not silent, and nothing otherwise. The worker then processes the
rest of the queue as it would have from that state. -/
theorem dropped_candidate_frame (env : WorkerEnv) (job : Str × Str) (rest : List (Str × Str))
    (st : WorkerState)
    (hdrop : (resolveCandidate env job.1 job.2).err ≠ none ∨
      (∀ ip ∈ (resolveCandidate env job.1 job.2).ips, wildcardHit env.wildcardIPs ip = true) ∨
      (classifyLoop env.cdnCheck env.filterCDN env.wildcardIPs
        (resolveCandidate env job.1 job.2).ips [] []).1 = [] ∨
      (∃ f, probe env job.1 job.2 = some f ∧ f.key ∈ st.foundItems)) :
    (workerStep env job st).2 = none ∧
      (workerStep env job st).1.registry = st.registry ∧
      (workerStep env job st).1.foundItems = st.foundItems ∧
      reported (workerStep env job st).1 = reported st ∧
      (workerStep env job st).1.counter = st.counter + 1 ∧
      (workerStep env job st).1.out =
        st.out ++
          (if (!env.silent && (st.counter + 1) % 10 == 0) = true then
            [OutEvent.progress (cleanLabel env.lower job.1) env.domain (st.counter + 1)]
           else []) ∧
      (env.silent = true → (workerStep env job st).1.out = st.out) ∧
      (workerStep env job st).1 = countCandidate env job.1 st ∧
      runWorker env (job :: rest) st = runWorker env rest (countCandidate env job.1 st) := by
  have hstep : workerStep env job st = (countCandidate env job.1 st, none) := by
    rcases hdrop with h | h | h | ⟨f, hf, hk⟩
    · exact workerStep_of_probe_none env job st (probe_none_of_error env _ _ h)
    · exact workerStep_of_probe_none env job st (probe_none_of_wildcard env _ _ h)
    · exact workerStep_of_probe_none env job st (probe_none_of_filtered env _ _ h)
    · apply workerStep_of_key_mem
      intro g hg
      rw [hf] at hg
      injection hg with hg
      rw [← hg]
      exact hk
  obtain ⟨f1, f2, f3, f4⟩ := countCandidate_frame env job.1 st
  refine ⟨by rw [hstep], by rw [hstep]; exact f2, by rw [hstep]; exact f1,
    by rw [hstep]; exact f3, by rw [hstep]; exact f4,
    by rw [hstep]; exact countCandidate_out env job.1 st,
    fun hs => by rw [hstep]; exact countCandidate_out_silent env job.1 st hs,
    by rw [hstep], ?_⟩
  simp only [runWorker, hstep, Option.toList, List.nil_append]

/-- A candidate whose name does not resolve, followed by one that does: an
instance of the amended C20. The first changes nothing but the counter and
the second is reported. -/
theorem dropped_candidate_frame_witness :
    (workerStep steadyEnv ("www".toList, "8.8.8.8:53".toList) initialState).2 = none ∧
      (workerStep steadyEnv ("www".toList, "8.8.8.8:53".toList) initialState).1.registry = [] ∧
      (workerStep steadyEnv ("www".toList, "8.8.8.8:53".toList) initialState).1.foundItems = [] ∧
      (workerStep steadyEnv ("www".toList, "8.8.8.8:53".toList) initialState).1.out = [] ∧
      runWorker steadyEnv
          [("www".toList, "8.8.8.8:53".toList), ("api".toList, "8.8.8.8:53".toList)]
          initialState =
        runWorker steadyEnv [("api".toList, "8.8.8.8:53".toList)]
          (countCandidate steadyEnv "www".toList initialState) :=
  ⟨(dropped_candidate_frame steadyEnv ("www".toList, "8.8.8.8:53".toList)
      [("api".toList, "8.8.8.8:53".toList)] initialState (Or.inl (by decide))).1,
    (dropped_candidate_frame steadyEnv ("www".toList, "8.8.8.8:53".toList)
      [("api".toList, "8.8.8.8:53".toList)] initialState (Or.inl (by decide))).2.1,
    (dropped_candidate_frame steadyEnv ("www".toList, "8.8.8.8:53".toList)
      [("api".toList, "8.8.8.8:53".toList)] initialState (Or.inl (by decide))).2.2.1,
    ((dropped_candidate_frame steadyEnv ("www".toList, "8.8.8.8:53".toList)
      [("api".toList, "8.8.8.8:53".toList)] initialState
      (Or.inl (by decide))).2.2.2.2.2.1).trans (by decide),
    (dropped_candidate_frame steadyEnv ("www".toList, "8.8.8.8:53".toList)
      [("api".toList, "8.8.8.8:53".toList)] initialState
      (Or.inl (by decide))).2.2.2.2.2.2.2.2⟩

/-! ### The dedup key does not conflate findings -/

theorem workerStep_suppressed_key_mem (env : WorkerEnv) (job : Str × Str) (st : WorkerState)
    (f : Finding) (hf : probe env job.1 job.2 = some f)
    (hnone : (workerStep env job st).2 = none) : f.key ∈ st.foundItems := by
  obtain ⟨f1, _, _, _⟩ := countCandidate_frame env job.1 st
  by_contra hk
  unfold workerStep at hnone
  unfold Finding.key at hk
  simp [hf, f1, hk] at hnone

/-- C21: the dedup key does not conflate distinct findings. The key is the
name, then `-`, then the address list between square brackets with one space
between addresses. For all names and all non-empty address lists whose
addresses are non-empty and contain no space and no opening square bracket,
equal keys come from equal names and equal lists. Hence, in a run that
starts from an empty store and in which every surviving address is of that
kind, a candidate that reaches the dedup step and is dropped there is dropped
for a finding reported earlier with the same name and the same address list. -/
theorem recordKey_no_conflation :
    (∀ (n₁ n₂ : Str) (l₁ l₂ : List Str), l₁ ≠ [] → l₂ ≠ [] →
        (∀ a ∈ l₁, a ≠ [] ∧ ' ' ∉ a ∧ '[' ∉ a) → (∀ a ∈ l₂, a ≠ [] ∧ ' ' ∉ a ∧ '[' ∉ a) →
        recordKey n₁ l₁ = recordKey n₂ l₂ → n₁ = n₂ ∧ l₁ = l₂) ∧
      (∀ (n : Str) (l : List Str),
        recordKey n l = n ++ "-".toList ++ "[".toList ++ join l " ".toList ++ "]".toList) ∧
      ∀ (env : WorkerEnv) (jobs : List (Str × Str)) (st : WorkerState) (job : Str × Str)
        (f : Finding),
        st.foundItems = [] →
        (∀ j ∈ job :: jobs, ∀ g, probe env j.1 j.2 = some g →
          ∀ ip ∈ g.filteredIPs, ip ≠ [] ∧ ' ' ∉ ip ∧ '[' ∉ ip) →
        probe env job.1 job.2 = some f →
        (workerStep env job (runWorker env jobs st).1).2 = none →
        ∃ g ∈ (runWorker env jobs st).2,
          g.cleanSub = f.cleanSub ∧ g.filteredIPs = f.filteredIPs := by
  refine ⟨?_, ?_, ?_⟩
  · intro n₁ n₂ l₁ l₂ h₁ h₂ c₁ c₂ h
    exact recordKey_injective n₁ n₂ l₁ l₂ h₁ h₂
      (fun a ha => ⟨(c₁ a ha).2.1, (c₁ a ha).2.2⟩)
      (fun a ha => ⟨(c₂ a ha).2.1, (c₂ a ha).2.2⟩) h
  · intro n l
    simp [recordKey, fmtV]
  · intro env jobs st job f hfresh hclean hf hnone
    obtain ⟨r1, _, r3, _⟩ := runWorker_store env jobs st
    have hk := workerStep_suppressed_key_mem env job _ f hf hnone
    rw [r1, hfresh, List.nil_append] at hk
    obtain ⟨g, hg, hgk⟩ := List.mem_map.mp hk
    obtain ⟨j, hj, hgj⟩ := r3 g hg
    have cg := hclean j (List.mem_cons_of_mem _ hj) g hgj
    have cf := hclean job (List.mem_cons_self _ _) f hf
    have hinj := recordKey_injective g.cleanSub f.cleanSub g.filteredIPs f.filteredIPs
      (probe_filteredIPs_ne_nil env _ _ g hgj) (probe_filteredIPs_ne_nil env _ _ f hf)
      (fun a ha => ⟨(cg a ha).2.1, (cg a ha).2.2⟩)
      (fun a ha => ⟨(cf a ha).2.1, (cf a ha).2.2⟩) hgk
    exact ⟨g, hg, hinj.1, hinj.2⟩

/-- The names `a-[b` and `a` with the address lists `[c]` and `[b-c]`: an
instance of C21. The names differ, so the keys `a-[b-[c]` and `a-[b-c]`
differ. -/
theorem recordKey_no_conflation_witness :
    recordKey "a-[b".toList ["c".toList] ≠ recordKey "a".toList ["b-c".toList] :=
  fun h =>
    absurd
      (recordKey_no_conflation.1 "a-[b".toList "a".toList ["c".toList] ["b-c".toList]
        (by decide) (by decide) (by decide) (by decide) h).1
      (by decide)

end SubScratcher
